import Mathlib

/-!
Verification of the web-content retrieval engine of this repository
(src/pi-extensions/webfetch.ts) against its natural-language specification.

The TypeScript source is shallowly embedded: every function is translated to
an executable Lean definition with the same name and the same structure.
JavaScript strings are modelled by Lean strings (a structure around a list of
characters); the handful of JS regular expressions used by the source are
translated to explicit, structurally recursive character-list scanners.
Case conversion is modelled at ASCII granularity, which covers every string
class the source manipulates (hostnames, schemes, MIME types, header names).
-/

namespace Webfetch

/-! ## JavaScript string primitives (ASCII model) -/

/-- ASCII lower-casing of a single character (JS toLowerCase on ASCII). -/
def lcChar (c : Char) : Char :=
  if 'A' ≤ c ∧ c ≤ 'Z' then Char.ofNat (c.toNat + 32) else c

/-- Lower-case a string (JS String.prototype.toLowerCase, ASCII model). -/
def lower (s : String) : String :=
  ⟨s.data.map lcChar⟩

/-- JS whitespace characters recognised by trim and the \s regex class
(ASCII model: space, tab, newline, carriage return, vertical tab, form feed). -/
def isJsWs (c : Char) : Bool :=
  c = ' ' ∨ c = '\t' ∨ c = '\n' ∨ c = '\r' ∨ c = '\x0b' ∨ c = '\x0c'

/-- JS String.prototype.trim. -/
def jsTrim (s : String) : String :=
  ⟨((s.data.dropWhile isJsWs).reverse.dropWhile isJsWs).reverse⟩

/-- Whether the pattern occurs (as a contiguous sublist) in the list. -/
def hasSub (pat : List Char) : List Char → Bool
  | [] => pat.isPrefixOf []
  | c :: rest => pat.isPrefixOf (c :: rest) || hasSub pat rest

/-- Substring containment on strings (JS String.prototype.includes). -/
def strIncludes (s pat : String) : Bool :=
  hasSub pat.data s.data

/-- Prefix test on strings (JS String.prototype.startsWith). -/
def strStarts (s p : String) : Bool :=
  p.data.isPrefixOf s.data

/-- Suffix test on strings (JS String.prototype.endsWith). -/
def strEnds (s p : String) : Bool :=
  p.data.isSuffixOf s.data

/-- Dropping a prefix by predicate never lengthens a list. -/
theorem dropWhile_length_le (p : Char → Bool) (l : List Char) :
    (l.dropWhile p).length ≤ l.length := by
  induction l with
  | nil => simp [List.dropWhile]
  | cons c rest ih =>
    by_cases h : p c
    · simp only [List.dropWhile, h, List.length_cons]
      omega
    · simp [List.dropWhile, h]

/-- Auxiliary splitter: split a character list at every occurrence of the
(nonempty) separator d :: ds, JS String.prototype.split semantics.
The accumulator holds the current field reversed; the fuel argument is a
structural-recursion bound and is always supplied as the list length, which
exceeds the number of steps (every step consumes at least one character). -/
def splitOnAux (d : Char) (ds : List Char) : Nat → List Char → List Char → List (List Char)
  | _, [], acc => [acc.reverse]
  | 0, l, acc => [acc.reverse ++ l]
  | fuel + 1, c :: rest, acc =>
    if (d :: ds).isPrefixOf (c :: rest) then
      acc.reverse :: splitOnAux d ds fuel (List.drop ds.length rest) []
    else
      splitOnAux d ds fuel rest (c :: acc)

/-- String splitting on a nonempty literal separator (JS split). -/
def splitStr (s sep : String) : List String :=
  match sep.data with
  | [] => [s]
  | d :: ds => (splitOnAux d ds s.data.length s.data []).map (fun l => ⟨l⟩)

/-- Split on runs of whitespace (JS split(/\s+/)); a leading run yields an
empty first field, exactly as in JS. Fuel as in splitOnAux. -/
def splitWsAux : Nat → List Char → List Char → List (List Char)
  | _, [], acc => [acc.reverse]
  | 0, l, acc => [acc.reverse ++ l]
  | fuel + 1, c :: rest, acc =>
    if isJsWs c then acc.reverse :: splitWsAux fuel (rest.dropWhile isJsWs) []
    else splitWsAux fuel rest (c :: acc)

/-- JS split(/\s+/) on strings. -/
def splitWs (s : String) : List String :=
  (splitWsAux s.data.length s.data []).map (fun l => ⟨l⟩)

/-- Numeric value of a list of decimal digits (JS Number on an all-digit
string). -/
def digitsVal (l : List Char) : Nat :=
  l.foldl (fun acc c => 10 * acc + (c.toNat - '0'.toNat)) 0

/-! ## Private-Network Guard (webfetch.ts lines 317-401) -/

/-- Shape test for one octet field of the regex \d{1,3}. -/
def octetShape (s : String) : Bool :=
  decide (1 ≤ s.length) && decide (s.length ≤ 3) && s.data.all Char.isDigit

/-- Shape test for the regex ^\d{1,3}(?:\.\d{1,3}){3}$ . -/
def dottedQuadShape (s : String) : Bool :=
  (splitStr s ".").length == 4 && (splitStr s ".").all octetShape

/-- parseIPv4 from webfetch.ts: dotted-quad shape test, then numeric
conversion with a 0-255 bound on every octet. -/
def parseIPv4 (hostname : String) : Option (List Nat) :=
  if dottedQuadShape hostname then
    if ((splitStr hostname ".").map (fun p => digitsVal p.data)).all
        (fun o => decide (o ≤ 255)) then
      some ((splitStr hostname ".").map (fun p => digitsVal p.data))
    else none
  else none

/-- isPrivateIPv4 from webfetch.ts. -/
def isPrivateIPv4 (hostname : String) : Bool :=
  match parseIPv4 hostname with
  | none => false
  | some octets =>
    match octets with
    | a :: b :: _ =>
      a == 10 || a == 127 || a == 0 || (a == 169 && b == 254) ||
        (a == 172 && decide (16 ≤ b) && decide (b ≤ 31)) || (a == 192 && b == 168) ||
        (a == 100 && decide (64 ≤ b) && decide (b ≤ 127))
    | _ => false

/-- Lower-case hexadecimal digit test, the regex class [0-9a-f]. -/
def isHexLower (c : Char) : Bool :=
  c.isDigit || (decide ('a' ≤ c) && decide (c ≤ 'f'))

/-- Shape test for the regex ^(fc|fd)[0-9a-f]{2}: . -/
def fcfdShape (s : String) : Bool :=
  match s.data with
  | 'f' :: x :: h1 :: h2 :: ':' :: _ =>
    (x == 'c' || x == 'd') && isHexLower h1 && isHexLower h2
  | _ => false

/-- isPrivateIPv6 from webfetch.ts. The ::ffff: branch mirrors the source:
when the tail after ::ffff: has dotted-quad shape the embedded IPv4 decides,
otherwise the address is treated as private unconditionally. -/
def isPrivateIPv6 (hostname : String) : Bool :=
  let normalized := lower hostname
  if !normalized.data.contains ':' then false
  else if normalized == "::" || normalized == "::1" then true
  else if strStarts normalized "fe80:" then true
  else if fcfdShape normalized then true
  else if strStarts normalized "::ffff:" then
    let tail : String := ⟨normalized.data.drop 7⟩
    if dottedQuadShape tail then isPrivateIPv4 tail else true
  else false

/-- shouldAllowPrivateHosts from webfetch.ts, with the
WEBFETCH_ALLOW_PRIVATE_HOSTS environment variable passed explicitly
(None models an unset variable). -/
def shouldAllowPrivateHosts (env : Option String) : Bool :=
  match env with
  | none => false
  | some v =>
    let raw := lower (jsTrim v)
    raw == "1" || raw == "true" || raw == "yes"

/-- Strip one trailing dot, the regex replace(/\.$/, ""). -/
def stripTrailingDot (s : String) : String :=
  if strEnds s "." then ⟨s.data.dropLast⟩ else s

/-- Strip one matching pair of enclosing square brackets, the regex
replace(/^\[(.*)\]$/, "$1"). -/
def stripBrackets (s : String) : String :=
  if strStarts s "[" && strEnds s "]" && decide (2 ≤ s.length) then
    ⟨(s.data.drop 1).dropLast⟩
  else s

/-- normalizeHostname from webfetch.ts: lower-case, strip one trailing dot,
strip IPv6 brackets, cut at the first % (zone suffix). -/
def normalizeHostname (hostname : String) : String :=
  let withoutTrailingDot := stripTrailingDot (lower hostname)
  let withoutBrackets := stripBrackets withoutTrailingDot
  ⟨withoutBrackets.data.takeWhile (fun c => c ≠ '%')⟩

/-- getPrivateHostBlockReason from webfetch.ts (METADATA_HOSTS is the
single-element set containing metadata.google.internal). -/
def getPrivateHostBlockReason (env : Option String) (hostname : String) : Option String :=
  if shouldAllowPrivateHosts env then none
  else
    let normalized := normalizeHostname hostname
    if normalized.data.isEmpty then some "Target host is empty"
    else if normalized == "localhost" || strEnds normalized ".localhost" then
      some ("Blocked private host: " ++ normalized)
    else if normalized == "metadata.google.internal" then
      some ("Blocked metadata host: " ++ normalized)
    else if isPrivateIPv4 normalized || isPrivateIPv6 normalized then
      some ("Blocked private IP host: " ++ normalized)
    else none

/-! ## Specification-side address classification for claim C1

The claim classifies hostnames semantically: a hostname is in the blocked
class when (after the normalization described above) it is localhost or a
.localhost suffix, a cloud metadata hostname, an IPv4 address in the listed
CIDR ranges, or an IPv6 address that is ::, ::1, link-local fe80::/10,
unique-local fc00::/7, or an IPv4-mapped address embedding a private IPv4.
The definitions below parse addresses to their numeric value and test the
CIDR ranges arithmetically, independently of the source's textual checks. -/

/-- Value of a hexadecimal digit, upper or lower case. -/
def hexVal (c : Char) : Option Nat :=
  if c.isDigit then some (c.toNat - '0'.toNat)
  else if decide ('a' ≤ c) && decide (c ≤ 'f') then some (c.toNat - 'a'.toNat + 10)
  else if decide ('A' ≤ c) && decide (c ≤ 'F') then some (c.toNat - 'A'.toNat + 10)
  else none

/-- Parse one 16-bit IPv6 group: one to four hexadecimal digits. -/
def parseHexGroup (s : String) : Option Nat :=
  if decide (1 ≤ s.length) && decide (s.length ≤ 4) then
    s.data.foldl (fun acc c => do
      let a ← acc
      let v ← hexVal c
      pure (16 * a + v)) (some 0)
  else none

/-- Numeric 32-bit value of a dotted quad. -/
def ipv4Value : List Nat → Nat
  | [a, b, c, d] => ((a * 256 + b) * 256 + c) * 256 + d
  | _ => 0

/-- CIDR membership for the ranges the specification lists:
10/8, 127/8, 0/8, 169.254/16, 172.16/12, 192.168/16, 100.64/10,
expressed on the 32-bit address value. -/
def specIPv4Ranges (v : Nat) : Bool :=
  v / 16777216 == 10 || v / 16777216 == 127 || v / 16777216 == 0 ||
  v / 65536 == 169 * 256 + 254 ||
  v / 1048576 == 172 * 16 + 1 ||
  v / 65536 == 192 * 256 + 168 ||
  v / 4194304 == 100 * 4 + 1

/-- Parse a colon-separated run of IPv6 groups; a trailing dotted quad
(two groups) is permitted only in final position when allowV4 is set. -/
def ipv6Parts (allowV4 : Bool) : List String → Option (List Nat)
  | [] => some []
  | [p] =>
    if allowV4 && p.data.contains '.' then
      match parseIPv4 p with
      | some [a, b, c, d] => some [a * 256 + b, c * 256 + d]
      | _ => none
    else (parseHexGroup p).map (fun g => [g])
  | p :: q :: rest => do
    let g ← parseHexGroup p
    let gs ← ipv6Parts allowV4 (q :: rest)
    pure (g :: gs)

/-- Parse an IPv6 textual address into its eight 16-bit groups, handling at
most one :: zero-run abbreviation and an embedded dotted IPv4 tail. -/
def parseIPv6 (s : String) : Option (List Nat) :=
  match splitStr s "::" with
  | [whole] => do
    let gs ← ipv6Parts true (splitStr whole ":")
    if gs.length = 8 then pure gs else none
  | [l, r] => do
    let gl ← ipv6Parts false (if l.data.isEmpty then [] else splitStr l ":")
    let gr ← ipv6Parts true (if r.data.isEmpty then [] else splitStr r ":")
    if gl.length + gr.length ≤ 7 then
      pure (gl ++ List.replicate (8 - gl.length - gr.length) 0 ++ gr)
    else none
  | _ => none

/-- The IPv6 classes of the claim, on the parsed eight-group value:
unspecified ::, loopback ::1, link-local fe80::/10, unique-local fc00::/7,
and IPv4-mapped ::ffff:a.b.c.d with a private embedded address. -/
def specPrivateIPv6Groups : List Nat → Bool
  | [g0, g1, g2, g3, g4, g5, g6, g7] =>
    (g0 == 0 && g1 == 0 && g2 == 0 && g3 == 0 && g4 == 0 && g5 == 0 && g6 == 0 &&
      (g7 == 0 || g7 == 1)) ||
    g0 / 64 == 1018 ||
    g0 / 512 == 126 ||
    (g0 == 0 && g1 == 0 && g2 == 0 && g3 == 0 && g4 == 0 && g5 == 65535 &&
      specIPv4Ranges (g6 * 65536 + g7))
  | _ => false

/-- The blocked-hostname class exactly as claim C1 states it. -/
def specC1BlockedHost (h : String) : Bool :=
  let n := normalizeHostname h
  n == "localhost" || strEnds n ".localhost" ||
  n == "metadata.google.internal" ||
  (match parseIPv4 n with
   | some o => specIPv4Ranges (ipv4Value o)
   | none => false) ||
  (match parseIPv6 n with
   | some gs => specPrivateIPv6Groups gs
   | none => false)

/-! ## Claim C1: the Guard's blocked class -/

/-- Textual IPv6 clauses of the amended claim, on an already lower-cased
hostname: the literal :: or ::1, a literal fe80: prefix, the fc/fd
two-hex-digit colon pattern, or a ::ffff: prefix whose dotted-quad tail
(when shaped as one) is a private IPv4 — a non-dotted tail is blocked
unconditionally. -/
def amendedIPv6Textual (s : String) : Bool :=
  s == "::" || s == "::1" || strStarts s "fe80:" || fcfdShape s ||
  (strStarts s "::ffff:" &&
    (let tail : String := ⟨s.data.drop 7⟩
     if dottedQuadShape tail then isPrivateIPv4 tail else true))

/-- The amended blocked-hostname class: as claim C1, except that the IPv6
clauses are textual instead of semantic (the source tests the written form
of the address, not its parsed value). -/
def amendedC1BlockedHost (h : String) : Bool :=
  let n := normalizeHostname h
  n == "localhost" || strEnds n ".localhost" ||
  n == "metadata.google.internal" ||
  (match parseIPv4 n with
   | some o => specIPv4Ranges (ipv4Value o)
   | none => false) ||
  amendedIPv6Textual n

/-- ASCII lower-casing is idempotent on characters. -/
theorem lcChar_idem (c : Char) : lcChar (lcChar c) = lcChar c := by
  unfold lcChar
  by_cases h : 'A' ≤ c ∧ c ≤ 'Z'
  · simp only [if_pos h]
    have hval : c.toNat ≤ 90 := h.2
    have hval2 : 65 ≤ c.toNat := h.1
    have hvalid : Nat.isValidChar (c.toNat + 32) := by
      left
      omega
    have hofNat : (Char.ofNat (c.toNat + 32)).toNat = c.toNat + 32 := by
      unfold Char.ofNat
      rw [dif_pos hvalid]
      simp [Char.ofNatAux, Char.toNat, UInt32.toNat]
    have hne : ¬('A' ≤ Char.ofNat (c.toNat + 32) ∧ Char.ofNat (c.toNat + 32) ≤ 'Z') := by
      intro hcon
      have h90 : (Char.ofNat (c.toNat + 32)).toNat ≤ 90 := hcon.2
      omega
    simp [hne]
  · simp [h]

/-- Mapping lower-case over characters that are already fixed points is the
identity. -/
theorem map_lcChar_fixed {l : List Char} (hfix : ∀ c ∈ l, lcChar c = c) :
    l.map lcChar = l := by
  induction l with
  | nil => rfl
  | cons c t ih =>
    have hc : lcChar c = c := hfix c (by simp)
    have ht := ih (fun x hx => hfix x (by simp [hx]))
    simp [hc, ht]

/-- Strings all of whose characters are lower-case fixed points are fixed by
the lower function. -/
theorem lower_fixed_of_mem {s : String} (hfix : ∀ c ∈ s.data, lcChar c = c) :
    lower s = s := by
  apply String.ext
  show s.data.map lcChar = s.data
  exact map_lcChar_fixed hfix

/-- Every character of a normalized hostname is a lower-case fixed point:
normalization starts from the lower-cased input and only removes
characters. -/
theorem normalizeHostname_chars (h : String) :
    ∀ c ∈ (normalizeHostname h).data, lcChar c = c := by
  intro c hc
  have h1 : c ∈ (stripBrackets (stripTrailingDot (lower h))).data :=
    (List.takeWhile_prefix _).mem hc
  have h2 : c ∈ (stripTrailingDot (lower h)).data := by
    unfold stripBrackets at h1
    split at h1
    · exact List.mem_of_mem_drop (List.mem_of_mem_dropLast h1)
    · exact h1
  have h3 : c ∈ (lower h).data := by
    unfold stripTrailingDot at h2
    split at h2
    · exact List.mem_of_mem_dropLast h2
    · exact h2
  have h4 : c ∈ h.data.map lcChar := h3
  obtain ⟨x, _, hx⟩ := List.mem_map.mp h4
  rw [← hx]
  exact lcChar_idem x

/-- The lower function fixes every normalized hostname. -/
theorem lower_normalizeHostname (h : String) :
    lower (normalizeHostname h) = normalizeHostname h :=
  lower_fixed_of_mem (normalizeHostname_chars h)

/-- Boolean tautology matching the shape of the isPrivateIPv6 branch
chain against a flat disjunction. -/
theorem chainFour (c1 c2 c3 c4 x : Bool) :
    (if c1 then true else if c2 then true else if c3 then true
     else if c4 then x else false) = (c1 || c2 || c3 || (c4 && x)) := by
  cases c1 <;> cases c2 <;> cases c3 <;> cases c4 <;> cases x <;> rfl

/-- On lower-case-fixed strings, isPrivateIPv6 agrees with the amended
textual IPv6 class guarded by the colon test. -/
theorem isPrivateIPv6_eq_textual {n : String} (hfix : lower n = n) :
    isPrivateIPv6 n = (n.data.contains ':' && amendedIPv6Textual n) := by
  unfold isPrivateIPv6 amendedIPv6Textual
  rw [hfix]
  simp only []
  cases hcol : n.data.contains ':'
  · simp only [hcol, Bool.not_false, if_true, Bool.false_and]
  · simp only [hcol, Bool.not_true, Bool.false_eq_true, if_false, Bool.true_and]
    rw [chainFour]

/-- A character that occurs in a prefix pattern occurs in any string that
starts with that pattern. -/
theorem contains_of_strStarts {n p : String} (hp : strStarts n p = true) {c : Char}
    (hc : c ∈ p.data) : n.data.contains c = true :=
  List.elem_eq_true_of_mem ((List.isPrefixOf_iff_prefix.mp hp).mem hc)

/-- The amended textual IPv6 class only holds for strings containing a
colon. -/
theorem amendedIPv6Textual_contains {n : String} (hn : amendedIPv6Textual n = true) :
    n.data.contains ':' = true := by
  unfold amendedIPv6Textual at hn
  simp only [Bool.or_eq_true, Bool.and_eq_true] at hn
  rcases hn with ((((h | h) | h) | h) | ⟨h, _⟩)
  · rw [eq_of_beq h]
    decide
  · rw [eq_of_beq h]
    decide
  · exact contains_of_strStarts h (by decide)
  · unfold fcfdShape at h
    split at h
    · rename_i heq
      exact List.elem_eq_true_of_mem (by rw [heq]; simp)
    · exact absurd h (by simp)
  · exact contains_of_strStarts h (by decide)

/-- Octets produced by parseIPv4 are four in number and bounded by 255. -/
theorem parseIPv4_bounds {n : String} {o : List Nat} (h : parseIPv4 n = some o) :
    o.length = 4 ∧ ∀ x ∈ o, x ≤ 255 := by
  unfold parseIPv4 at h
  split at h
  · rename_i hshape
    split at h
    · rename_i hall
      have ho := Option.some.inj h
      subst ho
      constructor
      · have hlen : (splitStr n ".").length = 4 := by
          unfold dottedQuadShape at hshape
          simp only [Bool.and_eq_true, beq_iff_eq] at hshape
          exact hshape.1
        simpa using hlen
      · intro x hx
        have := List.all_eq_true.mp hall _ hx
        simpa using this
    · exact absurd h (by simp)
  · exact absurd h (by simp)

set_option maxHeartbeats 1000000 in
/-- The specification's CIDR ranges, evaluated on the 32-bit value of a
bounded dotted quad, coincide with the source's first-two-octet tests. -/
theorem specIPv4Ranges_octets {a b c d : Nat} (ha : a ≤ 255) (hb : b ≤ 255)
    (hc : c ≤ 255) (hd : d ≤ 255) :
    specIPv4Ranges (ipv4Value [a, b, c, d]) =
      (a == 10 || a == 127 || a == 0 || (a == 169 && b == 254) ||
        (a == 172 && decide (16 ≤ b) && decide (b ≤ 31)) || (a == 192 && b == 168) ||
        (a == 100 && decide (64 ≤ b) && decide (b ≤ 127))) := by
  unfold specIPv4Ranges ipv4Value
  rw [Bool.eq_iff_iff]
  simp only [Bool.or_eq_true, beq_iff_eq, Bool.and_eq_true, decide_eq_true_eq]
  omega

/-- On parsed hostnames the claim's value-level IPv4 range test agrees with
the source's isPrivateIPv4. -/
theorem specIPv4_eq_isPrivateIPv4 (n : String) :
    (match parseIPv4 n with
     | some o => specIPv4Ranges (ipv4Value o)
     | none => false) = isPrivateIPv4 n := by
  unfold isPrivateIPv4
  cases hp : parseIPv4 n
  · rfl
  · rename_i o
    obtain ⟨hlen, hbound⟩ := parseIPv4_bounds hp
    match o, hlen with
    | [a, b, c, d], _ =>
      have ha := hbound a (by simp)
      have hb := hbound b (by simp)
      have hc := hbound c (by simp)
      have hd := hbound d (by simp)
      exact specIPv4Ranges_octets ha hb hc hd

/-- Hostnames in the amended blocked class always draw a block reason when
the override is disabled. -/
theorem blockReason_ne_none {h : String} {env : Option String}
    (hallow : shouldAllowPrivateHosts env = false)
    (hb : amendedC1BlockedHost h = true) :
    getPrivateHostBlockReason env h ≠ none := by
  unfold getPrivateHostBlockReason
  rw [hallow]
  unfold amendedC1BlockedHost at hb
  simp only [Bool.false_eq_true, if_false]
  by_cases h0 : (normalizeHostname h).data.isEmpty = true
  · simp [h0]
  · by_cases h1 : ((normalizeHostname h) == "localhost" ||
        strEnds (normalizeHostname h) ".localhost") = true
    · simp [h0, h1]
    · by_cases h2 : ((normalizeHostname h) == "metadata.google.internal") = true
      · simp [h0, h1, h2]
      · by_cases h3 : (isPrivateIPv4 (normalizeHostname h) ||
            isPrivateIPv6 (normalizeHostname h)) = true
        · simp [h0, h1, h2, h3]
        · exfalso
          simp only [Bool.or_eq_true, not_or] at h1 h3
          simp only [Bool.or_eq_true] at hb
          rcases hb with ((((hc | hc) | hc) | hc) | hc)
          · exact h1.1 hc
          · exact h1.2 hc
          · exact h2 hc
          · rw [specIPv4_eq_isPrivateIPv4] at hc
            exact h3.1 hc
          · have hcol := amendedIPv6Textual_contains hc
            have h6 : isPrivateIPv6 (normalizeHostname h) = true := by
              rw [isPrivateIPv6_eq_textual (lower_normalizeHostname h), hcol, hc]
              rfl
            exact h3.2 h6

/-- C1 counterexample: the hostname fe81::1 parses as an IPv6 address in
fe80::/10 (link-local) and therefore belongs to the claim's blocked class,
yet with the override unset the Private-Network Guard returns no block
reason — the source only tests for the textual prefix fe80:, not for the
ten-bit link-local prefix. -/
theorem C1_counterexample :
    specC1BlockedHost "fe81::1" = true ∧
    shouldAllowPrivateHosts none = false ∧
    getPrivateHostBlockReason none "fe81::1" = none :=
  ⟨by decide, rfl, by decide⟩

/-- C1 (amended): for every hostname whose normalized form is localhost or
ends in .localhost, is the fixed cloud metadata hostname, parses as an IPv4
address in 10/8, 127/8, 0/8, 169.254/16, 172.16/12, 192.168/16 or 100.64/10,
or whose lower-cased text is an IPv6 form the source recognises (the literal
:: or ::1, a literal fe80: prefix, an fc/fd two-hex-digit colon pattern, or a
::ffff: prefix whose dotted-quad tail — when shaped as one — is a private
IPv4, any other ::ffff: tail being blocked unconditionally), the
Private-Network Guard returns a block reason; it returns no reason exactly
when the override environment variable is set to 1, true or yes. -/
theorem C1_amended_guard (h : String) (env : Option String)
    (hb : amendedC1BlockedHost h = true) :
    (getPrivateHostBlockReason env h = none) ↔ shouldAllowPrivateHosts env = true := by
  constructor
  · intro hnone
    cases hv : shouldAllowPrivateHosts env
    · exact absurd hnone (blockReason_ne_none hv hb)
    · rfl
  · intro hallow
    unfold getPrivateHostBlockReason
    rw [hallow]
    simp

/-- C1 witness: the amended theorem applied to the concrete private address
10.0.0.5 with the override unset. -/
theorem C1_witness :
    amendedC1BlockedHost "10.0.0.5" = true ∧
    ((getPrivateHostBlockReason none "10.0.0.5" = none) ↔
      shouldAllowPrivateHosts none = true) :=
  ⟨by decide, C1_amended_guard "10.0.0.5" none (by decide)⟩

/-! ## URL model

The source relies on the WHATWG URL class for parsing, serialising and
resolving URLs. The model below covers the fragment of that machinery the
engine exercises: authority-form URLs for the special schemes http and
https, and an opaque scheme:rest form for every other scheme (which the
resolver rejects before any further use). Percent-encoding, fragment
splitting, path normalization and port-range checks are not modelled; no
claim depends on them. -/

/-- Model of a parsed URL in authority form. The host field is the
hostname (no port, lower-cased); the port is kept as its digit string,
empty when absent. -/
structure MUrl where
  scheme : String
  username : String
  password : String
  host : String
  port : String
  path : String
  query : String
deriving DecidableEq, Repr

/-- A parsed URL: authority form for http/https, or an opaque scheme:rest
form for every other scheme. -/
inductive ParsedUrl where
  | auth (u : MUrl)
  | nonSpecial (scheme : String) (rest : String)
deriving DecidableEq, Repr

/-- Characters allowed after the first in a URL scheme, the regex class
[a-z0-9+.-] (case-insensitive). -/
def isSchemeChar (c : Char) : Bool :=
  c.isAlpha || c.isDigit || c = '+' || c = '.' || c = '-'

/-- Shape of a scheme name: one letter then scheme characters. -/
def schemeShapeL : List Char → Bool
  | [] => false
  | c :: rest => c.isAlpha && rest.all isSchemeChar

/-- Whether the regex ^[a-z][a-z0-9+.-]*: (with the i flag) matches: the
text up to the first colon is a well-shaped scheme name and a colon
exists. -/
def hasSchemeMark (s : String) : Bool :=
  decide ((s.data.takeWhile (fun c => c ≠ ':')).length < s.data.length) &&
    schemeShapeL (s.data.takeWhile (fun c => c ≠ ':'))

/-- The lower-cased scheme prefix of a string (text before the first
colon). -/
def schemeOf (s : String) : String :=
  ⟨(s.data.takeWhile (fun c => c ≠ ':')).map lcChar⟩

/-- Code points the model rejects in a hostname (the WHATWG forbidden host
code points, restricted to ASCII). -/
def hostForbidden (c : Char) : Bool :=
  c = '\x00' || c = '\t' || c = '\n' || c = '\r' || c = ' ' || c = '#' ||
  c = '/' || c = ':' || c = '<' || c = '>' || c = '?' || c = '@' ||
  c = '[' || c = '\\' || c = ']' || c = '^' || c = '|' || c = '%'

/-- Code points the model rejects inside userinfo (the WHATWG parser
percent-encodes these instead; no claim exercises such URLs). -/
def uiForbidden (c : Char) : Bool :=
  c = '\x00' || c = '\t' || c = '\n' || c = '\r' || c = ' ' || c = '#' ||
  c = '/' || c = '?'

/-- Split a character list at its last at-sign: (userinfo, host-port) when
an at-sign exists, no userinfo otherwise. -/
def breakAtLastAt (l : List Char) : Option (List Char) × List Char :=
  if l.contains '@' then
    let postRev := l.reverse.takeWhile (fun c => c ≠ '@')
    (some (l.reverse.drop (postRev.length + 1)).reverse, postRev.reverse)
  else (none, l)

/-- Split an authority block into username, password, host and port,
splitting userinfo at the last at-sign, username from password at the
first colon, and host from port at the first colon. -/
def parseAuthority (auth : List Char) :
    List Char × List Char × List Char × List Char :=
  let uiHp := breakAtLastAt auth
  let username := match uiHp.1 with
    | some ui => ui.takeWhile (fun c => c ≠ ':')
    | none => []
  let password := match uiHp.1 with
    | some ui => ui.drop (username.length + 1)
    | none => []
  let host := uiHp.2.takeWhile (fun c => c ≠ ':')
  let portDigits := uiHp.2.drop (host.length + 1)
  (username, password, host, portDigits)

/-- Validate split authority parts, cut the tail into path and query, and
assemble the URL value. -/
def assembleSpecial (scheme : String)
    (username password host portDigits tail : List Char) : Option ParsedUrl :=
  if host.isEmpty then none
  else if !(host.map lcChar).all (fun c => !hostForbidden c) then none
  else if !portDigits.all Char.isDigit then none
  else if !username.all (fun c => !uiForbidden c) then none
  else if !password.all (fun c => !uiForbidden c) then none
  else
    some (.auth
      { scheme := scheme
        username := ⟨username⟩
        password := ⟨password⟩
        host := ⟨host.map lcChar⟩
        port := ⟨portDigits⟩
        path := ⟨if (tail.takeWhile (fun c => c ≠ '?')).isEmpty then ['/']
                 else tail.takeWhile (fun c => c ≠ '?')⟩
        query := ⟨tail.drop (tail.takeWhile (fun c => c ≠ '?')).length⟩ })

/-- Parse the remainder after scheme: of an http/https URL: skip any run
of slashes, read the authority up to the first slash or question mark,
split it, validate, and read path and query. -/
def parseSpecialRest (scheme : String) (rest : List Char) : Option ParsedUrl :=
  assembleSpecial scheme
    (parseAuthority
      ((rest.dropWhile (fun c => c = '/')).takeWhile (fun c => c ≠ '/' && c ≠ '?'))).1
    (parseAuthority
      ((rest.dropWhile (fun c => c = '/')).takeWhile (fun c => c ≠ '/' && c ≠ '?'))).2.1
    (parseAuthority
      ((rest.dropWhile (fun c => c = '/')).takeWhile (fun c => c ≠ '/' && c ≠ '?'))).2.2.1
    (parseAuthority
      ((rest.dropWhile (fun c => c = '/')).takeWhile (fun c => c ≠ '/' && c ≠ '?'))).2.2.2
    ((rest.dropWhile (fun c => c = '/')).drop
      ((rest.dropWhile (fun c => c = '/')).takeWhile (fun c => c ≠ '/' && c ≠ '?')).length)

/-- Model of the WHATWG URL constructor on an absolute URL string. The
scheme is the text up to the first colon, lower-cased. -/
def parseUrlF (s : String) : Option ParsedUrl :=
  if (s.data.takeWhile (fun c => c ≠ ':')).length = s.data.length then none
  else if !schemeShapeL (s.data.takeWhile (fun c => c ≠ ':')) then none
  else if schemeOf s == "http" || schemeOf s == "https" then
    parseSpecialRest (schemeOf s)
      (s.data.drop ((s.data.takeWhile (fun c => c ≠ ':')).length + 1))
  else
    some (.nonSpecial (schemeOf s)
      ⟨s.data.drop ((s.data.takeWhile (fun c => c ≠ ':')).length + 1)⟩)

/-- Serialise an authority-form URL. -/
def MUrl.toStr (u : MUrl) : String :=
  u.scheme ++ "://" ++
  (if u.username.data.isEmpty && u.password.data.isEmpty then "" else
    u.username ++ (if u.password.data.isEmpty then "" else ":" ++ u.password) ++ "@") ++
  u.host ++ (if u.port.data.isEmpty then "" else ":" ++ u.port) ++ u.path ++ u.query

/-- Serialise any parsed URL (JS URL.prototype.toString). -/
def ParsedUrl.toStr : ParsedUrl → String
  | .auth u => u.toStr
  | .nonSpecial scheme rest => scheme ++ ":" ++ rest

/-- JS URL.prototype.protocol. -/
def ParsedUrl.protocol : ParsedUrl → String
  | .auth u => u.scheme ++ ":"
  | .nonSpecial scheme _ => scheme ++ ":"

/-- JS URL.prototype.hostname (empty for opaque-path URLs). -/
def ParsedUrl.hostnameOf : ParsedUrl → String
  | .auth u => u.host
  | .nonSpecial _ _ => ""

/-- Hostname of a URL string: parse and read the hostname, empty when the
string does not parse (new URL(s).hostname where the caller knows s
parses). -/
def urlHostname (s : String) : String :=
  match parseUrlF s with
  | some p => p.hostnameOf
  | none => ""

/-- Well-formedness of an authority-form URL value: exactly the conditions
the parser establishes, so that parsing inverts serialisation. -/
def MUrl.wf (u : MUrl) : Bool :=
  (u.scheme == "http" || u.scheme == "https") &&
  !u.host.data.isEmpty &&
  u.host.data.all (fun c => !hostForbidden c) &&
  u.host.data.all (fun c => lcChar c == c) &&
  u.port.data.all Char.isDigit &&
  u.username.data.all (fun c => !uiForbidden c && c != ':') &&
  u.password.data.all (fun c => !uiForbidden c) &&
  (u.path.data.head? == some '/') &&
  u.path.data.all (fun c => c != '?') &&
  (u.query.data.isEmpty || u.query.data.head? == some '?')

/-! ### List scanning lemmas for the parser proofs -/

/-- takeWhile runs past a block whose characters all satisfy the
predicate. -/
theorem tkw_app {p : Char → Bool} {l1 : List Char} (l2 : List Char)
    (h : ∀ c ∈ l1, p c = true) :
    (l1 ++ l2).takeWhile p = l1 ++ l2.takeWhile p := by
  induction l1 with
  | nil => simp
  | cons c t ih =>
    have hc := h c (by simp)
    simp only [List.cons_append, List.takeWhile_cons, hc, if_true]
    rw [ih (fun x hx => h x (by simp [hx]))]

/-- takeWhile stops at a failing head. -/
theorem tkw_stop {p : Char → Bool} {c : Char} (l : List Char) (h : p c = false) :
    (c :: l).takeWhile p = [] := by
  simp [List.takeWhile_cons, h]

/-- takeWhile of an all-satisfying list is the list itself. -/
theorem tkw_all {p : Char → Bool} {l : List Char} (h : ∀ c ∈ l, p c = true) :
    l.takeWhile p = l := by
  have := tkw_app [] h
  simpa using this

/-- dropWhile skips a block whose characters all satisfy the predicate. -/
theorem dpw_app {p : Char → Bool} {l1 : List Char} (l2 : List Char)
    (h : ∀ c ∈ l1, p c = true) :
    (l1 ++ l2).dropWhile p = l2.dropWhile p := by
  induction l1 with
  | nil => simp
  | cons c t ih =>
    have hc := h c (by simp)
    simp only [List.cons_append, List.dropWhile_cons, hc, if_true]
    exact ih (fun x hx => h x (by simp [hx]))

/-- dropWhile keeps a list whose head fails the predicate. -/
theorem dpw_stop {p : Char → Bool} {c : Char} (l : List Char) (h : p c = false) :
    (c :: l).dropWhile p = c :: l := by
  simp [List.dropWhile_cons, h]

/-- Members of takeWhile satisfy the predicate. -/
theorem tkw_mem {p : Char → Bool} {l : List Char} {c : Char}
    (h : c ∈ l.takeWhile p) : p c = true := by
  induction l with
  | nil => simp [List.takeWhile] at h
  | cons d t ih =>
    by_cases hd : p d
    · rw [List.takeWhile_cons, if_pos hd] at h
      rcases List.mem_cons.mp h with rfl | hmem
      · exact hd
      · exact ih hmem
    · rw [List.takeWhile_cons, if_neg hd] at h
      simp at h

/-- Dropping the takeWhile block is dropWhile. -/
theorem drop_tkw_length (p : Char → Bool) (l : List Char) :
    l.drop (l.takeWhile p).length = l.dropWhile p := by
  induction l with
  | nil => rfl
  | cons c t ih =>
    by_cases hc : p c
    · simp only [List.takeWhile_cons, List.dropWhile_cons, hc, if_true,
        List.length_cons, List.drop_succ_cons]
      exact ih
    · simp only [List.takeWhile_cons, List.dropWhile_cons, hc, if_false]
      rfl

/-- The head of a dropWhile result fails the predicate. -/
theorem dpw_head {p : Char → Bool} {l : List Char} {c : Char} {r : List Char}
    (h : l.dropWhile p = c :: r) : p c = false := by
  induction l with
  | nil => simp [List.dropWhile] at h
  | cons d t ih =>
    by_cases hd : p d
    · rw [List.dropWhile_cons, if_pos hd] at h
      exact ih h
    · rw [List.dropWhile_cons, if_neg hd] at h
      have hdc : d = c := (List.cons.inj h).1
      cases hdc
      cases hp : p c
      · rfl
      · exact absurd hp hd

/-- Splitting at the last at-sign of an explicitly split list. -/
theorem breakAtLastAt_split {ui post : List Char} (h : '@' ∉ post) :
    breakAtLastAt (ui ++ '@' :: post) = (some ui, post) := by
  have hcontains : (ui ++ '@' :: post).contains '@' = true :=
    List.elem_eq_true_of_mem (by simp)
  have hrev : (ui ++ '@' :: post).reverse = post.reverse ++ '@' :: ui.reverse := by
    simp
  have htk : (post.reverse ++ '@' :: ui.reverse).takeWhile (fun c => decide (c ≠ '@')) =
      post.reverse := by
    rw [tkw_app ('@' :: ui.reverse) (fun c hc => by
      simp only [decide_eq_true_eq]
      intro hceq
      exact h (by rw [← hceq]; exact List.mem_reverse.mp hc))]
    rw [tkw_stop _ (by simp)]
    simp
  have hdrop : (post.reverse ++ '@' :: ui.reverse).drop (post.reverse.length + 1) =
      ui.reverse := by
    rw [show post.reverse ++ '@' :: ui.reverse = (post.reverse ++ ['@']) ++ ui.reverse from
      by simp]
    rw [show post.reverse.length + 1 = (post.reverse ++ ['@']).length from by simp]
    exact List.drop_left _ _
  unfold breakAtLastAt
  rw [if_pos hcontains]
  simp only [hrev, htk, hdrop, List.reverse_reverse]

/-- No at-sign means no userinfo split. -/
theorem breakAtLastAt_none {l : List Char} (h : '@' ∉ l) :
    breakAtLastAt l = (none, l) := by
  unfold breakAtLastAt
  rw [if_neg (by simp [List.elem_eq_true_of_mem]; intro hc; exact h (by simpa using hc))]

/-- Separator splitting: takeWhile up to a failing separator recovers the
block before it, and dropping one past the block recovers the remainder. -/
theorem take_drop_sep {p : Char → Bool} {l1 : List Char} {sep : Char} (l2 : List Char)
    (h1 : ∀ c ∈ l1, p c = true) (hsep : p sep = false) :
    (l1 ++ sep :: l2).takeWhile p = l1 ∧ (l1 ++ sep :: l2).drop (l1.length + 1) = l2 := by
  constructor
  · rw [tkw_app (sep :: l2) h1, tkw_stop _ hsep]
    simp
  · rw [show l1 ++ sep :: l2 = (l1 ++ [sep]) ++ l2 from by simp,
      show l1.length + 1 = (l1 ++ [sep]).length from by simp]
    exact List.drop_left _ _

/-- Dropping one past the whole list empties it. -/
theorem drop_length_succ (l : List Char) : l.drop (l.length + 1) = [] :=
  List.drop_eq_nil_of_le (by omega)

/-! ## URL Resolver (normalizeUrl, webfetch.ts lines 245-258) -/

/-- Failures of the URL resolver. -/
inductive NormErr where
  | emptyUrl
  | invalidUrl
  | unsupportedScheme (protocol : String)
deriving DecidableEq, Repr

/-- Error message carried to the tool result (the invalid-URL text models
the WHATWG constructor's TypeError message). -/
def NormErr.message : NormErr → String
  | .emptyUrl => "URL must not be empty"
  | .invalidUrl => "Invalid URL"
  | .unsupportedScheme protocol => "Unsupported URL scheme: " ++ protocol

/-- Parse a URL string and enforce the http/https scheme restriction, the
second half of normalizeUrl. -/
def parseAndCheckScheme (s : String) : Except NormErr ParsedUrl :=
  match parseUrlF s with
  | none => .error .invalidUrl
  | some parsed =>
    if parsed.protocol != "http:" && parsed.protocol != "https:" then
      .error (.unsupportedScheme parsed.protocol)
    else .ok parsed

/-- normalizeUrl from webfetch.ts: trim, reject empty input, prepend
https:// when no scheme prefix is recognisable, parse, and accept only
http and https. -/
def normalizeUrl (rawUrl : String) : Except NormErr ParsedUrl :=
  let trimmed := jsTrim rawUrl
  if trimmed.data.isEmpty then .error .emptyUrl
  else
    parseAndCheckScheme (if hasSchemeMark trimmed then trimmed else "https://" ++ trimmed)

/-- Appending a colon to strings is injective. -/
theorem append_colon_inj {a b : String} (h : a ++ ":" = b ++ ":") : a = b := by
  apply String.ext
  have hd : a.data ++ [':'] = b.data ++ [':'] := by
    have := congrArg String.data h
    simpa [String.data_append] using this
  exact List.append_cancel_right hd

/-- C9: the URL resolver trims the raw input and fails with the empty-URL
error when the trimmed string is empty; for every non-empty input with no
recognisable scheme prefix it prepends https:// before parsing; and every
explicitly given scheme other than http and https fails with the
unsupported-scheme error rather than being rewritten. -/
theorem C9_url_resolver :
    (∀ rawUrl : String, jsTrim rawUrl = "" →
      normalizeUrl rawUrl = .error .emptyUrl) ∧
    (∀ rawUrl : String, jsTrim rawUrl ≠ "" → hasSchemeMark (jsTrim rawUrl) = false →
      normalizeUrl rawUrl = parseAndCheckScheme ("https://" ++ jsTrim rawUrl)) ∧
    (∀ rawUrl : String, hasSchemeMark (jsTrim rawUrl) = true →
      schemeOf (jsTrim rawUrl) ≠ "http" → schemeOf (jsTrim rawUrl) ≠ "https" →
      normalizeUrl rawUrl =
        .error (.unsupportedScheme (schemeOf (jsTrim rawUrl) ++ ":"))) := by
  refine ⟨?_, ?_, ?_⟩
  · intro rawUrl hempty
    unfold normalizeUrl
    rw [hempty]
    rfl
  · intro rawUrl hne hmark
    unfold normalizeUrl
    have hde : (jsTrim rawUrl).data.isEmpty = false := by
      cases hd : (jsTrim rawUrl).data.isEmpty
      · rfl
      · exact absurd (String.ext (by simpa using hd)) hne
    simp only [hde, hmark]
    simp
  · intro rawUrl hmark hnh hns
    have hlt : ((jsTrim rawUrl).data.takeWhile (fun c => decide (c ≠ ':'))).length <
        (jsTrim rawUrl).data.length := by
      unfold hasSchemeMark at hmark
      simp only [Bool.and_eq_true, decide_eq_true_eq] at hmark
      exact hmark.1
    have hshape : schemeShapeL ((jsTrim rawUrl).data.takeWhile (fun c => decide (c ≠ ':'))) =
        true := by
      unfold hasSchemeMark at hmark
      simp only [Bool.and_eq_true, decide_eq_true_eq] at hmark
      exact hmark.2
    have hde : (jsTrim rawUrl).data.isEmpty = false := by
      cases hd : (jsTrim rawUrl).data
      · rw [hd] at hlt
        simp at hlt
      · rfl
    unfold normalizeUrl
    simp only [hde, hmark, Bool.false_eq_true, if_false, if_true]
    unfold parseAndCheckScheme parseUrlF
    rw [if_neg (by omega), hshape]
    simp only [Bool.not_true, Bool.false_eq_true, if_false]
    have hb1 : (schemeOf (jsTrim rawUrl) == "http") = false := by
      cases hbeq : schemeOf (jsTrim rawUrl) == "http"
      · rfl
      · exact absurd (eq_of_beq hbeq) hnh
    have hb2 : (schemeOf (jsTrim rawUrl) == "https") = false := by
      cases hbeq : schemeOf (jsTrim rawUrl) == "https"
      · rfl
      · exact absurd (eq_of_beq hbeq) hns
    rw [hb1, hb2]
    simp only [Bool.or_self, Bool.false_eq_true, if_false]
    have hp : (ParsedUrl.nonSpecial (schemeOf (jsTrim rawUrl))
        ⟨(jsTrim rawUrl).data.drop
          (((jsTrim rawUrl).data.takeWhile (fun c => decide (c ≠ ':'))).length + 1)⟩).protocol =
        schemeOf (jsTrim rawUrl) ++ ":" := rfl
    have hbne : (schemeOf (jsTrim rawUrl) ++ ":" != "http:") = true := by
      rw [bne_iff_ne]
      exact fun hcontra => hnh (append_colon_inj hcontra)
    have hbne2 : (schemeOf (jsTrim rawUrl) ++ ":" != "https:") = true := by
      rw [bne_iff_ne]
      exact fun hcontra => hns (append_colon_inj hcontra)
    rw [hp, hbne, hbne2]
    rfl

/-- C9 witness: the three resolver behaviours at concrete inputs — a blank
string, a scheme-less host, and an ftp URL. -/
theorem C9_witness :
    (jsTrim "   " = "" ∧ normalizeUrl "   " = .error .emptyUrl) ∧
    (jsTrim " example.com/x " ≠ "" ∧ hasSchemeMark (jsTrim " example.com/x ") = false ∧
      normalizeUrl " example.com/x " =
        parseAndCheckScheme ("https://" ++ jsTrim " example.com/x ")) ∧
    (hasSchemeMark (jsTrim "ftp://mirror.example") = true ∧
      normalizeUrl "ftp://mirror.example" =
        .error (.unsupportedScheme (schemeOf (jsTrim "ftp://mirror.example") ++ ":"))) := by
  obtain ⟨h1, h2, h3⟩ := C9_url_resolver
  exact ⟨⟨by decide, h1 _ (by decide)⟩,
    ⟨by decide, by decide, h2 _ (by decide) (by decide)⟩,
    ⟨by decide, h3 _ (by decide) (by decide) (by decide)⟩⟩

/-! ### Parser outputs are well-formed -/

/-- The username component produced by parseAuthority never contains a
colon. -/
theorem parseAuthority_username_colonFree (auth : List Char) :
    ∀ c ∈ (parseAuthority auth).1, c ≠ ':' := by
  unfold parseAuthority
  cases hb : (breakAtLastAt auth).1 with
  | none =>
    simp [hb]
  | some ui =>
    simp only [hb]
    intro c hc
    exact of_decide_eq_true (tkw_mem hc)

/-- assembleSpecial only returns values satisfying MUrl.wf, given that the
username carries no colon and the tail (when nonempty) starts at a slash or
question mark. -/
theorem assembleSpecial_wf {scheme : String} {un pw ho po tail : List Char} {u : MUrl}
    (hs : (scheme == "http" || scheme == "https") = true)
    (hun : ∀ c ∈ un, c ≠ ':')
    (htl : ∀ c r, tail = c :: r → c = '/' ∨ c = '?')
    (h : assembleSpecial scheme un pw ho po tail = some (.auth u)) : u.wf = true := by
  unfold assembleSpecial at h
  split at h
  · exact absurd h (by simp)
  · split at h
    · exact absurd h (by simp)
    · split at h
      · exact absurd h (by simp)
      · split at h
        · exact absurd h (by simp)
        · split at h
          · exact absurd h (by simp)
          · rename_i hempty hhost hport huser hpass
            have hu := ParsedUrl.auth.inj (Option.some.inj h)
            subst hu
            have hhost' : (List.map lcChar ho).all (fun c => !hostForbidden c) = true := by
              simpa using hhost
            have hport' : po.all Char.isDigit = true := by simpa using hport
            have huser' : un.all (fun c => !uiForbidden c) = true := by simpa using huser
            have hpass' : pw.all (fun c => !uiForbidden c) = true := by simpa using hpass
            unfold MUrl.wf
            simp only [Bool.and_eq_true, hs, Bool.true_and]
            refine ⟨⟨⟨⟨⟨⟨⟨⟨?_, hhost'⟩, ?_⟩, hport'⟩, ?_⟩, hpass'⟩, ?_⟩, ?_⟩, ?_⟩
            · cases hho : ho with
              | nil =>
                rw [hho] at hempty
                simp at hempty
              | cons c t => simp [hho]
            · rw [List.all_eq_true]
              intro c hc
              obtain ⟨x, -, rfl⟩ := List.mem_map.mp hc
              exact beq_iff_eq.mpr (lcChar_idem x)
            · rw [List.all_eq_true]
              intro c hc
              have h1 := List.all_eq_true.mp huser' c hc
              have h2 : (c != ':') = true := bne_iff_ne.mpr (hun c hc)
              simp only at h1
              simp [h1, h2]
            · cases htk : tail.takeWhile (fun c => decide (c ≠ '?')) with
              | nil => simp [htk]
              | cons c r =>
                have hne : c ≠ '?' := of_decide_eq_true (tkw_mem (htk ▸ List.mem_cons_self c r))
                obtain ⟨t, ht⟩ := (htk ▸ List.takeWhile_prefix
                  (fun c => decide (c ≠ '?')) : (c :: r) <+: tail)
                have hslash : c = '/' := by
                  rcases htl c (r ++ t) (by rw [← ht]; simp) with hc | hc
                  · exact hc
                  · exact absurd hc hne
                subst hslash
                simp [htk]
            · cases htk : tail.takeWhile (fun c => decide (c ≠ '?')) with
              | nil => simp [htk]
              | cons c r =>
                simp only [htk, List.isEmpty_cons, Bool.false_eq_true, if_false]
                rw [List.all_eq_true]
                intro x hx
                rw [← htk] at hx
                exact bne_iff_ne.mpr (of_decide_eq_true (tkw_mem hx))
            · rw [drop_tkw_length]
              cases hdw : tail.dropWhile (fun c => decide (c ≠ '?')) with
              | nil => simp
              | cons c r =>
                have hq := dpw_head hdw
                simp only [decide_eq_false_iff_not, not_not] at hq
                subst hq
                simp

/-- parseSpecialRest only returns authority values satisfying MUrl.wf. -/
theorem parseSpecialRest_wf {scheme : String} {rest : List Char} {u : MUrl}
    (hs : (scheme == "http" || scheme == "https") = true)
    (h : parseSpecialRest scheme rest = some (.auth u)) : u.wf = true := by
  unfold parseSpecialRest at h
  refine assembleSpecial_wf hs ?_ ?_ h
  · exact parseAuthority_username_colonFree _
  · intro c r hcr
    rw [drop_tkw_length] at hcr
    have hfail := dpw_head hcr
    by_cases hslash : c = '/'
    · exact Or.inl hslash
    · by_cases hq : c = '?'
      · exact Or.inr hq
      · exfalso
        rw [decide_eq_true (show c ≠ '/' from hslash),
          decide_eq_true (show c ≠ '?' from hq)] at hfail
        simp at hfail

/-- Characters a hostname may contain are never one of the structural
delimiters. -/
theorem hostChar_ne {c : Char} (h : hostForbidden c = false) :
    c ≠ '/' ∧ c ≠ '?' ∧ c ≠ '@' ∧ c ≠ ':' := by
  refine ⟨?_, ?_, ?_, ?_⟩ <;> intro hc <;> subst hc <;> exact absurd h (by decide)

/-- Characters a userinfo component may contain are never a slash or
question mark. -/
theorem uiChar_ne {c : Char} (h : uiForbidden c = false) : c ≠ '/' ∧ c ≠ '?' := by
  refine ⟨?_, ?_⟩ <;> intro hc <;> subst hc <;> exact absurd h (by decide)

/-- Digits are never structural URL delimiters. -/
theorem digitChar_ne {c : Char} (h : c.isDigit = true) :
    c ≠ '@' ∧ c ≠ ':' ∧ c ≠ '/' ∧ c ≠ '?' := by
  refine ⟨?_, ?_, ?_, ?_⟩ <;> intro hc <;> subst hc <;> exact absurd h (by decide)

/-- Rebuilding a string from its character data is the identity. -/
theorem strEta (s : String) : (⟨s.data⟩ : String) = s := by
  cases s
  rfl

/-- parseUrlF only returns authority values satisfying MUrl.wf. -/
theorem parseUrlF_wf {s : String} {u : MUrl}
    (h : parseUrlF s = some (.auth u)) : u.wf = true := by
  unfold parseUrlF at h
  split at h
  · exact absurd h (by simp)
  · split at h
    · exact absurd h (by simp)
    · split at h
      · rename_i hck
        exact parseSpecialRest_wf hck h
      · exact ParsedUrl.noConfusion (Option.some.inj h)

/-! ### Parsing inverts serialisation on well-formed URL values -/

/-- Splitting a serialised host-port block at the first colon. -/
theorem hostport_split {host port : List Char}
    (hfb : ∀ c ∈ host, hostForbidden c = false)
    (hpo : ∀ c ∈ port, c.isDigit = true) :
    (host ++ (if port.isEmpty then [] else ':' :: port)).takeWhile
      (fun c => decide (c ≠ ':')) = host ∧
    (host ++ (if port.isEmpty then [] else ':' :: port)).drop (host.length + 1) = port := by
  have hhc : ∀ c ∈ host, decide (c ≠ ':') = true :=
    fun c hc => decide_eq_true (hostChar_ne (hfb c hc)).2.2.2
  cases hpe : port.isEmpty with
  | true =>
    have hport : port = [] := by
      cases port
      · rfl
      · exact absurd hpe (by simp)
    subst hport
    simp only [if_true, List.append_nil]
    exact ⟨tkw_all hhc, drop_length_succ host⟩
  | false =>
    simp only [Bool.false_eq_true, if_false]
    exact take_drop_sep port hhc (by simp)

/-- parseAuthority recovers the four components from a serialised
authority block. -/
theorem parseAuthority_round {username password host port : List Char}
    (hun : ∀ c ∈ username, uiForbidden c = false ∧ c ≠ ':')
    (hpw : ∀ c ∈ password, uiForbidden c = false)
    (hfb : ∀ c ∈ host, hostForbidden c = false)
    (hpo : ∀ c ∈ port, c.isDigit = true) :
    parseAuthority
      ((if username.isEmpty && password.isEmpty then [] else
        username ++ ((if password.isEmpty then [] else ':' :: password) ++ ['@'])) ++
       (host ++ (if port.isEmpty then [] else ':' :: port))) =
    (username, password, host, port) := by
  have hnoat : '@' ∉ host ++ (if port.isEmpty then [] else ':' :: port) := by
    intro hmem
    rcases List.mem_append.mp hmem with hm | hm
    · exact absurd (hfb _ hm) (by decide)
    · cases hpe : port.isEmpty with
      | true =>
        rw [hpe] at hm
        simp at hm
      | false =>
        rw [hpe] at hm
        simp only [Bool.false_eq_true, if_false] at hm
        rcases List.mem_cons.mp hm with hm1 | hm1
        · exact absurd hm1 (by decide)
        · exact absurd (hpo _ hm1) (by decide)
  obtain ⟨hh1, hh2⟩ := hostport_split hfb hpo
  cases hui : (username.isEmpty && password.isEmpty) with
  | true =>
    have hb : username.isEmpty = true ∧ password.isEmpty = true := by
      rw [← Bool.and_eq_true]
      exact hui
    have huser : username = [] := by
      cases username
      · rfl
      · exact absurd hb.1 (by simp)
    have hpass : password = [] := by
      cases password
      · rfl
      · exact absurd hb.2 (by simp)
    subst huser
    subst hpass
    simp only [if_true, List.nil_append]
    unfold parseAuthority
    rw [breakAtLastAt_none hnoat]
    simp only [hh1, hh2]
  | false =>
    simp only [Bool.false_eq_true, if_false]
    have hassoc : (username ++ ((if password.isEmpty then [] else ':' :: password) ++ ['@'])) ++
        (host ++ (if port.isEmpty then [] else ':' :: port)) =
        (username ++ (if password.isEmpty then [] else ':' :: password)) ++
          '@' :: (host ++ (if port.isEmpty then [] else ':' :: port)) := by
      simp
    rw [hassoc]
    unfold parseAuthority
    rw [breakAtLastAt_split hnoat]
    have huc : ∀ c ∈ username, decide (c ≠ ':') = true :=
      fun c hc => decide_eq_true (hun c hc).2
    cases hpe : password.isEmpty with
    | true =>
      have hpass : password = [] := by
        cases password
        · rfl
        · exact absurd hpe (by simp)
      subst hpass
      simp only [if_true, List.append_nil]
      simp only [tkw_all huc, drop_length_succ, hh1, hh2]
    | false =>
      simp only [Bool.false_eq_true, if_false]
      obtain ⟨ht1, ht2⟩ := take_drop_sep (p := fun c => decide (c ≠ ':'))
        password huc (show (fun c => decide (c ≠ ':')) ':' = false by simp)
      simp only [ht1, ht2, hh1, hh2]

/-- parseSpecialRest on a serialised scheme-relative part: the two slashes
are skipped, the authority block (free of slashes and question marks) is
cut at the path start, and the pieces feed assembleSpecial. -/
theorem parseSpecialRest_eq {scheme : String} {A tail2 : List Char}
    (hAne : A ≠ [])
    (hA : ∀ c ∈ A, (decide (c ≠ '/') && decide (c ≠ '?')) = true)
    (ht2 : ∃ r, tail2 = '/' :: r) :
    parseSpecialRest scheme ('/' :: '/' :: (A ++ tail2)) =
      assembleSpecial scheme (parseAuthority A).1 (parseAuthority A).2.1
        (parseAuthority A).2.2.1 (parseAuthority A).2.2.2 tail2 := by
  obtain ⟨r, hr⟩ := ht2
  have h1 : ('/' :: '/' :: (A ++ tail2)).dropWhile (fun c => decide (c = '/')) =
      A ++ tail2 := by
    cases hAc : A with
    | nil => exact absurd hAc hAne
    | cons c A2 =>
      have hcp := hA c (by rw [hAc]; simp)
      rw [Bool.and_eq_true] at hcp
      have hc : decide (c = '/') = false :=
        decide_eq_false (of_decide_eq_true hcp.1)
      simp [List.dropWhile_cons, hc]
  have h2 : (A ++ tail2).takeWhile (fun c => decide (c ≠ '/') && decide (c ≠ '?')) = A := by
    rw [tkw_app tail2 hA, hr, tkw_stop _ (by simp)]
    simp
  have h3 : (A ++ tail2).drop A.length = tail2 := List.drop_left _ _
  unfold parseSpecialRest
  rw [h1, h2, h3]

/-- assembleSpecial succeeds and rebuilds the URL value when its parts
satisfy the well-formedness conditions. -/
theorem assembleSpecial_round {scheme : String}
    {username password host port path query : List Char}
    (hun : ∀ c ∈ username, uiForbidden c = false)
    (hpw : ∀ c ∈ password, uiForbidden c = false)
    (hfb : ∀ c ∈ host, hostForbidden c = false)
    (hlc : host.map lcChar = host)
    (hpo : ∀ c ∈ port, c.isDigit = true)
    (hhne : host ≠ [])
    (hpm : ∃ pr, path = '/' :: pr)
    (hpa : ∀ c ∈ path, c ≠ '?')
    (hq : query = [] ∨ ∃ qr, query = '?' :: qr) :
    assembleSpecial scheme username password host port (path ++ query) =
      some (.auth
        { scheme := scheme, username := ⟨username⟩, password := ⟨password⟩,
          host := ⟨host⟩, port := ⟨port⟩, path := ⟨path⟩, query := ⟨query⟩ }) := by
  obtain ⟨pr, hpr⟩ := hpm
  have htake : (path ++ query).takeWhile (fun c => decide (c ≠ '?')) = path := by
    rw [tkw_app query (fun c hc => decide_eq_true (hpa c hc))]
    rcases hq with hq | ⟨qr, hq⟩
    · rw [hq]
      simp
    · rw [hq, tkw_stop _ (by simp)]
      simp
  have hdrop : (path ++ query).drop path.length = query := List.drop_left _ _
  have hhe : host.isEmpty = false := by
    cases hh : host
    · exact absurd hh hhne
    · rfl
  have hX1 : (List.map lcChar host).all (fun c => !hostForbidden c) = true := by
    rw [hlc, List.all_eq_true]
    intro c hc
    rw [hfb c hc]
    rfl
  have hX2 : port.all Char.isDigit = true := List.all_eq_true.mpr hpo
  have hX3 : username.all (fun c => !uiForbidden c) = true := by
    rw [List.all_eq_true]
    intro c hc
    rw [hun c hc]
    rfl
  have hX4 : password.all (fun c => !uiForbidden c) = true := by
    rw [List.all_eq_true]
    intro c hc
    rw [hpw c hc]
    rfl
  unfold assembleSpecial
  rw [htake]
  rw [if_neg (by simp [hhe]), if_neg (by simp [hX1]), if_neg (by simp [hX2]),
    if_neg (by simp [hX3]), if_neg (by simp [hX4]), if_neg (by rw [hpr]; simp)]
  rw [hdrop, hlc]

/-- parseUrlF on a special-scheme URL defers to parseSpecialRest. -/
theorem parseUrlF_special {scheme : String} (hs : scheme = "http" ∨ scheme = "https")
    (rest : List Char) :
    parseUrlF ⟨scheme.data ++ ':' :: rest⟩ = parseSpecialRest scheme rest := by
  have hcolon : ∀ c ∈ scheme.data, decide (c ≠ ':') = true := by
    rcases hs with hs | hs <;> subst hs <;> decide
  have htk : ((scheme.data ++ ':' :: rest).takeWhile (fun c => decide (c ≠ ':'))) =
      scheme.data := by
    rw [tkw_app (':' :: rest) hcolon, tkw_stop _ (by simp)]
    simp
  have hdrop : (scheme.data ++ ':' :: rest).drop (scheme.data.length + 1) = rest :=
    (take_drop_sep rest hcolon (by simp)).2
  have hshape : schemeShapeL scheme.data = true := by
    rcases hs with hs | hs <;> subst hs <;> decide
  have hof : schemeOf ⟨scheme.data ++ ':' :: rest⟩ = scheme := by
    unfold schemeOf
    show (⟨((scheme.data ++ ':' :: rest).takeWhile (fun c => decide (c ≠ ':'))).map
      lcChar⟩ : String) = scheme
    rw [htk]
    rcases hs with hs | hs <;> subst hs <;> decide
  have hbeq : (schemeOf ⟨scheme.data ++ ':' :: rest⟩ == "http" ||
      schemeOf ⟨scheme.data ++ ':' :: rest⟩ == "https") = true := by
    rw [hof]
    rcases hs with hs | hs <;> subst hs <;> decide
  have hb2 : (scheme == "http" || scheme == "https") = true := by
    rcases hs with hs | hs <;> subst hs <;> decide
  unfold parseUrlF
  simp only [htk, hshape, hof, hb2, Bool.not_true, Bool.false_eq_true, if_false, if_true]
  rw [if_neg (by
    simp only [List.length_append, List.length_cons]
    omega)]
  show parseSpecialRest scheme ((scheme.data ++ ':' :: rest).drop
    (scheme.data.length + 1)) = _
  rw [hdrop]

/-- Parsing inverts serialisation on well-formed URL values. -/
theorem parse_toStr {u : MUrl} (hwf : u.wf = true) :
    parseUrlF u.toStr = some (.auth u) := by
  obtain ⟨scheme, username, password, host, port, path, query⟩ := u
  unfold MUrl.wf at hwf
  simp only [Bool.and_eq_true] at hwf
  obtain ⟨⟨⟨⟨⟨⟨⟨⟨⟨hsch, hne⟩, hfb⟩, hlc⟩, hpo⟩, hun⟩, hpw⟩, hpm⟩, hpa⟩, hq⟩ := hwf
  have hfb2 : ∀ c ∈ host.data, hostForbidden c = false := by
    intro c hc
    have := List.all_eq_true.mp hfb c hc
    simpa using this
  have hlc2 : host.data.map lcChar = host.data :=
    map_lcChar_fixed (fun c hc => eq_of_beq (List.all_eq_true.mp hlc c hc))
  have hpo2 : ∀ c ∈ port.data, c.isDigit = true := fun c hc => List.all_eq_true.mp hpo c hc
  have hun2 : ∀ c ∈ username.data, uiForbidden c = false ∧ c ≠ ':' := by
    intro c hc
    have h1 := List.all_eq_true.mp hun c hc
    rw [Bool.and_eq_true] at h1
    exact ⟨by simpa using h1.1, bne_iff_ne.mp h1.2⟩
  have hpw2 : ∀ c ∈ password.data, uiForbidden c = false := by
    intro c hc
    have := List.all_eq_true.mp hpw c hc
    simpa using this
  have hne2 : host.data ≠ [] := by
    intro hcon
    rw [hcon] at hne
    simp at hne
  have hpm2 : ∃ pr, path.data = '/' :: pr := by
    cases hpd : path.data with
    | nil =>
      rw [hpd] at hpm
      simp at hpm
    | cons c t =>
      rw [hpd] at hpm
      have : c = '/' := by
        have := eq_of_beq hpm
        simpa using this
      exact ⟨t, by rw [this]⟩
  have hpa2 : ∀ c ∈ path.data, c ≠ '?' := by
    intro c hc
    exact bne_iff_ne.mp (List.all_eq_true.mp hpa c hc)
  have hq2 : query.data = [] ∨ ∃ qr, query.data = '?' :: qr := by
    cases hqd : query.data with
    | nil => exact Or.inl rfl
    | cons c t =>
      rw [hqd] at hq
      simp only [List.isEmpty_cons, Bool.false_or] at hq
      have : c = '?' := by
        have := eq_of_beq hq
        simpa using this
      exact Or.inr ⟨t, by rw [this]⟩
  have hs2 : scheme = "http" ∨ scheme = "https" := by
    have h := hsch
    rw [Bool.or_eq_true] at h
    rcases h with h | h
    · exact Or.inl (eq_of_beq h)
    · exact Or.inr (eq_of_beq h)
  have hdata : MUrl.toStr ⟨scheme, username, password, host, port, path, query⟩ =
      ⟨scheme.data ++ ':' :: '/' :: '/' ::
        (((if username.data.isEmpty && password.data.isEmpty then [] else
          username.data ++
            ((if password.data.isEmpty then [] else ':' :: password.data) ++ ['@'])) ++
         (host.data ++ (if port.data.isEmpty then [] else ':' :: port.data))) ++
         (path.data ++ query.data))⟩ := by
    apply String.ext
    show (MUrl.toStr _).data = _
    unfold MUrl.toStr
    by_cases hui : (username.data.isEmpty && password.data.isEmpty) = true
    · by_cases hpe : port.data.isEmpty = true
      · simp [hui, hpe, String.data_append] <;> try (split <;> simp [String.data_append])
      · simp [hui, hpe, String.data_append] <;> try (split <;> simp [String.data_append])
    · by_cases hpe : port.data.isEmpty = true
      · by_cases hpwe : password.data.isEmpty = true
        · simp [hui, hpe, hpwe, String.data_append] <;>
            try (split <;> simp [String.data_append])
        · simp [hui, hpe, hpwe, String.data_append] <;>
            try (split <;> simp [String.data_append])
      · by_cases hpwe : password.data.isEmpty = true
        · simp [hui, hpe, hpwe, String.data_append] <;>
            try (split <;> simp [String.data_append])
        · simp [hui, hpe, hpwe, String.data_append] <;>
            try (split <;> simp [String.data_append])
  have hA : ∀ c ∈ (if username.data.isEmpty && password.data.isEmpty then [] else
      username.data ++
        ((if password.data.isEmpty then [] else ':' :: password.data) ++ ['@'])) ++
      (host.data ++ (if port.data.isEmpty then [] else ':' :: port.data)),
      (decide (c ≠ '/') && decide (c ≠ '?')) = true := by
    intro c hc
    have hcne : c ≠ '/' ∧ c ≠ '?' := by
      rcases List.mem_append.mp hc with hm | hm
      · split at hm
        · simp at hm
        · rcases List.mem_append.mp hm with hm1 | hm1
          · exact uiChar_ne (hun2 c hm1).1
          · rcases List.mem_append.mp hm1 with hm2 | hm2
            · split at hm2
              · simp at hm2
              · rcases List.mem_cons.mp hm2 with hm3 | hm3
                · subst hm3
                  exact ⟨by decide, by decide⟩
                · exact uiChar_ne (hpw2 c hm3)
            · have hcat : c = '@' := by simpa using hm2
              subst hcat
              exact ⟨by decide, by decide⟩
      · rcases List.mem_append.mp hm with hm1 | hm1
        · have h4 := hostChar_ne (hfb2 c hm1)
          exact ⟨h4.1, h4.2.1⟩
        · split at hm1
          · simp at hm1
          · rcases List.mem_cons.mp hm1 with hm2 | hm2
            · subst hm2
              exact ⟨by decide, by decide⟩
            · have h4 := digitChar_ne (hpo2 c hm2)
              exact ⟨h4.2.2.1, h4.2.2.2⟩
    rw [decide_eq_true hcne.1, decide_eq_true hcne.2]
    rfl
  have hAne : (if username.data.isEmpty && password.data.isEmpty then [] else
      username.data ++
        ((if password.data.isEmpty then [] else ':' :: password.data) ++ ['@'])) ++
      (host.data ++ (if port.data.isEmpty then [] else ':' :: port.data)) ≠ [] := by
    intro hcon
    rw [List.append_eq_nil] at hcon
    rw [List.append_eq_nil] at hcon
    exact hne2 hcon.2.1
  obtain ⟨pr, hpr⟩ := hpm2
  rw [hdata, parseUrlF_special hs2, parseSpecialRest_eq hAne hA
    ⟨pr ++ query.data, by rw [hpr]; simp⟩]
  rw [parseAuthority_round hun2 hpw2 hfb2 hpo2]
  show assembleSpecial scheme username.data password.data host.data port.data
    (path.data ++ query.data) = _
  rw [assembleSpecial_round (fun c hc => (hun2 c hc).1) hpw2 hfb2 hlc2 hpo2 hne2
    ⟨pr, hpr⟩ hpa2 hq2]

/-! ## Credential redaction (webfetch.ts lines 260-284) -/

/-- The replacement marker REDACTED_CREDENTIALS. -/
def redactedCredentials : String := "[redacted]"

/-- The regex class [a-z] under the i flag. -/
def isRegexSchemeStart (c : Char) : Bool :=
  'a' ≤ lcChar c && lcChar c ≤ 'z'

/-- The regex class [a-z0-9+.-] under the i flag. -/
def isRegexSchemeChar (c : Char) : Bool :=
  isRegexSchemeStart c || c.isDigit || c = '+' || c = '.' || c = '-'

/-- The regex class [^/\s@]. -/
def uiNoAt (c : Char) : Bool :=
  !(c = '/' || isJsWs c || c = '@')

/-- The regex class [^/\s:@]. -/
def cls3a (c : Char) : Bool :=
  !(c = '/' || isJsWs c || c = ':' || c = '@')

/-- Try the regex ([a-z][a-z0-9+.-]*:\/\/)[^/\s@]+@ (i flag) at the head
of the list: on a match, the captured scheme-and-slashes group and the
remainder after the at-sign. Both quantifiers are exact without
backtracking because the follow-set characters are excluded from the
repeated classes. -/
def matchSchemeAuth (l : List Char) : Option (List Char × List Char) :=
  match l with
  | [] => none
  | c :: rest =>
    if isRegexSchemeStart c then
      match rest.dropWhile isRegexSchemeChar with
      | c1 :: c2 :: c3 :: r2 =>
        if c1 = ':' ∧ c2 = '/' ∧ c3 = '/' then
          match r2.dropWhile uiNoAt with
          | c4 :: r4 =>
            if c4 = '@' ∧ (r2.takeWhile uiNoAt).isEmpty = false then
              some (c :: rest.takeWhile isRegexSchemeChar ++ [':', '/', '/'], r4)
            else none
          | [] => none
        else none
      | _ => none
    else none

/-- Global left-to-right replacement pass for the first redaction regex;
the fuel is the list length (every step consumes at least one
character). -/
def replace1Aux : Nat → List Char → List Char
  | _, [] => []
  | 0, l => l
  | fuel + 1, c :: rest =>
    match matchSchemeAuth (c :: rest) with
    | some (pre, after) =>
      pre ++ redactedCredentials.data ++ '@' :: replace1Aux fuel after
    | none => c :: replace1Aux fuel rest

/-- Try \/\/[^/\s@]+@ at the head of the list; on a match, the remainder
after the at-sign. -/
def matchSlashAuth (l : List Char) : Option (List Char) :=
  match l with
  | c1 :: c2 :: r2 =>
    if c1 = '/' ∧ c2 = '/' then
      match r2.dropWhile uiNoAt with
      | c4 :: r4 =>
        if c4 = '@' ∧ (r2.takeWhile uiNoAt).isEmpty = false then some r4
        else none
      | [] => none
    else none
  | _ => none

/-- Global pass for the second redaction regex (^|\s)\/\/[^/\s@]+@: the
flag records whether the scan position is the start of the string; at an
interior position the alternation must consume a whitespace character. -/
def replace2Aux : Nat → Bool → List Char → List Char
  | _, _, [] => []
  | 0, _, l => l
  | fuel + 1, atStart, c :: rest =>
    if atStart then
      match matchSlashAuth (c :: rest) with
      | some r4 =>
        '/' :: '/' :: redactedCredentials.data ++ '@' :: replace2Aux fuel false r4
      | none => c :: replace2Aux fuel false rest
    else if isJsWs c then
      match matchSlashAuth rest with
      | some r4 =>
        c :: '/' :: '/' :: redactedCredentials.data ++ '@' :: replace2Aux fuel false r4
      | none => c :: replace2Aux fuel false rest
    else c :: replace2Aux fuel false rest

/-- The third, anchored, non-global redaction regex
^([^/\s:@]+:[^/\s@]+)@ with the whole group dropped from the
replacement. -/
def replace3 (l : List Char) : List Char :=
  match l.dropWhile cls3a with
  | [] => l
  | c1 :: r2 =>
    if c1 = ':' ∧ (l.takeWhile cls3a).isEmpty = false then
      match r2.dropWhile uiNoAt with
      | [] => l
      | c2 :: r4 =>
        if c2 = '@' ∧ (r2.takeWhile uiNoAt).isEmpty = false then
          redactedCredentials.data ++ '@' :: r4
        else l
    else l

/-- redactRawUrlCredentials from webfetch.ts: return unchanged when no
at-sign occurs, otherwise apply the three replacement regexes in
order. -/
def redactRawUrlCredentials (rawUrl : String) : String :=
  if !rawUrl.data.contains '@' then rawUrl
  else
    ⟨replace3 (replace2Aux (replace1Aux rawUrl.data.length rawUrl.data).length true
      (replace1Aux rawUrl.data.length rawUrl.data))⟩

/-- Clearing username and password on a parsed URL (parsed.username = "";
parsed.password = ""; opaque-path URLs carry no userinfo). -/
def ParsedUrl.clearCreds : ParsedUrl → ParsedUrl
  | .auth u => .auth { u with username := "", password := "" }
  | .nonSpecial scheme rest => .nonSpecial scheme rest

/-- redactUrlCredentials from webfetch.ts: empty input maps to the empty
string; a parseable URL is reserialised with its credentials cleared; an
unparseable one falls back to the raw textual redaction. -/
def redactUrlCredentials (url : String) : String :=
  if url.data.isEmpty then ""
  else
    match parseUrlF url with
    | some parsed => (ParsedUrl.clearCreds parsed).toStr
    | none => redactRawUrlCredentials url

/-- A URL string carries credentials when it parses to an authority form
with a nonempty username or password. -/
def hasCreds (s : String) : Bool :=
  match parseUrlF s with
  | some (.auth u) => !(u.username.data.isEmpty && u.password.data.isEmpty)
  | _ => false

theorem matchSchemeAuth_at {l : List Char} {r : List Char × List Char}
    (h : matchSchemeAuth l = some r) : '@' ∈ l := by
  unfold matchSchemeAuth at h
  split at h
  · exact absurd h (by simp)
  · rename_i c rest
    split at h
    · split at h
      · rename_i c1 c2 c3 r2 heq
        split at h
        · split at h
          · rename_i c4 r4 heq2
            split at h
            · rename_i hcond
              have h4 : '@' ∈ r2.dropWhile uiNoAt := by
                rw [heq2, hcond.1]
                exact List.mem_cons_self _ _
              have h5 : '@' ∈ r2 := (List.dropWhile_sublist _).mem h4
              have h6 : '@' ∈ rest.dropWhile isRegexSchemeChar := by
                rw [heq]
                simp [h5]
              exact List.mem_cons_of_mem _ ((List.dropWhile_sublist _).mem h6)
            · exact absurd h (by simp)
          · exact absurd h (by simp)
        · exact absurd h (by simp)
      · exact absurd h (by simp)
    · exact absurd h (by simp)

theorem matchSlashAuth_at {l : List Char} {r : List Char}
    (h : matchSlashAuth l = some r) : '@' ∈ l := by
  unfold matchSlashAuth at h
  split at h
  · rename_i c1 c2 r2
    split at h
    · split at h
      · rename_i c4 r4 heq2
        split at h
        · rename_i hcond
          have h4 : '@' ∈ r2.dropWhile uiNoAt := by
            rw [heq2, hcond.1]
            exact List.mem_cons_self _ _
          have h5 : '@' ∈ r2 := (List.dropWhile_sublist _).mem h4
          simp [h5]
        · exact absurd h (by simp)
      · exact absurd h (by simp)
    · exact absurd h (by simp)
  · exact absurd h (by simp)

theorem replace1Aux_noAt {l : List Char} (fuel : Nat) (h : '@' ∉ l) :
    replace1Aux fuel l = l := by
  induction fuel generalizing l with
  | zero => cases l <;> rfl
  | succ n ih =>
    cases l with
    | nil => rfl
    | cons c rest =>
      rw [replace1Aux]
      cases hm : matchSchemeAuth (c :: rest) with
      | some pr =>
        exact absurd (matchSchemeAuth_at hm) h
      | none =>
        rw [ih (fun hmem => h (List.mem_cons_of_mem _ hmem))]

theorem matchSlashAuth_not_slash {c : Char} (t : List Char) (h : ¬ c = '/') :
    matchSlashAuth (c :: t) = none := by
  cases t with
  | nil => rfl
  | cons c2 r2 =>
    simp only [matchSlashAuth]
    rw [if_neg (by intro hc; exact h hc.1)]

theorem replace2Aux_skip (fuel : Nat) (b : Bool) (l : List Char)
    (hstart : b = true → matchSlashAuth l = none)
    (hws : ∀ c r', List.IsSuffix (c :: r') l → isJsWs c = true → matchSlashAuth r' = none) :
    replace2Aux fuel b l = l := by
  induction fuel generalizing b l with
  | zero => cases l <;> rfl
  | succ n ih =>
    cases l with
    | nil => rfl
    | cons c rest =>
      have hrec : replace2Aux n false rest = rest := by
        refine ih false rest (by simp) ?_
        intro d r' hsuf hd
        exact hws d r' (hsuf.trans (List.suffix_cons c rest)) hd
      rw [replace2Aux]
      cases b with
      | true =>
        rw [if_pos rfl, hstart rfl, hrec]
      | false =>
        rw [if_neg (by simp)]
        by_cases hc : isJsWs c = true
        · rw [if_pos hc, hws c rest (List.suffix_refl _) hc, hrec]
        · rw [if_neg hc, hrec]
theorem cls3a_false_cases {c : Char} (hcl : cls3a c = false) :
    c = '/' ∨ isJsWs c = true ∨ c = ':' ∨ c = '@' := by
  rw [cls3a, Bool.not_eq_false'] at hcl
  rw [Bool.or_eq_true] at hcl
  rcases hcl with hcl | h4
  · rw [Bool.or_eq_true] at hcl
    rcases hcl with hcl | h3
    · rw [Bool.or_eq_true] at hcl
      rcases hcl with h1 | h2
      · exact Or.inl (of_decide_eq_true h1)
      · exact Or.inr (Or.inl h2)
    · exact Or.inr (Or.inr (Or.inl (of_decide_eq_true h3)))
  · exact Or.inr (Or.inr (Or.inr (of_decide_eq_true h4)))

theorem schemeStart_props {c : Char} (h : isRegexSchemeStart c = true) :
    isJsWs c = false ∧ cls3a c = true := by
  rw [isRegexSchemeStart, Bool.and_eq_true] at h
  have hb : 'a' ≤ lcChar c ∧ lcChar c ≤ 'z' :=
    ⟨of_decide_eq_true h.1, of_decide_eq_true h.2⟩
  by_cases hU : 'A' ≤ c ∧ c ≤ 'Z'
  · constructor
    · cases hws : isJsWs c
      · rfl
      · exfalso
        have hd : c = ' ' ∨ c = '\t' ∨ c = '\n' ∨ c = '\r' ∨ c = '\x0b' ∨ c = '\x0c' := by
          simpa [isJsWs] using hws
        rcases hd with rfl | rfl | rfl | rfl | rfl | rfl <;> exact absurd hU.1 (by decide)
    · cases hcl : cls3a c
      · exfalso
        have hd := cls3a_false_cases hcl
        rcases hd with rfl | hws | rfl | rfl
        · exact absurd hU.1 (by decide)
        · have hd2 : c = ' ' ∨ c = '\t' ∨ c = '\n' ∨ c = '\r' ∨ c = '\x0b' ∨ c = '\x0c' := by
            simpa [isJsWs] using hws
          rcases hd2 with rfl | rfl | rfl | rfl | rfl | rfl <;> exact absurd hU.1 (by decide)
        · exact absurd hU.1 (by decide)
        · exact absurd hU.1 (by decide)
      · rfl
  · have hlc : lcChar c = c := by rw [lcChar, if_neg hU]
    rw [hlc] at hb
    constructor
    · cases hws : isJsWs c
      · rfl
      · exfalso
        have hd : c = ' ' ∨ c = '\t' ∨ c = '\n' ∨ c = '\r' ∨ c = '\x0b' ∨ c = '\x0c' := by
          simpa [isJsWs] using hws
        rcases hd with rfl | rfl | rfl | rfl | rfl | rfl <;> exact absurd hb.1 (by decide)
    · cases hcl : cls3a c
      · exfalso
        have hd := cls3a_false_cases hcl
        rcases hd with rfl | hws | rfl | rfl
        · exact absurd hb.1 (by decide)
        · have hd2 : c = ' ' ∨ c = '\t' ∨ c = '\n' ∨ c = '\r' ∨ c = '\x0b' ∨ c = '\x0c' := by
            simpa [isJsWs] using hws
          rcases hd2 with rfl | rfl | rfl | rfl | rfl | rfl <;> exact absurd hb.1 (by decide)
        · exact absurd hb.1 (by decide)
        · exact absurd hb.1 (by decide)
      · rfl

theorem schemeChar_props {c : Char} (h : isRegexSchemeChar c = true) :
    isJsWs c = false ∧ cls3a c = true := by
  rw [isRegexSchemeChar] at h
  rw [Bool.or_eq_true] at h
  rcases h with h | h
  · rw [Bool.or_eq_true] at h
    rcases h with h | h
    · rw [Bool.or_eq_true] at h
      rcases h with h | h
      · rw [Bool.or_eq_true] at h
        rcases h with h | h
        · exact schemeStart_props h
        · have hb : '0' ≤ c ∧ c ≤ '9' := by
            rw [Char.isDigit, Bool.and_eq_true] at h
            exact ⟨of_decide_eq_true h.1, of_decide_eq_true h.2⟩
          constructor
          · cases hws : isJsWs c
            · rfl
            · exfalso
              have hd : c = ' ' ∨ c = '\t' ∨ c = '\n' ∨ c = '\r' ∨ c = '\x0b' ∨ c = '\x0c' := by
                simpa [isJsWs] using hws
              rcases hd with rfl | rfl | rfl | rfl | rfl | rfl <;> exact absurd hb.1 (by decide)
          · cases hcl : cls3a c
            · exfalso
              have hd := cls3a_false_cases hcl
              rcases hd with rfl | hws | rfl | rfl
              · exact absurd hb.1 (by decide)
              · have hd2 : c = ' ' ∨ c = '\t' ∨ c = '\n' ∨ c = '\r' ∨ c = '\x0b' ∨ c = '\x0c' := by
                  simpa [isJsWs] using hws
                rcases hd2 with rfl | rfl | rfl | rfl | rfl | rfl <;> exact absurd hb.1 (by decide)
              · exact absurd hb.2 (by decide)
              · exact absurd hb.2 (by decide)
            · rfl
      · have hc : c = '+' := by simpa using h
        subst hc
        exact ⟨by decide, by decide⟩
    · have hc : c = '.' := by simpa using h
      subst hc
      exact ⟨by decide, by decide⟩
  · have hc : c = '-' := by simpa using h
    subst hc
    exact ⟨by decide, by decide⟩

theorem schemeStart_ne_slash {c : Char} (h : isRegexSchemeStart c = true) : ¬ c = '/' := by
  intro hc
  subst hc
  exact absurd h (by decide)
theorem redactedCredentials_ws : ∀ c ∈ redactedCredentials.data, isJsWs c = false := by
  decide

theorem redactRaw_shape {s0 : Char} {srest ui rest : List Char}
    (h0 : isRegexSchemeStart s0 = true)
    (hsr : ∀ c ∈ srest, isRegexSchemeChar c = true)
    (hne : ui ≠ []) (hui : ∀ c ∈ ui, uiNoAt c = true)
    (hat : '@' ∉ rest) (hws : ∀ c ∈ rest, isJsWs c = false) :
    redactRawUrlCredentials ⟨s0 :: srest ++ ':' :: '/' :: '/' :: (ui ++ '@' :: rest)⟩ =
      ⟨s0 :: srest ++ ':' :: '/' :: '/' :: (redactedCredentials.data ++ '@' :: rest)⟩ := by
  obtain ⟨u0, utl, rfl⟩ := List.exists_cons_of_ne_nil hne
  have hdp : (srest ++ ':' :: '/' :: '/' :: (u0 :: utl ++ '@' :: rest)).dropWhile
      isRegexSchemeChar = ':' :: '/' :: '/' :: (u0 :: utl ++ '@' :: rest) := by
    rw [dpw_app _ hsr, dpw_stop _ (by decide)]
  have htk : (srest ++ ':' :: '/' :: '/' :: (u0 :: utl ++ '@' :: rest)).takeWhile
      isRegexSchemeChar = srest := by
    rw [tkw_app _ hsr, tkw_stop _ (by decide)]
    simp
  have hdp2 : ((u0 :: utl) ++ '@' :: rest).dropWhile uiNoAt = '@' :: rest := by
    rw [dpw_app _ hui, dpw_stop _ (by decide)]
  have htk2 : ((u0 :: utl) ++ '@' :: rest).takeWhile uiNoAt = u0 :: utl := by
    rw [tkw_app _ hui, tkw_stop _ (by decide)]
    simp
  have hm : matchSchemeAuth (s0 :: (srest ++ ':' :: '/' :: '/' :: (u0 :: utl ++ '@' :: rest))) =
      some (s0 :: srest ++ [':', '/', '/'], rest) := by
    simp only [matchSchemeAuth, h0, hdp, htk, hdp2, htk2, if_true]
    simp
  have h1 : replace1Aux
      (s0 :: (srest ++ ':' :: '/' :: '/' :: (u0 :: utl ++ '@' :: rest))).length
      (s0 :: (srest ++ ':' :: '/' :: '/' :: (u0 :: utl ++ '@' :: rest))) =
      s0 :: srest ++ ':' :: '/' :: '/' :: (redactedCredentials.data ++ '@' :: rest) := by
    rw [List.length_cons]
    rw [replace1Aux]
    simp only [hm]
    rw [replace1Aux_noAt _ hat]
    simp [List.append_assoc]
  have hPws : ∀ c ∈ s0 :: srest ++ ':' :: '/' :: '/' :: (redactedCredentials.data ++ ['@']),
      isJsWs c = false := by
    intro c hc
    rcases List.mem_cons.mp hc with rfl | hc2
    · exact (schemeStart_props h0).1
    · rcases List.mem_append.mp hc2 with hc3 | hc3
      · exact (schemeChar_props (hsr c hc3)).1
      · rcases List.mem_cons.mp hc3 with rfl | hc4
        · rfl
        · rcases List.mem_cons.mp hc4 with rfl | hc5
          · rfl
          · rcases List.mem_cons.mp hc5 with rfl | hc6
            · rfl
            · rcases List.mem_append.mp hc6 with hc7 | hc7
              · exact redactedCredentials_ws c hc7
              · have hc8 : c = '@' := by simpa using hc7
                subst hc8
                rfl
  have hPform : s0 :: srest ++ ':' :: '/' :: '/' :: (redactedCredentials.data ++ '@' :: rest) =
      (s0 :: srest ++ ':' :: '/' :: '/' :: (redactedCredentials.data ++ ['@'])) ++ rest := by
    simp [List.append_assoc]
  have hws2 : ∀ c r', List.IsSuffix (c :: r')
      (s0 :: srest ++ ':' :: '/' :: '/' :: (redactedCredentials.data ++ '@' :: rest)) →
      isJsWs c = true → matchSlashAuth r' = none := by
    intro c r' hsuf hcw
    cases hms : matchSlashAuth r' with
    | none => rfl
    | some r4 =>
      exfalso
      have hat' : '@' ∈ r' := matchSlashAuth_at hms
      rw [hPform] at hsuf
      have hrest_suf : List.IsSuffix rest
          ((s0 :: srest ++ ':' :: '/' :: '/' :: (redactedCredentials.data ++ ['@'])) ++ rest) :=
        List.suffix_append _ rest
      rcases List.suffix_or_suffix_of_suffix hsuf hrest_suf with hcase | hcase
      · exact hat (hcase.sublist.mem (List.mem_cons_of_mem _ hat'))
      · obtain ⟨pre2, hpre2⟩ := hcase
        cases pre2 with
        | nil =>
          simp only [List.nil_append] at hpre2
          exact hat (hpre2 ▸ List.mem_cons_of_mem _ hat')
        | cons d t =>
          rw [List.cons_append] at hpre2
          have hdc : d = c := (List.cons.inj hpre2).1
          have hr' : r' = t ++ rest := ((List.cons.inj hpre2).2).symm
          obtain ⟨pre1, hpre1⟩ := hsuf
          have hPeq : pre1 ++ c :: t =
              s0 :: srest ++ ':' :: '/' :: '/' :: (redactedCredentials.data ++ ['@']) := by
            have hcat : (pre1 ++ c :: t) ++ rest =
                (s0 :: srest ++ ':' :: '/' :: '/' :: (redactedCredentials.data ++ ['@'])) ++
                  rest := by
              rw [hr'] at hpre1
              rw [← hpre1]
              simp
            exact List.append_cancel_right hcat
          have hcP : c ∈ s0 :: srest ++ ':' :: '/' :: '/' :: (redactedCredentials.data ++ ['@']) := by
            rw [← hPeq]
            simp
          rw [hPws c hcP] at hcw
          exact absurd hcw (by simp)
  have h2 : replace2Aux
      (s0 :: srest ++ ':' :: '/' :: '/' :: (redactedCredentials.data ++ '@' :: rest)).length true
      (s0 :: srest ++ ':' :: '/' :: '/' :: (redactedCredentials.data ++ '@' :: rest)) =
      s0 :: srest ++ ':' :: '/' :: '/' :: (redactedCredentials.data ++ '@' :: rest) :=
    replace2Aux_skip _ _ _
      (fun _ => matchSlashAuth_not_slash _ (schemeStart_ne_slash h0)) hws2
  have hdp3 : (s0 :: srest ++ ':' :: '/' :: '/' ::
      (redactedCredentials.data ++ '@' :: rest)).dropWhile cls3a =
      ':' :: '/' :: '/' :: (redactedCredentials.data ++ '@' :: rest) := by
    rw [show s0 :: srest ++ ':' :: '/' :: '/' :: (redactedCredentials.data ++ '@' :: rest) =
      (s0 :: srest) ++ ':' :: '/' :: '/' :: (redactedCredentials.data ++ '@' :: rest) from by
        simp]
    rw [dpw_app _ (by
      intro c hc
      rcases List.mem_cons.mp hc with rfl | hc2
      · exact (schemeStart_props h0).2
      · exact (schemeChar_props (hsr c hc2)).2)]
    exact dpw_stop _ (by decide)
  have htk3 : ((s0 :: srest ++ ':' :: '/' :: '/' ::
      (redactedCredentials.data ++ '@' :: rest)).takeWhile cls3a).isEmpty = false := by
    simp [List.takeWhile_cons, (schemeStart_props h0).2]
  have hdp4 : ('/' :: '/' :: (redactedCredentials.data ++ '@' :: rest)).dropWhile uiNoAt =
      '/' :: '/' :: (redactedCredentials.data ++ '@' :: rest) :=
    dpw_stop _ (by decide)
  have h3 : replace3
      (s0 :: srest ++ ':' :: '/' :: '/' :: (redactedCredentials.data ++ '@' :: rest)) =
      s0 :: srest ++ ':' :: '/' :: '/' :: (redactedCredentials.data ++ '@' :: rest) := by
    simp only [replace3, hdp3, htk3, hdp4]
    simp
  have hcont : ((⟨s0 :: srest ++ ':' :: '/' :: '/' :: (u0 :: utl ++ '@' :: rest)⟩ :
      String)).data.contains '@' = true := by
    apply List.elem_eq_true_of_mem
    simp
  unfold redactRawUrlCredentials
  rw [if_neg (by rw [hcont]; simp)]
  show (⟨replace3 (replace2Aux (replace1Aux
      (s0 :: (srest ++ ':' :: '/' :: '/' :: (u0 :: utl ++ '@' :: rest))).length
      (s0 :: (srest ++ ':' :: '/' :: '/' :: (u0 :: utl ++ '@' :: rest)))).length true
      (replace1Aux
        (s0 :: (srest ++ ':' :: '/' :: '/' :: (u0 :: utl ++ '@' :: rest))).length
        (s0 :: (srest ++ ':' :: '/' :: '/' :: (u0 :: utl ++ '@' :: rest)))))⟩ : String) =
    ⟨s0 :: srest ++ ':' :: '/' :: '/' :: (redactedCredentials.data ++ '@' :: rest)⟩
  rw [h1, h2, h3]
theorem wf_clearCreds {u : MUrl} (h : u.wf = true) :
    MUrl.wf { u with username := "", password := "" } = true := by
  rw [MUrl.wf] at h ⊢
  simp only [Bool.and_eq_true] at h ⊢
  obtain ⟨⟨⟨⟨⟨⟨⟨⟨⟨hsch, hne⟩, hfb⟩, hlc⟩, hpo⟩, hun⟩, hpw⟩, hpm⟩, hpa⟩, hq⟩ := h
  exact ⟨⟨⟨⟨⟨⟨⟨⟨⟨hsch, hne⟩, hfb⟩, hlc⟩, hpo⟩, by decide⟩, by decide⟩, hpm⟩, hpa⟩, hq⟩

theorem parse_ne_nil {s : String} {p : ParsedUrl} (h : parseUrlF s = some p) :
    s.data.isEmpty = false := by
  cases hs : s.data with
  | nil =>
    exfalso
    rw [String.ext hs] at h
    simp [parseUrlF] at h
  | cons c t => rfl

theorem redactUrl_auth {s : String} {u : MUrl} (h : parseUrlF s = some (.auth u)) :
    redactUrlCredentials s = MUrl.toStr { u with username := "", password := "" } ∧
    hasCreds (redactUrlCredentials s) = false := by
  have hwf : u.wf = true := parseUrlF_wf h
  have hwf2 := wf_clearCreds hwf
  have hne : s.data.isEmpty = false := parse_ne_nil h
  have hred : redactUrlCredentials s = MUrl.toStr { u with username := "", password := "" } := by
    unfold redactUrlCredentials
    rw [if_neg (by rw [hne]; simp)]
    simp only [h, ParsedUrl.clearCreds, ParsedUrl.toStr]
  refine ⟨hred, ?_⟩
  rw [hred]
  unfold hasCreds
  have hparse := parse_toStr hwf2
  simp only [ParsedUrl.toStr] at hparse
  simp only [hparse]
  rfl
/-! ## Content-type classification (webfetch.ts lines 286-316, 519-521) -/

/-- The TEXTUAL_CONTENT_TYPES allowlist. -/
def textualContentTypes : List String :=
  ["application/json", "application/javascript", "application/xml",
   "application/xhtml+xml", "application/x-www-form-urlencoded",
   "application/x-sh", "application/x-shellscript", "application/shellscript"]

/-- normalizeContentType from webfetch.ts: first semicolon-separated field,
trimmed and lower-cased (isTextContentType inlines the identical
expression). -/
def normalizeContentType (contentType : String) : String :=
  match splitStr contentType ";" with
  | [] => ""
  | f :: _ => lower (jsTrim f)

/-- isTextContentType from webfetch.ts. -/
def isTextContentType (contentTypeHeader : String) : Bool :=
  if (normalizeContentType contentTypeHeader).data.isEmpty then false
  else if strStarts (normalizeContentType contentTypeHeader) "text/" then true
  else if strEnds (normalizeContentType contentTypeHeader) "+json" ||
      strEnds (normalizeContentType contentTypeHeader) "+xml" then true
  else textualContentTypes.contains (normalizeContentType contentTypeHeader)

/-- buildUnsupportedContentMessage from webfetch.ts. -/
def buildUnsupportedContentMessage (contentType : String) : String :=
  "Unsupported content-type: " ++
    (if (jsTrim contentType).data.isEmpty then "(missing)" else jsTrim contentType) ++
    ". This tool only returns text-like responses. " ++
    "If this endpoint should be text, try an explicit Accept header (for example: " ++
    "\"text/plain, text/markdown, text/html\"). " ++
    "If the server uses a custom text MIME type, add it to the allowlist."

/-! ## JS-shell detector (webfetch.ts lines 474-519) -/

/-- The regex \w class. -/
def isWordChar (c : Char) : Bool :=
  c.isAlpha || c.isDigit || c = '_'

/-- Count matches of <script\b (i flag) over an already lower-cased body;
the word boundary holds when the following character is missing or not a
word character. Fuel is the list length. -/
def countScriptAux : Nat → List Char → Nat
  | _, [] => 0
  | 0, _ => 0
  | fuel + 1, c :: rest =>
    if ['<', 's', 'c', 'r', 'i', 'p', 't'].isPrefixOf (c :: rest) &&
        !(match (c :: rest).drop 7 with
          | d :: _ => isWordChar d
          | [] => false) then
      1 + countScriptAux fuel ((c :: rest).drop 7)
    else countScriptAux fuel rest

/-- Either JS quote character. -/
def jsQuote (c : Char) : Bool :=
  c = '"' || c = '\''

/-- The SPA root container ids of the alternation root|app|__next|__nuxt. -/
def rootWords : List (List Char) :=
  [['r', 'o', 'o', 't'], ['a', 'p', 'p'],
   ['_', '_', 'n', 'e', 'x', 't'], ['_', '_', 'n', 'u', 'x', 't']]

/-- Try the root-container regex at the head of a lower-cased list: the
literal id=, a quote, one of the container ids, a quote (the two quotes
match independently, as each is its own character class). -/
def matchRootAt (l : List Char) : Bool :=
  ['i', 'd', '='].isPrefixOf l &&
  (match l.drop 3 with
   | q :: r =>
     jsQuote q && rootWords.any (fun w =>
       w.isPrefixOf r &&
       (match r.drop w.length with
        | q2 :: _ => jsQuote q2
        | [] => false))
   | [] => false)

/-- Whether a position test succeeds at some suffix of the list. -/
def anyPos (f : List Char → Bool) : List Char → Bool
  | [] => f []
  | c :: rest => f (c :: rest) || anyPos f rest

/-- Case-insensitive prefix test against an already lower-cased pattern. -/
def ciPrefix (pat l : List Char) : Bool :=
  pat.isPrefixOf (l.map lcChar)

/-- Remainder after the first case-insensitive occurrence of the (nonempty)
pattern, none when it does not occur. -/
def dropThroughCi (pat : List Char) : List Char → Option (List Char)
  | [] => none
  | c :: rest =>
    if ciPrefix pat (c :: rest) then some ((c :: rest).drop pat.length)
    else dropThroughCi pat rest

/-- One global pass of <OPEN[\s\S]*?CLOSE> → a space (lazy block match:
each opening marker pairs with the first closing marker after it). Fuel is
the list length. -/
def stripBlocksAux (opn cls : List Char) : Nat → List Char → List Char
  | _, [] => []
  | 0, l => l
  | fuel + 1, c :: rest =>
    if ciPrefix opn (c :: rest) then
      match dropThroughCi cls ((c :: rest).drop opn.length) with
      | some r2 => ' ' :: stripBlocksAux opn cls fuel r2
      | none => c :: stripBlocksAux opn cls fuel rest
    else c :: stripBlocksAux opn cls fuel rest

/-- One global pass of <[^>]+> → a space. Fuel is the list length. -/
def stripTagsAux : Nat → List Char → List Char
  | _, [] => []
  | 0, l => l
  | fuel + 1, c :: rest =>
    if c = '<' ∧ (rest.takeWhile (fun d => !(d = '>'))).isEmpty = false then
      match rest.dropWhile (fun d => !(d = '>')) with
      | _ :: r2 => ' ' :: stripTagsAux fuel r2
      | [] => c :: stripTagsAux fuel rest
    else c :: stripTagsAux fuel rest

/-- One global pass of \s+ → a single space. Fuel is the list length. -/
def collapseWsAux : Nat → List Char → List Char
  | _, [] => []
  | 0, l => l
  | fuel + 1, c :: rest =>
    if isJsWs c then ' ' :: collapseWsAux fuel (rest.dropWhile isJsWs)
    else c :: collapseWsAux fuel rest

/-- The visible-text extraction of detectJsShell: strip script blocks,
style blocks, remaining tags, collapse whitespace runs, trim. -/
def visibleTextOf (body : String) : String :=
  jsTrim ⟨collapseWsAux
    (stripTagsAux
      (stripBlocksAux ['<', 's', 't', 'y', 'l', 'e'] "</style>".data
        (stripBlocksAux ['<', 's', 'c', 'r', 'i', 'p', 't'] "</script>".data
          body.data.length body.data).length
        (stripBlocksAux ['<', 's', 'c', 'r', 'i', 'p', 't'] "</script>".data
          body.data.length body.data)).length
      (stripBlocksAux ['<', 's', 't', 'y', 'l', 'e'] "</style>".data
        (stripBlocksAux ['<', 's', 'c', 'r', 'i', 'p', 't'] "</script>".data
          body.data.length body.data).length
        (stripBlocksAux ['<', 's', 'c', 'r', 'i', 'p', 't'] "</script>".data
          body.data.length body.data))).length
    (stripTagsAux
      (stripBlocksAux ['<', 's', 't', 'y', 'l', 'e'] "</style>".data
        (stripBlocksAux ['<', 's', 'c', 'r', 'i', 'p', 't'] "</script>".data
          body.data.length body.data).length
        (stripBlocksAux ['<', 's', 'c', 'r', 'i', 'p', 't'] "</script>".data
          body.data.length body.data)).length
      (stripBlocksAux ['<', 's', 't', 'y', 'l', 'e'] "</style>".data
        (stripBlocksAux ['<', 's', 'c', 'r', 'i', 'p', 't'] "</script>".data
          body.data.length body.data).length
        (stripBlocksAux ['<', 's', 'c', 'r', 'i', 'p', 't'] "</script>".data
          body.data.length body.data)))⟩

/-- Outcome of the JS-shell detector. -/
structure JsShellDetection where
  detected : Bool
  signals : List String
deriving DecidableEq, Repr

/-- detectJsShell from webfetch.ts: five signals over a text/html body, a
shell verdict when at least two fire. -/
def detectJsShell (contentType body : String) : JsShellDetection :=
  if normalizeContentType contentType != "text/html" then ⟨false, []⟩
  else
    ⟨decide (2 ≤
      ((if 5 ≤ countScriptAux body.data.length (body.data.map lcChar) then
          ["high script tag count (" ++
            toString (countScriptAux body.data.length (body.data.map lcChar)) ++ ")"]
        else []) ++
       ((if 0 < (visibleTextOf body).length ∧ (visibleTextOf body).length < 220 ∧
            1 ≤ countScriptAux body.data.length (body.data.map lcChar) then
          ["very low visible text content (" ++
            toString (visibleTextOf body).length ++ " chars)"]
         else []) ++
        ((if anyPos matchRootAt (body.data.map lcChar) then
            ["empty SPA root container detected"]
          else []) ++
         ((if hasSub "requires javascript".data (body.data.map lcChar) ||
              hasSub "enable javascript".data (body.data.map lcChar) ||
              hasSub "javascript is disabled".data (body.data.map lcChar) then
             ["page indicates JavaScript is required"]
           else []) ++
          (if hasSub "__next_data__".data (body.data.map lcChar) ||
              hasSub "window.__nuxt__".data (body.data.map lcChar) ||
              hasSub "data-reactroot".data (body.data.map lcChar) ||
              hasSub "hydrateroot(".data (body.data.map lcChar) ||
              hasSub "createroot(".data (body.data.map lcChar) then
             ["framework hydration marker detected"]
           else []))))).length),
     (if 5 ≤ countScriptAux body.data.length (body.data.map lcChar) then
        ["high script tag count (" ++
          toString (countScriptAux body.data.length (body.data.map lcChar)) ++ ")"]
      else []) ++
     ((if 0 < (visibleTextOf body).length ∧ (visibleTextOf body).length < 220 ∧
          1 ≤ countScriptAux body.data.length (body.data.map lcChar) then
        ["very low visible text content (" ++
          toString (visibleTextOf body).length ++ " chars)"]
       else []) ++
      ((if anyPos matchRootAt (body.data.map lcChar) then
          ["empty SPA root container detected"]
        else []) ++
       ((if hasSub "requires javascript".data (body.data.map lcChar) ||
            hasSub "enable javascript".data (body.data.map lcChar) ||
            hasSub "javascript is disabled".data (body.data.map lcChar) then
           ["page indicates JavaScript is required"]
         else []) ++
        (if hasSub "__next_data__".data (body.data.map lcChar) ||
            hasSub "window.__nuxt__".data (body.data.map lcChar) ||
            hasSub "data-reactroot".data (body.data.map lcChar) ||
            hasSub "hydrateroot(".data (body.data.map lcChar) ||
            hasSub "createroot(".data (body.data.map lcChar) then
           ["framework hydration marker detected"]
         else []))))⟩

/-- C8: the JS-shell detector classifies a body as a shell exactly when
the normalized content type is text/html and at least two of its (at most
five) signals fire; any non-text/html content type is never classified as
a shell. -/
theorem C8_js_shell_detector (ct body : String) :
    ((detectJsShell ct body).detected = true ↔
      normalizeContentType ct = "text/html" ∧
        2 ≤ (detectJsShell ct body).signals.length) ∧
    (detectJsShell ct body).signals.length ≤ 5 ∧
    (normalizeContentType ct ≠ "text/html" → (detectJsShell ct body).detected = false) := by
  by_cases h : normalizeContentType ct = "text/html"
  · have hne : (normalizeContentType ct != "text/html") = false := by
      rw [h]
      simp
    unfold detectJsShell
    rw [hne]
    simp only [Bool.false_eq_true, if_false]
    refine ⟨?_, ?_, ?_⟩
    · constructor
      · intro hd
        exact ⟨h, of_decide_eq_true hd⟩
      · intro hc
        exact decide_eq_true hc.2
    · simp only [List.length_append]
      repeat' split
      all_goals simp
    · intro hcontra
      exact absurd h hcontra
  · have hne : (normalizeContentType ct != "text/html") = true := by
      rw [bne_iff_ne]
      exact h
    unfold detectJsShell
    rw [if_pos hne]
    refine ⟨?_, by simp, fun _ => rfl⟩
    simp [h]

set_option maxRecDepth 4000 in
/-- C8 witness: a two-signal text/html page is detected; a one-signal
text/html page (five script tags but rich visible text) is not; a
non-text/html body with shell markers is not. -/
theorem C8_witness :
    (detectJsShell "text/html"
      "<html><body>Loading...<div id=\"app\"></div><script>window.__NUXT__=1</script></body></html>").detected
      = true ∧
    (detectJsShell "text/html"
      "<html><body><p>Lots of real content here that goes on and on with plenty of words to exceed the visible text threshold of two hundred twenty characters. More filler text keeps coming to make absolutely sure that the visible text is long enough for the check to pass without issue.</p><script></script><script></script><script></script><script></script><script></script></body></html>").detected
      = false ∧
    (detectJsShell "application/json" "<div id=\"root\"></div>").detected = false := by
  refine ⟨(C8_js_shell_detector _ _).1.mpr ⟨by decide, by decide⟩, by decide,
    (C8_js_shell_detector "application/json" "<div id=\"root\"></div>").2.2 (by decide)⟩
/-! ## Streaming and probe capture (webfetch.ts lines 918-1135) -/

/-- Tool constants from webfetch.ts. -/
def MAX_REDIRECTS : Nat := 10

/-- DEFAULT_MAX_CHARS from webfetch.ts. -/
def DEFAULT_MAX_CHARS : Nat := 12000

/-- DEFAULT_PROBE_MAX_BYTES from webfetch.ts. -/
def DEFAULT_PROBE_MAX_BYTES : Nat := 8192

/-- Modelled from the spec: the cause recorded by the external head
truncation, the line cap or the byte cap. -/
inductive TruncBy where
  | lines
  | bytes
deriving DecidableEq, Repr

/-- Modelled from the spec: the TruncationResult record of the external
truncateHead helper (package pi-coding-agent), with the line and byte
accounting the truncation notice cites. -/
structure TruncationResult where
  content : String
  truncated : Bool
  truncatedBy : Option TruncBy
  outputLines : Nat
  totalLines : Nat
  outputBytes : Nat
  totalBytes : Nat
deriving DecidableEq, Repr

/-- Modelled from the spec: human-readable byte count; the exact text is
immaterial to the claims. -/
def formatSize (n : Nat) : String :=
  toString n ++ " B"

/-- UTF-8 length of one character. -/
def utf8Len (c : Char) : Nat :=
  if c.toNat < 128 then 1 else if c.toNat < 2048 then 2
  else if c.toNat < 65536 then 3 else 4

/-- UTF-8 length of a character list. -/
def utf8LenL (l : List Char) : Nat :=
  (l.map utf8Len).sum

/-- Line count of a buffer (newline count plus one). -/
def countLines (l : List Char) : Nat :=
  (l.filter (fun c => c = '\n')).length + 1

/-- Longest prefix of at most the given number of lines. -/
def takeLines : Nat → List Char → List Char
  | 0, _ => []
  | _, [] => []
  | n + 1, c :: rest =>
    if c = '\n' then c :: takeLines n rest else c :: takeLines (n + 1) rest

/-- Longest prefix of at most the given UTF-8 byte budget. -/
def takeBytes : Nat → List Char → List Char
  | _, [] => []
  | budget, c :: rest =>
    if utf8Len c ≤ budget then c :: takeBytes (budget - utf8Len c) rest else []

/-- Modelled from the spec: truncateHead of the external package caps the
head buffer independently by a maximum line count and a maximum UTF-8 byte
count, freezing it at whichever cap is hit first and recording that cap in
truncatedBy. -/
def truncateHead (maxLines maxBytes : Nat) (s : String) : TruncationResult :=
  if (takeLines maxLines s.data).length < s.data.length ∨
      (takeBytes maxBytes s.data).length < s.data.length then
    { content := ⟨if (takeLines maxLines s.data).length ≤ (takeBytes maxBytes s.data).length
        then takeLines maxLines s.data else takeBytes maxBytes s.data⟩
      truncated := true
      truncatedBy := some (if (takeLines maxLines s.data).length ≤
          (takeBytes maxBytes s.data).length then TruncBy.lines else TruncBy.bytes)
      outputLines := countLines (if (takeLines maxLines s.data).length ≤
          (takeBytes maxBytes s.data).length then takeLines maxLines s.data
        else takeBytes maxBytes s.data)
      totalLines := countLines s.data
      outputBytes := utf8LenL (if (takeLines maxLines s.data).length ≤
          (takeBytes maxBytes s.data).length then takeLines maxLines s.data
        else takeBytes maxBytes s.data)
      totalBytes := utf8LenL s.data }
  else
    { content := s, truncated := false, truncatedBy := none
      outputLines := countLines s.data, totalLines := countLines s.data
      outputBytes := utf8LenL s.data, totalBytes := utf8LenL s.data }

/-- appendChunkToHead from webfetch.ts: no-op once frozen or on an empty
chunk, otherwise re-truncate the grown head and store the truncation
record only when it reports truncation. -/
def appendChunkToHead (maxLines maxBytes : Nat) (headText : String)
    (headTruncation : Option TruncationResult) (chunkText : String) :
    String × Option TruncationResult :=
  if headTruncation.isSome || chunkText.data.isEmpty then (headText, headTruncation)
  else
    ((truncateHead maxLines maxBytes (headText ++ chunkText)).content,
     if (truncateHead maxLines maxBytes (headText ++ chunkText)).truncated then
       some (truncateHead maxLines maxBytes (headText ++ chunkText))
     else none)

/-- buildTruncationNotice from webfetch.ts. -/
def buildTruncationNotice (truncation : Option TruncationResult)
    (charTruncated : Bool) (maxChars totalCharacters : Nat)
    (fullOutputPath : String) : String :=
  "[Output truncated: " ++
    String.intercalate "; "
      ((match truncation with
        | some t =>
          if t.truncated then
            ["showing " ++ toString t.outputLines ++ " of " ++ toString t.totalLines ++
              " lines (" ++ formatSize t.outputBytes ++ " of " ++
              formatSize t.totalBytes ++ ")"]
          else []
        | none => []) ++
       (if charTruncated then
          ["showing first " ++ toString maxChars ++ " of " ++
            toString totalCharacters ++ " characters"]
        else [])) ++
    ". Full output saved to: " ++ fullOutputPath ++ "]"

/-- The streamed-text record of the capture stage; fields the source only
sets on some paths are options. -/
structure StreamedResponseText where
  text : String
  truncated : Bool
  charTruncated : Bool
  totalCharacters : Nat
  fullOutputPath : Option String
  truncation : Option TruncationResult
  probeBytesRead : Option Nat
  probeByteLimit : Option Nat
deriving DecidableEq, Repr

/-- buildStreamedText from webfetch.ts: apply the caller character limit
to the frozen head and attach the truncation notice, path and record
exactly when line/byte or character truncation occurred. -/
def buildStreamedText (headText : String) (totalCharacters maxChars : Nat)
    (fullOutputPath : String) (headTruncation : Option TruncationResult) :
    StreamedResponseText :=
  if headTruncation.isSome || decide (maxChars < headText.length) then
    { text := (if decide (maxChars < headText.length) then
          (⟨headText.data.take maxChars⟩ : String) else headText) ++ "\n\n" ++
        buildTruncationNotice headTruncation (decide (maxChars < headText.length))
          maxChars totalCharacters fullOutputPath
      truncated := true
      charTruncated := decide (maxChars < headText.length)
      totalCharacters := totalCharacters
      fullOutputPath := some fullOutputPath
      truncation := headTruncation
      probeBytesRead := none
      probeByteLimit := none }
  else
    { text := headText, truncated := false, charTruncated := false
      totalCharacters := totalCharacters, fullOutputPath := none, truncation := none
      probeBytesRead := none, probeByteLimit := none }

/-- Byte-chunk decoding; the model is exact for ASCII payloads, the only
ones this development evaluates. -/
def decodeChunk (bytes : List Nat) : String :=
  ⟨bytes.map Char.ofNat⟩

/-- The temp file path handed to buildStreamedText (mkdtemp output
modelled as a fixed name). -/
def tempOutputPath : String := "output.txt"

/-- The chunk loop of streamResponseText: grow the head buffer and the
total decoded character count across all chunks. -/
def streamChunks (maxLines maxBytes : Nat) :
    List (List Nat) → String → Option TruncationResult → Nat →
    String × Option TruncationResult × Nat
  | [], headText, headTruncation, total => (headText, headTruncation, total)
  | chunk :: rest, headText, headTruncation, total =>
    streamChunks maxLines maxBytes rest
      (appendChunkToHead maxLines maxBytes headText headTruncation (decodeChunk chunk)).1
      (appendChunkToHead maxLines maxBytes headText headTruncation (decodeChunk chunk)).2
      (total + (decodeChunk chunk).length)

/-- streamResponseText from webfetch.ts over a chunked body (the temp-file
write is not observable in the result beyond the returned path). -/
def streamResponseTextM (maxLines maxBytes : Nat) (chunks : List (List Nat))
    (maxChars : Nat) : StreamedResponseText :=
  buildStreamedText (streamChunks maxLines maxBytes chunks "" none 0).1
    (streamChunks maxLines maxBytes chunks "" none 0).2.2 maxChars tempOutputPath
    (streamChunks maxLines maxBytes chunks "" none 0).2.1

/-- The byte-budget read loop of probeResponseText: bytes read, sampled
text, and whether the budget cut a chunk short. -/
def probeLoop (probeByteLimit : Nat) :
    List (List Nat) → Nat → String → Bool → Nat × String × Bool
  | [], bytesRead, sampled, flag => (bytesRead, sampled, flag)
  | chunk :: rest, bytesRead, sampled, flag =>
    if probeByteLimit ≤ bytesRead then (bytesRead, sampled, flag)
    else if chunk.length ≤ probeByteLimit - bytesRead then
      probeLoop probeByteLimit rest (bytesRead + chunk.length)
        (sampled ++ decodeChunk chunk) flag
    else
      (bytesRead + (probeByteLimit - bytesRead),
        sampled ++ decodeChunk (chunk.take (probeByteLimit - bytesRead)), true)

/-- The notice list of probeResponseText. -/
def probeNotices (bytesRead probeByteLimit : Nat) (limitReached charTruncated : Bool)
    (maxChars sampledLen : Nat) : List String :=
  ["Probe mode: sampled " ++ formatSize bytesRead ++
    (if limitReached then " (limit " ++ formatSize probeByteLimit ++ ")" else "") ++ "."] ++
  (if charTruncated then
    ["showing first " ++ toString maxChars ++ " of " ++ toString sampledLen ++
      " sampled characters."]
   else [])

/-- Assembly of the probe result after the read loop: the final
limit-reached flag, the character cut, and the bracketed notice text;
probe capture never persists to disk and never carries a truncation
record. -/
def probeAssemble (bytesRead : Nat) (sampled : String) (limitReached : Bool)
    (maxChars probeByteLimit : Nat) : StreamedResponseText :=
  { text :=
      if (if decide (maxChars < sampled.length) then
          (⟨sampled.data.take maxChars⟩ : String) else sampled).data.isEmpty then
        "[" ++ String.intercalate " "
          (probeNotices bytesRead probeByteLimit limitReached
            (decide (maxChars < sampled.length)) maxChars sampled.length) ++ "]"
      else
        (if decide (maxChars < sampled.length) then
          (⟨sampled.data.take maxChars⟩ : String) else sampled) ++ "\n\n[" ++
          String.intercalate " "
            (probeNotices bytesRead probeByteLimit limitReached
              (decide (maxChars < sampled.length)) maxChars sampled.length) ++ "]"
    truncated := limitReached || decide (maxChars < sampled.length)
    charTruncated := decide (maxChars < sampled.length)
    totalCharacters := sampled.length
    fullOutputPath := none
    truncation := none
    probeBytesRead := some bytesRead
    probeByteLimit := some probeByteLimit }

/-- probeResponseText from webfetch.ts over a chunked body. -/
def probeResponseTextM (chunks : List (List Nat)) (maxChars probeByteLimit : Nat) :
    StreamedResponseText :=
  probeAssemble (probeLoop probeByteLimit chunks 0 "" false).1
    (probeLoop probeByteLimit chunks 0 "" false).2.1
    ((probeLoop probeByteLimit chunks 0 "" false).2.2 ||
      decide (probeByteLimit ≤ (probeLoop probeByteLimit chunks 0 "" false).1))
    maxChars probeByteLimit

/-! ## Redirecting fetcher and attempt (webfetch.ts lines 766-829, 1137-1193) -/

/-- The observable pieces of one HTTP response: status, status text, the
response headers the tool reads, and the body as byte chunks. -/
structure NetResp where
  status : Nat
  statusText : String
  contentType : Option String
  contentLength : Option String
  link : Option String
  location : Option String
  bodyChunks : List (List Nat)
deriving DecidableEq, Repr

/-- isRedirectStatus from webfetch.ts (the REDIRECT_STATUS_CODES set). -/
def isRedirectStatus (status : Nat) : Bool :=
  status = 301 || status = 302 || status = 303 || status = 307 || status = 308

/-- parseContentLength from webfetch.ts (Number.parseInt base 10, negative
and non-numeric values rejected). -/
def parseContentLength (header : Option String) : Option Nat :=
  match header with
  | none => none
  | some h =>
    if h.data.isEmpty then none
    else
      match (jsTrim h).data with
      | '-' :: _ => none
      | '+' :: rest =>
        if (rest.takeWhile Char.isDigit).isEmpty then none
        else some (digitsVal (rest.takeWhile Char.isDigit))
      | l =>
        if (l.takeWhile Char.isDigit).isEmpty then none
        else some (digitsVal (l.takeWhile Char.isDigit))

/-- The conditions fetchWithRedirects can raise (RedirectBlockedError,
TooManyRedirectsError, and a URL-constructor failure on a Location
value). -/
inductive FetchErr where
  | redirectBlocked (blockedUrl reason : String)
  | tooManyRedirects (chain : List String)
  | invalidUrl
deriving DecidableEq, Repr

/-- The loop of fetchWithRedirects: at most MAX_REDIRECTS+1 iterations; a
non-redirect response or a missing Location header ends the chain; a
blocked next hop raises redirectBlocked before that hop is fetched; the
hop cap raises tooManyRedirects carrying the chain including the unvisited
next URL. Location values are modelled as absolute URLs, normalised by a
parse/serialise round trip; the second component accumulates every URL
actually fetched. -/
def fwrGo (env : Option String) (net : String → NetResp) :
    Nat → String → List String → List String →
    Except FetchErr (String × List String) × List String
  | 0, _, chain, tr => (.error (.tooManyRedirects chain), tr)
  | fuel + 1, currentUrl, chain, tr =>
    if isRedirectStatus (net currentUrl).status = false then
      (.ok (currentUrl, chain), tr ++ [currentUrl])
    else
      match (net currentUrl).location with
      | none => (.ok (currentUrl, chain), tr ++ [currentUrl])
      | some loc =>
        match parseUrlF loc with
        | none => (.error .invalidUrl, tr ++ [currentUrl])
        | some p =>
          match getPrivateHostBlockReason env (urlHostname p.toStr) with
          | some reason => (.error (.redirectBlocked p.toStr reason), tr ++ [currentUrl])
          | none =>
            if fuel = 0 then
              (.error (.tooManyRedirects (chain ++ [p.toStr])), tr ++ [currentUrl])
            else
              fwrGo env net fuel p.toStr (chain ++ [p.toStr]) (tr ++ [currentUrl])

/-- fetchWithRedirects from webfetch.ts. -/
def fetchWithRedirectsM (env : Option String) (net : String → NetResp) (url : String) :
    Except FetchErr (String × List String) × List String :=
  fwrGo env net (MAX_REDIRECTS + 1) url [url] []

/-- The successful-attempt record of fetchAttempt. -/
structure FetchAttemptSuccessM where
  status : Nat
  statusText : String
  contentType : String
  contentLength : Option Nat
  linkHeader : Option String
  finalUrl : String
  redirectChain : List String
  streamed : StreamedResponseText
  jsShellDetection : JsShellDetection
deriving DecidableEq, Repr

/-- The unsupported-content record of fetchAttempt. -/
structure FetchAttemptUnsupportedM where
  status : Nat
  statusText : String
  contentType : String
  contentLength : Option Nat
  finalUrl : String
  redirectChain : List String
deriving DecidableEq, Repr

/-- The two fetchAttempt outcomes. -/
inductive FetchAttemptResultM where
  | success (v : FetchAttemptSuccessM)
  | unsupportedContent (v : FetchAttemptUnsupportedM)
deriving DecidableEq, Repr

/-- Fetch modes of the tool. -/
inductive FetchMode where
  | full
  | probe
deriving DecidableEq, Repr

/-- Fetch strategies of the tool. -/
inductive FetchStrategy where
  | direct
  | smart
deriving DecidableEq, Repr

/-- fetchAttempt from webfetch.ts: follow redirects, reject a non-textual
content type before any body decoding (the unsupported record carries no
body data), otherwise capture the body in the requested mode and run the
JS-shell detector on the captured text. -/
def fetchAttemptM (env : Option String) (net : String → NetResp)
    (maxLines maxBytes : Nat) (url : String) (mode : FetchMode) (maxChars : Nat) :
    Except FetchErr FetchAttemptResultM × List String :=
  match fetchWithRedirectsM env net url with
  | (.error e, tr) => (.error e, tr)
  | (.ok (finalUrl, chain), tr) =>
    if isTextContentType ((net finalUrl).contentType.getD "") = false then
      (.ok (.unsupportedContent
        { status := (net finalUrl).status
          statusText := (net finalUrl).statusText
          contentType := (net finalUrl).contentType.getD ""
          contentLength := parseContentLength (net finalUrl).contentLength
          finalUrl := finalUrl
          redirectChain := chain }), tr)
    else
      (.ok (.success
        { status := (net finalUrl).status
          statusText := (net finalUrl).statusText
          contentType := (net finalUrl).contentType.getD ""
          contentLength := parseContentLength (net finalUrl).contentLength
          linkHeader := (net finalUrl).link
          finalUrl := finalUrl
          redirectChain := chain
          streamed :=
            match mode with
            | .probe =>
              probeResponseTextM (net finalUrl).bodyChunks maxChars DEFAULT_PROBE_MAX_BYTES
            | .full => streamResponseTextM maxLines maxBytes (net finalUrl).bodyChunks maxChars
          jsShellDetection :=
            detectJsShell ((net finalUrl).contentType.getD "")
              (match mode with
               | .probe =>
                 (probeResponseTextM (net finalUrl).bodyChunks maxChars
                   DEFAULT_PROBE_MAX_BYTES).text
               | .full =>
                 (streamResponseTextM maxLines maxBytes (net finalUrl).bodyChunks
                   maxChars).text) }), tr)

/-! ## Result construction (webfetch.ts lines 852-916, 1195-1304) -/

/-- DEFAULT_ACCEPT_HEADER from webfetch.ts. -/
def DEFAULT_ACCEPT_HEADER : String := "text/markdown, text/html"

/-- DEFAULT_ACCEPT_ENCODING from webfetch.ts. -/
def DEFAULT_ACCEPT_ENCODING : String := "identity"

/-- PRIVATE_HOST_OVERRIDE_ENV from webfetch.ts. -/
def PRIVATE_HOST_OVERRIDE_ENV : String := "WEBFETCH_ALLOW_PRIVATE_HOSTS"

/-- The outcome of prepareRequestHeaders; executeModel takes it as an
argument (header preparation has no claim of its own). -/
structure RequestHeaderPreparation where
  requestHeaders : List (String × String)
  redactedHeaders : List (String × String)
  blockedHeaders : List String
  acceptHeader : String
deriving DecidableEq, Repr

/-- The WebFetchDetails record of the tool result. -/
structure WebFetchDetails where
  requestedUrl : String
  resolvedUrl : String
  finalUrl : String
  redirectChain : List String
  acceptHeader : String
  requestHeaders : List (String × String)
  blockedRequestHeaders : List String
  mode : FetchMode
  strategy : FetchStrategy
  status : Nat
  statusText : String
  contentType : String
  contentLength : Option Nat
  durationMs : Nat
  truncated : Bool
  truncatedByLines : Bool
  truncatedByBytes : Bool
  truncatedByMaxChars : Bool
  originalCharacters : Nat
  returnedCharacters : Nat
  fullOutputPath : Option String
  truncation : Option TruncationResult
  detectedJsShell : Bool
  jsShellSignals : List String
  alternateCandidates : List String
  alternateUrlUsed : Option String
  smartNotes : List String
  probeBytesRead : Option Nat
  probeByteLimit : Option Nat
deriving DecidableEq, Repr

/-- buildDetails from webfetch.ts: identical to its argument record except
that every URL-bearing field passes through credential redaction (raw
textual redaction for the requested URL, parse-based redaction elsewhere;
an empty alternateUrlUsed is dropped as falsy). -/
def buildDetails (args : WebFetchDetails) : WebFetchDetails :=
  { args with
    requestedUrl := redactRawUrlCredentials args.requestedUrl
    resolvedUrl := redactUrlCredentials args.resolvedUrl
    finalUrl := redactUrlCredentials args.finalUrl
    redirectChain := args.redirectChain.map redactUrlCredentials
    alternateCandidates := args.alternateCandidates.map redactUrlCredentials
    alternateUrlUsed :=
      match args.alternateUrlUsed with
      | some u => if u.data.isEmpty then none else some (redactUrlCredentials u)
      | none => none }

/-- formatToolOutput from webfetch.ts. -/
def formatToolOutput (isError : Bool) (url : String) (status : Nat)
    (statusText contentType body : String) : String :=
  String.intercalate "\n"
    [if isError then "Web fetch failed" else "Web fetch succeeded",
     "URL: " ++ (if url.data.isEmpty then "(unknown)" else url),
     "Status: " ++ (if statusText.data.isEmpty then toString status
       else toString status ++ " " ++ statusText),
     "Content-Type: " ++ (if contentType.data.isEmpty then "(missing)" else contentType),
     "",
     if body.data.isEmpty then "(empty response body)" else body]

/-- A tool result: the human-readable text block, the details record, and
the error flag. -/
structure WebFetchToolResult where
  text : String
  details : WebFetchDetails
  isError : Bool
deriving DecidableEq, Repr

/-- The argument record of createToolResult; absent optional arguments are
none. -/
structure CTRArgs where
  isError : Bool
  requestedUrl : String
  resolvedUrl : String
  finalUrl : Option String := none
  redirectChain : Option (List String) := none
  acceptHeader : Option String := none
  requestHeaders : Option (List (String × String)) := none
  blockedRequestHeaders : Option (List String) := none
  mode : Option FetchMode := none
  strategy : Option FetchStrategy := none
  status : Nat
  statusText : String
  contentType : String
  contentLength : Option Nat := none
  durationMs : Option Nat := none
  body : String
  truncated : Option Bool := none
  truncatedByLines : Option Bool := none
  truncatedByBytes : Option Bool := none
  truncatedByMaxChars : Option Bool := none
  originalCharacters : Option Nat := none
  returnedCharacters : Option Nat := none
  fullOutputPath : Option String := none
  truncation : Option TruncationResult := none
  detectedJsShell : Option Bool := none
  jsShellSignals : Option (List String) := none
  alternateCandidates : Option (List String) := none
  alternateUrlUsed : Option String := none
  smartNotes : Option (List String) := none
  probeBytesRead : Option Nat := none
  probeByteLimit : Option Nat := none
deriving DecidableEq, Repr

/-- createToolResult from webfetch.ts: the output text uses the redacted
final (or resolved) URL, the details record is built through buildDetails
with the documented defaults. -/
def createToolResult (a : CTRArgs) : WebFetchToolResult :=
  { text := formatToolOutput a.isError
      (redactUrlCredentials (a.finalUrl.getD a.resolvedUrl)) a.status a.statusText
      a.contentType a.body
    details := buildDetails
      { requestedUrl := a.requestedUrl
        resolvedUrl := a.resolvedUrl
        finalUrl := a.finalUrl.getD a.resolvedUrl
        redirectChain := a.redirectChain.getD [a.resolvedUrl]
        acceptHeader := a.acceptHeader.getD DEFAULT_ACCEPT_HEADER
        requestHeaders := a.requestHeaders.getD
          [("Accept", DEFAULT_ACCEPT_HEADER), ("Accept-Encoding", DEFAULT_ACCEPT_ENCODING)]
        blockedRequestHeaders := a.blockedRequestHeaders.getD []
        mode := a.mode.getD FetchMode.full
        strategy := a.strategy.getD FetchStrategy.direct
        status := a.status
        statusText := a.statusText
        contentType := a.contentType
        contentLength := a.contentLength
        durationMs := a.durationMs.getD 0
        truncated := a.truncated.getD false
        truncatedByLines := a.truncatedByLines.getD false
        truncatedByBytes := a.truncatedByBytes.getD false
        truncatedByMaxChars := a.truncatedByMaxChars.getD false
        originalCharacters := a.originalCharacters.getD 0
        returnedCharacters := a.returnedCharacters.getD 0
        fullOutputPath := a.fullOutputPath
        truncation := a.truncation
        detectedJsShell := a.detectedJsShell.getD false
        jsShellSignals := a.jsShellSignals.getD []
        alternateCandidates := a.alternateCandidates.getD []
        alternateUrlUsed := a.alternateUrlUsed
        smartNotes := a.smartNotes.getD []
        probeBytesRead := a.probeBytesRead
        probeByteLimit := a.probeByteLimit }
    isError := a.isError }

/-! ## Smart strategy pieces (webfetch.ts lines 644-764) and execute
(lines 1319-1720) -/

/-- Sources of a smart candidate. -/
inductive CandSource where
  | httpLinkHeader
  | htmlLinkAlternate
  | githubRaw
  | wordpressApi
deriving DecidableEq, Repr

/-- The source tag strings. -/
def CandSource.toStr : CandSource → String
  | .httpLinkHeader => "http-link-header"
  | .htmlLinkAlternate => "html-link-alternate"
  | .githubRaw => "github-raw"
  | .wordpressApi => "wordpress-api"

/-- A smart candidate URL with its discovery source. -/
structure SmartCandidate where
  url : String
  source : CandSource
deriving DecidableEq, Repr

/-- dedupeSmartCandidates from webfetch.ts: trim each URL, drop empties
and URLs already seen, keep first occurrences in order. -/
def dedupeAux : List SmartCandidate → List String → List SmartCandidate
  | [], _ => []
  | c :: rest, seen =>
    if (jsTrim c.url).data.isEmpty || seen.contains (jsTrim c.url) then
      dedupeAux rest seen
    else
      { c with url := jsTrim c.url } :: dedupeAux rest (jsTrim c.url :: seen)

/-- dedupeSmartCandidates from webfetch.ts. -/
def dedupeSmartCandidates (candidates : List SmartCandidate) : List SmartCandidate :=
  dedupeAux candidates []

/-- isUsefulSmartAlternate from webfetch.ts: 2xx status, no JS-shell
verdict, and non-whitespace captured text. -/
def isUsefulSmartAlternate (result : FetchAttemptSuccessM) : Bool :=
  if result.status < 200 || 300 ≤ result.status then false
  else if result.jsShellDetection.detected then false
  else !(jsTrim ⟨collapseWsAux result.streamed.text.data.length
    result.streamed.text.data⟩).data.isEmpty

/-- buildSmartFallbackNotice from webfetch.ts. -/
def buildSmartFallbackNotice (notes : List String) : String :=
  String.intercalate "\n"
    (["[Smart strategy note]"] ++
     ((if notes.isEmpty then
         ["Smart strategy: detected a JavaScript-heavy page but could not fetch a better markdown/API alternate."]
       else notes).map (fun note => "- " ++ note)) ++
     ["- Try a machine-readable endpoint if available (e.g., /wp-json, raw markdown source, or project API)."])

/-- The error classification status < 200 || status >= 300 used for
isError on successful attempts. -/
def isErrStatus (status : Nat) : Bool :=
  decide (status < 200) || decide (300 ≤ status)

/-- The catch handlers of execute for conditions raised during fetching:
redirect blocked (403), too many redirects (508 with the thrown chain),
and a generic failure (500). -/
def errorResult (requestedUrl : String) (ph : RequestHeaderPreparation)
    (mode : FetchMode) (strategy : FetchStrategy) (targetStr : String) :
    FetchErr → WebFetchToolResult
  | .redirectBlocked blockedUrl reason =>
    createToolResult
      { isError := true
        requestedUrl := requestedUrl
        resolvedUrl := blockedUrl
        finalUrl := some blockedUrl
        redirectChain := some [targetStr, blockedUrl]
        acceptHeader := some ph.acceptHeader
        requestHeaders := some ph.redactedHeaders
        blockedRequestHeaders := some ph.blockedHeaders
        mode := some mode
        strategy := some strategy
        status := 403
        statusText := "Forbidden"
        contentType := ""
        durationMs := some 0
        body := reason ++
          ". Set WEBFETCH_ALLOW_PRIVATE_HOSTS=1 to allow private/internal hosts for trusted workflows." }
  | .tooManyRedirects chain =>
    createToolResult
      { isError := true
        requestedUrl := requestedUrl
        resolvedUrl := chain.getLast?.getD targetStr
        finalUrl := some (chain.getLast?.getD targetStr)
        redirectChain := some chain
        acceptHeader := some ph.acceptHeader
        requestHeaders := some ph.redactedHeaders
        blockedRequestHeaders := some ph.blockedHeaders
        mode := some mode
        strategy := some strategy
        status := 508
        statusText := "Loop Detected"
        contentType := ""
        durationMs := some 0
        body := "Too many redirects (>10)" }
  | .invalidUrl =>
    createToolResult
      { isError := true
        requestedUrl := requestedUrl
        resolvedUrl := targetStr
        finalUrl := some targetStr
        redirectChain := some [targetStr]
        acceptHeader := some ph.acceptHeader
        requestHeaders := some ph.redactedHeaders
        blockedRequestHeaders := some ph.blockedHeaders
        mode := some mode
        strategy := some strategy
        status := 500
        statusText := "Request Failed"
        contentType := ""
        durationMs := some 0
        body := "Invalid URL" }

/-- buildUnsupportedContentResult from execute. -/
def buildUnsupportedContentResult (requestedUrl : String)
    (ph : RequestHeaderPreparation) (mode : FetchMode) (strategy : FetchStrategy)
    (v : FetchAttemptUnsupportedM) (smartNotes : List String)
    (alternateCandidates : List SmartCandidate) : WebFetchToolResult :=
  createToolResult
    { isError := true
      requestedUrl := requestedUrl
      resolvedUrl := v.finalUrl
      finalUrl := some v.finalUrl
      redirectChain := some v.redirectChain
      acceptHeader := some ph.acceptHeader
      requestHeaders := some ph.redactedHeaders
      blockedRequestHeaders := some ph.blockedHeaders
      mode := some mode
      strategy := some strategy
      status := v.status
      statusText := v.statusText
      contentType := v.contentType
      contentLength := v.contentLength
      durationMs := some 0
      body := buildUnsupportedContentMessage v.contentType
      alternateCandidates := some (alternateCandidates.map (fun c => c.url))
      smartNotes := some smartNotes }

/-- buildResultFromAttempt from execute: in particular, the three
truncation sub-flags and the probe accounting come from the attempt
streamed record, the two line/byte flags from its single truncatedBy
field. -/
def buildResultFromAttempt (requestedUrl : String) (ph : RequestHeaderPreparation)
    (mode : FetchMode) (strategy : FetchStrategy) (attempt : FetchAttemptSuccessM)
    (isError : Bool) (bodyOverride : Option String)
    (alternateCandidates : List SmartCandidate) (alternateUrlUsed : Option String)
    (smartNotes : List String) : WebFetchToolResult :=
  createToolResult
    { isError := isError
      requestedUrl := requestedUrl
      resolvedUrl := attempt.finalUrl
      finalUrl := some attempt.finalUrl
      redirectChain := some attempt.redirectChain
      acceptHeader := some ph.acceptHeader
      requestHeaders := some ph.redactedHeaders
      blockedRequestHeaders := some ph.blockedHeaders
      mode := some mode
      strategy := some strategy
      status := attempt.status
      statusText := attempt.statusText
      contentType := attempt.contentType
      contentLength := attempt.contentLength
      durationMs := some 0
      body := bodyOverride.getD attempt.streamed.text
      truncated := some attempt.streamed.truncated
      truncatedByLines := some
        (match attempt.streamed.truncation with
         | some t => t.truncatedBy == some TruncBy.lines
         | none => false)
      truncatedByBytes := some
        (match attempt.streamed.truncation with
         | some t => t.truncatedBy == some TruncBy.bytes
         | none => false)
      truncatedByMaxChars := some attempt.streamed.charTruncated
      originalCharacters := some attempt.streamed.totalCharacters
      returnedCharacters := some (bodyOverride.getD attempt.streamed.text).length
      fullOutputPath := attempt.streamed.fullOutputPath
      truncation := attempt.streamed.truncation
      detectedJsShell := some attempt.jsShellDetection.detected
      jsShellSignals := some attempt.jsShellDetection.signals
      alternateCandidates := some (alternateCandidates.map (fun c => c.url))
      alternateUrlUsed := alternateUrlUsed
      smartNotes := some smartNotes
      probeBytesRead := attempt.streamed.probeBytesRead
      probeByteLimit := attempt.streamed.probeByteLimit }

/-- The tool parameters relevant to control flow (accept and custom
headers enter through the prepared-header argument). -/
structure ExecParams where
  url : String
  maxChars : Option Nat := none
  mode : Option FetchMode := none
  strategy : Option FetchStrategy := none
deriving DecidableEq, Repr

/-- The candidate loop of the smart strategy (execute lines 1533-1584)
followed by the after-loop logic (probe short-circuit, primary refetch,
JS-heavy fallback notice). The second component accumulates the fetch
trace. -/
def smartLoop (env : Option String) (net : String → NetResp) (maxLines maxBytes : Nat)
    (requestedUrl : String) (ph : RequestHeaderPreparation) (mode : FetchMode)
    (maxChars : Nat) (targetStr : String) (probeAttempt : FetchAttemptSuccessM)
    (allCands : List SmartCandidate) :
    List SmartCandidate → List String → List String → WebFetchToolResult × List String
  | [], tr, notes =>
    if probeAttempt.jsShellDetection.detected = false ∧ mode = FetchMode.probe then
      (buildResultFromAttempt requestedUrl ph mode FetchStrategy.smart probeAttempt
        (isErrStatus probeAttempt.status) none allCands none
        (notes ++ ["Probe appears useful; returning probe response without full refetch."]),
       tr)
    else
      match fetchAttemptM env net maxLines maxBytes probeAttempt.finalUrl mode maxChars with
      | (.error e, tr2) =>
        (errorResult requestedUrl ph mode FetchStrategy.smart targetStr e, tr ++ tr2)
      | (.ok (.unsupportedContent v), tr2) =>
        (buildUnsupportedContentResult requestedUrl ph mode FetchStrategy.smart v notes
          allCands, tr ++ tr2)
      | (.ok (.success primary), tr2) =>
        if probeAttempt.jsShellDetection.detected = true ∧
            isUsefulSmartAlternate primary = false then
          (buildResultFromAttempt requestedUrl ph mode FetchStrategy.smart primary
            (isErrStatus primary.status)
            (some (primary.streamed.text ++ "\n\n" ++ buildSmartFallbackNotice
              (notes ++
               ["Primary response still appears JS-heavy and no better alternate source was found."])))
            allCands none
            (notes ++
             ["Primary response still appears JS-heavy and no better alternate source was found."]),
           tr ++ tr2)
        else
          (buildResultFromAttempt requestedUrl ph mode FetchStrategy.smart primary
            (isErrStatus primary.status) none allCands none notes, tr ++ tr2)
  | c :: rest, tr, notes =>
    match parseUrlF c.url with
    | none =>
      smartLoop env net maxLines maxBytes requestedUrl ph mode maxChars targetStr
        probeAttempt allCands rest tr
        (notes ++ ["Skipped invalid alternate URL from " ++ CandSource.toStr c.source ++
          ": " ++ c.url])
    | some cu =>
      match getPrivateHostBlockReason env cu.hostnameOf with
      | some reason =>
        smartLoop env net maxLines maxBytes requestedUrl ph mode maxChars targetStr
          probeAttempt allCands rest tr
          (notes ++ ["Skipped alternate " ++ c.url ++ ": " ++ lower reason ++ "."])
      | none =>
        match fetchAttemptM env net maxLines maxBytes cu.toStr mode maxChars with
        | (.error e, tr2) =>
          (errorResult requestedUrl ph mode FetchStrategy.smart targetStr e, tr ++ tr2)
        | (.ok (.unsupportedContent v), tr2) =>
          smartLoop env net maxLines maxBytes requestedUrl ph mode maxChars targetStr
            probeAttempt allCands rest (tr ++ tr2)
            (notes ++ ["Alternate " ++ c.url ++ " returned unsupported content-type " ++
              (if v.contentType.data.isEmpty then "(missing)" else v.contentType) ++ "."])
        | (.ok (.success av), tr2) =>
          if isUsefulSmartAlternate av = false then
            smartLoop env net maxLines maxBytes requestedUrl ph mode maxChars targetStr
              probeAttempt allCands rest (tr ++ tr2)
              (notes ++ ["Alternate " ++ c.url ++ " was not useful (status " ++
                toString av.status ++ ", jsShell=" ++
                (if av.jsShellDetection.detected then "true" else "false") ++ ")."])
          else
            (buildResultFromAttempt requestedUrl ph mode FetchStrategy.smart av false none
              allCands (some c.url)
              (notes ++ ["Using alternate source from " ++ CandSource.toStr c.source ++
                ": " ++ c.url]),
             tr ++ tr2)

/-- execute from webfetch.ts, over the network oracle, the environment,
and an abstract candidate-discovery function standing for
collectSmartCandidates (whose output feeds the loop); the second component
is the ordered list of URLs fetched. -/
def executeModel (env : Option String) (net : String → NetResp)
    (collectCands : Option String → String → String → Bool → List SmartCandidate)
    (maxLines maxBytes : Nat) (ph : RequestHeaderPreparation) (aborted : Bool)
    (p : ExecParams) : WebFetchToolResult × List String :=
  if aborted then
    (createToolResult
      { isError := true
        requestedUrl := p.url
        resolvedUrl := ""
        finalUrl := some ""
        redirectChain := some []
        acceptHeader := some ph.acceptHeader
        requestHeaders := some ph.redactedHeaders
        blockedRequestHeaders := some ph.blockedHeaders
        mode := some (p.mode.getD FetchMode.full)
        strategy := some (p.strategy.getD FetchStrategy.direct)
        status := 499
        statusText := "Cancelled"
        contentType := ""
        body := "Request cancelled before execution." }, [])
  else
    match normalizeUrl p.url with
    | .error e =>
      (createToolResult
        { isError := true
          requestedUrl := p.url
          resolvedUrl := ""
          finalUrl := some ""
          redirectChain := some []
          acceptHeader := some ph.acceptHeader
          requestHeaders := some ph.redactedHeaders
          blockedRequestHeaders := some ph.blockedHeaders
          mode := some (p.mode.getD FetchMode.full)
          strategy := some (p.strategy.getD FetchStrategy.direct)
          status := 400
          statusText := "Bad Request"
          contentType := ""
          body := NormErr.message e }, [])
    | .ok targetUrl =>
      match getPrivateHostBlockReason env targetUrl.hostnameOf with
      | some reason =>
        (createToolResult
          { isError := true
            requestedUrl := p.url
            resolvedUrl := targetUrl.toStr
            finalUrl := some targetUrl.toStr
            redirectChain := some [targetUrl.toStr]
            acceptHeader := some ph.acceptHeader
            requestHeaders := some ph.redactedHeaders
            blockedRequestHeaders := some ph.blockedHeaders
            mode := some (p.mode.getD FetchMode.full)
            strategy := some (p.strategy.getD FetchStrategy.direct)
            status := 403
            statusText := "Forbidden"
            contentType := ""
            body := reason ++
              ". Set WEBFETCH_ALLOW_PRIVATE_HOSTS=1 to allow private/internal hosts for trusted workflows." },
         [])
      | none =>
        match p.strategy.getD FetchStrategy.direct with
        | .direct =>
          match fetchAttemptM env net maxLines maxBytes targetUrl.toStr
              (p.mode.getD FetchMode.full) (p.maxChars.getD DEFAULT_MAX_CHARS) with
          | (.error e, tr) =>
            (errorResult p.url ph (p.mode.getD FetchMode.full) FetchStrategy.direct
              targetUrl.toStr e, tr)
          | (.ok (.unsupportedContent v), tr) =>
            (buildUnsupportedContentResult p.url ph (p.mode.getD FetchMode.full)
              FetchStrategy.direct v [] [], tr)
          | (.ok (.success v), tr) =>
            (buildResultFromAttempt p.url ph (p.mode.getD FetchMode.full)
              FetchStrategy.direct v (isErrStatus v.status) none [] none [], tr)
        | .smart =>
          match fetchAttemptM env net maxLines maxBytes targetUrl.toStr FetchMode.probe
              (p.maxChars.getD DEFAULT_MAX_CHARS) with
          | (.error e, tr) =>
            (errorResult p.url ph (p.mode.getD FetchMode.full) FetchStrategy.smart
              targetUrl.toStr e, tr)
          | (.ok (.unsupportedContent v), tr) =>
            (buildUnsupportedContentResult p.url ph (p.mode.getD FetchMode.full)
              FetchStrategy.smart v
              ["Smart strategy: performed initial probe fetch before full retrieval.",
               "Probe detected non-text content; stopping before fallback attempts."] [],
             tr)
          | (.ok (.success probeAttempt), tr) =>
            smartLoop env net maxLines maxBytes p.url ph (p.mode.getD FetchMode.full)
              (p.maxChars.getD DEFAULT_MAX_CHARS) targetUrl.toStr probeAttempt
              (collectCands probeAttempt.linkHeader probeAttempt.streamed.text
                probeAttempt.finalUrl probeAttempt.jsShellDetection.detected)
              (collectCands probeAttempt.linkHeader probeAttempt.streamed.text
                probeAttempt.finalUrl probeAttempt.jsShellDetection.detected)
              tr
              (["Smart strategy: performed initial probe fetch before full retrieval."] ++
               [if (collectCands probeAttempt.linkHeader probeAttempt.streamed.text
                      probeAttempt.finalUrl probeAttempt.jsShellDetection.detected).length
                    = 0 then
                  "No alternate markdown/API candidates discovered from probe response."
                else
                  "Found " ++
                    toString (collectCands probeAttempt.linkHeader
                      probeAttempt.streamed.text probeAttempt.finalUrl
                      probeAttempt.jsShellDetection.detected).length ++
                    " alternate markdown/API candidate" ++
                    (if (collectCands probeAttempt.linkHeader probeAttempt.streamed.text
                          probeAttempt.finalUrl
                          probeAttempt.jsShellDetection.detected).length = 1 then ""
                     else "s") ++ "."])

theorem char_eq_of_toNat {c d : Char} (h : c.toNat = d.toNat) : c = d :=
  Char.eq_of_val_eq (UInt32.toNat.inj h)

theorem lcChar_toNat (c : Char) :
    (lcChar c).toNat = if 'A' ≤ c ∧ c ≤ 'Z' then c.toNat + 32 else c.toNat := by
  unfold lcChar
  by_cases h : 'A' ≤ c ∧ c ≤ 'Z'
  · rw [if_pos h, if_pos h]
    have hval2 : 65 ≤ c.toNat := h.1
    have hval : c.toNat ≤ 90 := h.2
    have hvalid : Nat.isValidChar (c.toNat + 32) := by
      left
      omega
    unfold Char.ofNat
    rw [dif_pos hvalid]
    simp [Char.ofNatAux, Char.toNat, UInt32.toNat]
  · rw [if_neg h, if_neg h]

theorem lcChar_of_not_upper {c : Char} (h : ¬ ('A' ≤ c ∧ c ≤ 'Z')) : lcChar c = c := by
  rw [lcChar, if_neg h]

theorem lcChar_eq_colon {c : Char} (h : lcChar c = ':') : c = ':' := by
  have ht : (lcChar c).toNat = 58 := by
    rw [h]
    decide
  rw [lcChar_toNat] at ht
  by_cases hU : 'A' ≤ c ∧ c ≤ 'Z'
  · rw [if_pos hU] at ht
    have h1 : 65 ≤ c.toNat := hU.1
    have h2 : c.toNat ≤ 90 := hU.2
    omega
  · rw [if_neg hU] at ht
    exact char_eq_of_toNat ht

theorem isAlpha_toNat (c : Char) :
    c.isAlpha = true ↔ (65 ≤ c.toNat ∧ c.toNat ≤ 90) ∨ (97 ≤ c.toNat ∧ c.toNat ≤ 122) := by
  rw [Char.isAlpha, Bool.or_eq_true, Char.isUpper, Char.isLower,
    Bool.and_eq_true, Bool.and_eq_true]
  constructor
  · rintro (⟨h1, h2⟩ | ⟨h1, h2⟩)
    · exact Or.inl ⟨of_decide_eq_true h1, of_decide_eq_true h2⟩
    · exact Or.inr ⟨of_decide_eq_true h1, of_decide_eq_true h2⟩
  · rintro (⟨h1, h2⟩ | ⟨h1, h2⟩)
    · exact Or.inl ⟨decide_eq_true h1, decide_eq_true h2⟩
    · exact Or.inr ⟨decide_eq_true h1, decide_eq_true h2⟩

theorem isAlpha_lcChar {c : Char} (h : c.isAlpha = true) : (lcChar c).isAlpha = true := by
  rw [isAlpha_toNat] at h ⊢
  rw [lcChar_toNat]
  by_cases hU : 'A' ≤ c ∧ c ≤ 'Z'
  · have h1 : 65 ≤ c.toNat := hU.1
    have h2 : c.toNat ≤ 90 := hU.2
    rw [if_pos hU]
    right
    omega
  · rw [if_neg hU]
    exact h

theorem isSchemeChar_lcChar {c : Char} (h : isSchemeChar c = true) :
    isSchemeChar (lcChar c) = true := by
  simp only [isSchemeChar, Bool.or_eq_true, decide_eq_true_eq] at h ⊢
  rcases h with ((((h | h) | h) | h) | h)
  · exact Or.inl (Or.inl (Or.inl (Or.inl (isAlpha_lcChar h))))
  · have hd : 48 ≤ c.toNat ∧ c.toNat ≤ 57 := by
      rw [Char.isDigit, Bool.and_eq_true] at h
      exact ⟨of_decide_eq_true h.1, of_decide_eq_true h.2⟩
    have hfix : lcChar c = c := by
      apply lcChar_of_not_upper
      intro hU
      have h1 : 65 ≤ c.toNat := hU.1
      omega
    rw [hfix]
    exact Or.inl (Or.inl (Or.inl (Or.inr h)))
  · subst h
    exact Or.inl (Or.inl (Or.inr (by decide)))
  · subst h
    exact Or.inl (Or.inr (by decide))
  · subst h
    exact Or.inr (by decide)

theorem schemeShapeL_map_lc {l : List Char} (h : schemeShapeL l = true) :
    schemeShapeL (l.map lcChar) = true := by
  cases l with
  | nil => simp [schemeShapeL] at h
  | cons c t =>
    rw [List.map_cons]
    simp only [schemeShapeL, Bool.and_eq_true] at h ⊢
    refine ⟨isAlpha_lcChar h.1, ?_⟩
    rw [List.all_eq_true] at h ⊢
    intro x hx
    rcases List.mem_map.mp hx with ⟨y, hy, rfl⟩
    exact isSchemeChar_lcChar (h.2 y hy)

theorem parseSpecialRest_shape {scheme : String} {rest : List Char} {p : ParsedUrl}
    (h : parseSpecialRest scheme rest = some p) : ∃ u : MUrl, p = ParsedUrl.auth u := by
  unfold parseSpecialRest assembleSpecial at h
  repeat' split at h
  all_goals
    first
      | (refine absurd h ?_
         simp
         done)
      | exact ⟨_, (Option.some.inj h).symm⟩

theorem nonSpecial_reparse {s sch rest : String}
    (h : parseUrlF s = some (.nonSpecial sch rest)) :
    parseUrlF ((ParsedUrl.nonSpecial sch rest).toStr) = some (.nonSpecial sch rest) ∧
    (sch == "http" || sch == "https") = false := by
  unfold parseUrlF at h
  split at h
  · exact absurd h (by simp)
  · split at h
    · exact absurd h (by simp)
    · split at h
      · obtain ⟨u, hu⟩ := parseSpecialRest_shape h
        exact absurd hu (by simp)
      · rename_i h1 h2 h3
        have h4 := Option.some.inj h
        have h5 : schemeOf s = sch := (ParsedUrl.nonSpecial.inj h4).1
        have hshape : schemeShapeL (s.data.takeWhile (fun c => c ≠ ':')) = true := by
          cases hb : schemeShapeL (s.data.takeWhile (fun c => c ≠ ':'))
          · rw [hb] at h2
            exact absurd rfl h2
          · rfl
        have hdata : sch.data = (s.data.takeWhile (fun c => c ≠ ':')).map lcChar := by
          rw [← h5]
          rfl
        have hne : ∀ c ∈ sch.data, decide (c ≠ ':') = true := by
          intro c hc
          rw [hdata] at hc
          rcases List.mem_map.mp hc with ⟨d, hd, rfl⟩
          apply decide_eq_true
          intro hcolon
          have hdc : d = ':' := lcChar_eq_colon hcolon
          subst hdc
          have := tkw_mem hd
          simp at this
        have hshape2 : schemeShapeL sch.data = true := by
          rw [hdata]
          exact schemeShapeL_map_lc hshape
        have hnotsp : (sch == "http" || sch == "https") = false := by
          cases hb : (sch == "http" || sch == "https")
          · rfl
          · rw [← h5] at hb
            rw [hb] at h3
            exact absurd rfl h3
        refine ⟨?_, hnotsp⟩
        have hdata2 : ((ParsedUrl.nonSpecial sch rest).toStr).data =
            sch.data ++ ':' :: rest.data := by
          show (sch ++ ":" ++ rest).data = _
          simp [String.data_append]
        have htkr : (sch.data ++ ':' :: rest.data).takeWhile (fun c => c ≠ ':') =
            sch.data := by
          rw [tkw_app _ hne, tkw_stop _ (by simp)]
          simp
        have hdropr : (sch.data ++ ':' :: rest.data).drop (sch.data.length + 1) =
            rest.data :=
          (take_drop_sep _ hne (by simp)).2
        have hlc2 : sch.data.map lcChar = sch.data := by
          rw [hdata, List.map_map]
          have hcomp : (lcChar ∘ lcChar) = lcChar := by
            funext x
            exact lcChar_idem x
          rw [hcomp]
        have hschemeOf : schemeOf ((ParsedUrl.nonSpecial sch rest).toStr) = sch := by
          unfold schemeOf
          rw [hdata2, htkr, hlc2]
        unfold parseUrlF
        rw [hdata2, htkr]
        rw [if_neg (by
          simp only [List.length_append, List.length_cons]
          omega)]
        rw [if_neg (by rw [hshape2]; simp)]
        rw [hschemeOf]
        rw [if_neg (by rw [hnotsp]; simp)]
        rw [hdropr]

theorem hostname_toStr_auth {u : MUrl} (hwf : u.wf = true) :
    urlHostname ((ParsedUrl.auth u).toStr) = u.host := by
  unfold urlHostname
  rw [show (ParsedUrl.auth u).toStr = u.toStr from rfl, parse_toStr hwf]
  rfl

theorem urlHostname_roundtrip {s : String} {p : ParsedUrl}
    (h : parseUrlF s = some p) : urlHostname p.toStr = p.hostnameOf := by
  cases p with
  | auth u =>
    rw [hostname_toStr_auth (parseUrlF_wf h)]
    rfl
  | nonSpecial sch rest =>
    unfold urlHostname
    rw [(nonSpecial_reparse h).1]

theorem parseAndCheckScheme_auth {s : String} {p : ParsedUrl}
    (h : parseAndCheckScheme s = .ok p) :
    ∃ u : MUrl, p = ParsedUrl.auth u ∧ u.wf = true := by
  unfold parseAndCheckScheme at h
  split at h
  · exact absurd h (by simp)
  · rename_i parsed heq
    split at h
    · exact absurd h (by simp)
    · rename_i hproto
      have hp : parsed = p := by
        injection h
      subst hp
      cases parsed with
      | auth u => exact ⟨u, rfl, parseUrlF_wf heq⟩
      | nonSpecial sch rest =>
        exfalso
        have hnot := (nonSpecial_reparse heq).2
        rw [Bool.not_eq_true] at hproto
        rw [Bool.and_eq_false_iff] at hproto
        rcases hproto with hproto | hproto
        · rw [bne_eq_false_iff_eq] at hproto
          have hsch : sch = "http" := by
            have := congrArg ParsedUrl.protocol (rfl : ParsedUrl.nonSpecial sch rest = _)
            exact append_colon_inj hproto
          subst hsch
          simp at hnot
        · rw [bne_eq_false_iff_eq] at hproto
          have hsch : sch = "https" := append_colon_inj hproto
          subst hsch
          simp at hnot

theorem normalizeUrl_auth {url : String} {p : ParsedUrl}
    (h : normalizeUrl url = .ok p) :
    ∃ u : MUrl, p = ParsedUrl.auth u ∧ u.wf = true := by
  simp only [normalizeUrl] at h
  split at h
  · exact absurd h (by simp)
  · exact parseAndCheckScheme_auth h

/-- The linkage invariant of a redirect chain: each hop was a redirect
status carrying a Location that resolves to the next URL, and each next
URL passed the Guard. -/
def linkedChain (env : Option String) (net : String → NetResp) :
    String → List String → Prop
  | _, [] => True
  | cur, next :: rest =>
    isRedirectStatus (net cur).status = true ∧
    (∃ loc p, (net cur).location = some loc ∧ parseUrlF loc = some p ∧ next = p.toStr) ∧
    getPrivateHostBlockReason env (urlHostname next) = none ∧
    linkedChain env net next rest

theorem fwrGo_trace_guard (env : Option String) (net : String → NetResp) :
    ∀ (fuel : Nat) (current : String) (chain tr : List String),
    getPrivateHostBlockReason env (urlHostname current) = none →
    (∀ u ∈ tr, getPrivateHostBlockReason env (urlHostname u) = none) →
    ∀ u ∈ (fwrGo env net fuel current chain tr).2,
      getPrivateHostBlockReason env (urlHostname u) = none := by
  intro fuel
  induction fuel with
  | zero =>
    intro current chain tr hcur htr u hu
    exact htr u hu
  | succ k ih =>
    intro current chain tr hcur htr u hu
    have htr2 : ∀ v ∈ tr ++ [current],
        getPrivateHostBlockReason env (urlHostname v) = none := by
      intro v hv
      rcases List.mem_append.mp hv with h | h
      · exact htr v h
      · have hv2 : v = current := by simpa using h
        subst hv2
        exact hcur
    rw [fwrGo] at hu
    split at hu
    · exact htr2 u hu
    · split at hu
      · exact htr2 u hu
      · split at hu
        · exact htr2 u hu
        · split at hu
          · exact htr2 u hu
          · rename_i v hloc a1 p hp a2 hb
            split at hu
            · exact htr2 u hu
            · exact ih p.toStr _ (tr ++ [current]) hb htr2 u hu

theorem fwrGo_ok_guard (env : Option String) (net : String → NetResp) :
    ∀ (fuel : Nat) (current : String) (chain tr : List String) (f : String)
    (c2 : List String),
    getPrivateHostBlockReason env (urlHostname current) = none →
    (fwrGo env net fuel current chain tr).1 = .ok (f, c2) →
    getPrivateHostBlockReason env (urlHostname f) = none := by
  intro fuel
  induction fuel with
  | zero =>
    intro current chain tr f c2 hcur h
    exact absurd h (by simp [fwrGo])
  | succ k ih =>
    intro current chain tr f c2 hcur h
    rw [fwrGo] at h
    split at h
    · have hf : current = f := congrArg Prod.fst (Except.ok.inj h)
      rw [← hf]
      exact hcur
    · split at h
      · have hf : current = f := congrArg Prod.fst (Except.ok.inj h)
        rw [← hf]
        exact hcur
      · split at h
        · exact absurd h (by simp)
        · split at h
          · exact absurd h (by simp)
          · rename_i v hloc a1 p hp a2 hb
            split at h
            · exact absurd h (by simp)
            · exact ih p.toStr _ (tr ++ [current]) f c2 hb h

theorem fwrGo_tooMany (env : Option String) (net : String → NetResp) :
    ∀ (fuel : Nat) (current : String) (chain tr : List String) (c : List String),
    (fwrGo env net fuel current chain tr).1 = .error (.tooManyRedirects c) →
    ∃ ext, c = chain ++ ext ∧ linkedChain env net current ext ∧
      c.length = chain.length + fuel := by
  intro fuel
  induction fuel with
  | zero =>
    intro current chain tr c h
    have hc : chain = c := FetchErr.tooManyRedirects.inj (Except.error.inj h)
    subst hc
    exact ⟨[], by simp, trivial, by simp⟩
  | succ k ih =>
    intro current chain tr c h
    rw [fwrGo] at h
    split at h
    · exact absurd h (by simp)
    · rename_i hredF
      have hredT : isRedirectStatus (net current).status = true := by
        cases hx : isRedirectStatus (net current).status
        · exact absurd hx hredF
        · rfl
      split at h
      · exact absurd h (by simp)
      · split at h
        · exact absurd h (by simp)
        · split at h
          · exact absurd h (by simp)
          · rename_i v hloc a1 p hp a2 hb
            split at h
            · rename_i hk
              have hc : chain ++ [p.toStr] = c :=
                FetchErr.tooManyRedirects.inj (Except.error.inj h)
              subst hk
              refine ⟨[p.toStr], hc.symm, ?_, ?_⟩
              · exact ⟨hredT, ⟨v, p, hloc, hp, rfl⟩, hb, trivial⟩
              · rw [← hc]
                simp
            · obtain ⟨ext, hcc, hlink, hlen⟩ :=
                ih p.toStr (chain ++ [p.toStr]) (tr ++ [current]) c h
              refine ⟨p.toStr :: ext, ?_, ?_, ?_⟩
              · rw [hcc]
                simp
              · exact ⟨hredT, ⟨v, p, hloc, hp, rfl⟩, hb, hlink⟩
              · rw [hlen]
                simp only [List.length_append, List.length_cons, List.length_nil]
                omega

theorem fwrGo_trace_len (env : Option String) (net : String → NetResp) :
    ∀ (fuel : Nat) (current : String) (chain tr : List String),
    (fwrGo env net fuel current chain tr).2.length ≤ tr.length + fuel := by
  intro fuel
  induction fuel with
  | zero =>
    intro current chain tr
    simp [fwrGo]
  | succ k ih =>
    intro current chain tr
    rw [fwrGo]
    split
    · simp only [List.length_append, List.length_cons, List.length_nil]
      omega
    · split
      · simp only [List.length_append, List.length_cons, List.length_nil]
        omega
      · split
        · simp only [List.length_append, List.length_cons, List.length_nil]
          omega
        · split
          · simp only [List.length_append, List.length_cons, List.length_nil]
            omega
          · rename_i v hloc a1 p hp a2 hb
            split
            · simp only [List.length_append, List.length_cons, List.length_nil]
              omega
            · have := ih p.toStr (chain ++ [p.toStr]) (tr ++ [current])
              simp only [List.length_append, List.length_cons, List.length_nil] at this ⊢
              omega

theorem fwrGo_blocked (env : Option String) (net : String → NetResp) :
    ∀ (fuel : Nat) (current : String) (chain tr : List String) (u r : String),
    (fwrGo env net fuel current chain tr).1 = .error (.redirectBlocked u r) →
    getPrivateHostBlockReason env (urlHostname u) = some r := by
  intro fuel
  induction fuel with
  | zero =>
    intro current chain tr u r h
    exact absurd h (by simp [fwrGo])
  | succ k ih =>
    intro current chain tr u r h
    rw [fwrGo] at h
    split at h
    · exact absurd h (by simp)
    · split at h
      · exact absurd h (by simp)
      · split at h
        · exact absurd h (by simp)
        · split at h
          · rename_i v hloc a1 p hp a2 reason hb
            have hur := FetchErr.redirectBlocked.inj (Except.error.inj h)
            obtain ⟨h1, h2⟩ := hur
            subst h1
            subst h2
            exact hb
          · rename_i v hloc a1 p hp a2 hb
            split at h
            · exact absurd h (by simp)
            · exact ih p.toStr _ (tr ++ [current]) u r h

/-- Agreement of two responses on everything except the body chunks. -/
def NetResp.sameHead (a b : NetResp) : Prop :=
  a.status = b.status ∧ a.statusText = b.statusText ∧ a.contentType = b.contentType ∧
  a.contentLength = b.contentLength ∧ a.link = b.link ∧ a.location = b.location

theorem fwrGo_sameHead {net net2 : String → NetResp}
    (hsame : ∀ u, NetResp.sameHead (net u) (net2 u)) (env : Option String) :
    ∀ (fuel : Nat) (current : String) (chain tr : List String),
    fwrGo env net fuel current chain tr = fwrGo env net2 fuel current chain tr := by
  intro fuel
  induction fuel with
  | zero =>
    intro current chain tr
    rfl
  | succ k ih =>
    intro current chain tr
    obtain ⟨hst, _, _, _, _, hlocEq⟩ := hsame current
    simp only [fwrGo]
    rw [← hst, ← hlocEq]
    split
    · rfl
    · split
      · rfl
      · split
        · rfl
        · split
          · rfl
          · rename_i v hloc a1 p hp a2 hb
            split
            · rfl
            · exact ih p.toStr (chain ++ [p.toStr]) (tr ++ [current])

theorem fetchAttemptM_trace (env : Option String) (net : String → NetResp)
    (maxLines maxBytes : Nat) (url : String) (mode : FetchMode) (maxChars : Nat) :
    (fetchAttemptM env net maxLines maxBytes url mode maxChars).2 =
    (fetchWithRedirectsM env net url).2 := by
  unfold fetchAttemptM
  rcases h : fetchWithRedirectsM env net url with ⟨r, tr⟩
  cases r with
  | error e => rfl
  | ok v =>
    rcases v with ⟨f, chain⟩
    split <;>
      first
        | rfl
        | (rename_i heq
           simp at heq
           done)
        | (rename_i heq
           simp at heq
           obtain ⟨⟨h1, h2⟩, h3⟩ := heq
           subst h3
           split <;> rfl)

theorem fetchAttemptM_trace_guard (env : Option String) (net : String → NetResp)
    (maxLines maxBytes : Nat) (url : String) (mode : FetchMode) (maxChars : Nat)
    (hg : getPrivateHostBlockReason env (urlHostname url) = none) :
    ∀ u ∈ (fetchAttemptM env net maxLines maxBytes url mode maxChars).2,
      getPrivateHostBlockReason env (urlHostname u) = none := by
  intro u hu
  rw [fetchAttemptM_trace] at hu
  exact fwrGo_trace_guard env net (MAX_REDIRECTS + 1) url [url] [] hg (by simp) u hu

theorem fetchAttemptM_success_guard (env : Option String) (net : String → NetResp)
    (maxLines maxBytes : Nat) (url : String) (mode : FetchMode) (maxChars : Nat)
    (v : FetchAttemptSuccessM) (tr : List String)
    (hg : getPrivateHostBlockReason env (urlHostname url) = none)
    (h : fetchAttemptM env net maxLines maxBytes url mode maxChars =
      (.ok (.success v), tr)) :
    getPrivateHostBlockReason env (urlHostname v.finalUrl) = none := by
  unfold fetchAttemptM at h
  rcases hfwr : fetchWithRedirectsM env net url with ⟨r, tr2⟩
  rw [hfwr] at h
  cases r with
  | error e => exact absurd (congrArg Prod.fst h) (by simp)
  | ok fv =>
    rcases fv with ⟨f, chain⟩
    split at h
    · rename_i heq
      simp at heq
    · rename_i finalU chainU trU heq
      simp only [Prod.mk.injEq, Except.ok.injEq] at heq
      obtain ⟨⟨hf1, hc1⟩, ht1⟩ := heq
      subst hf1
      subst hc1
      subst ht1
      split at h
      · exact absurd (congrArg Prod.fst h) (by simp)
      · have hR := FetchAttemptResultM.success.inj (Except.ok.inj (congrArg Prod.fst h))
        have hfin : v.finalUrl = f := by
          rw [← hR]
        have hok : (fwrGo env net (MAX_REDIRECTS + 1) url [url] []).1 = .ok (f, chain) := by
          show (fetchWithRedirectsM env net url).1 = _
          rw [hfwr]
        rw [hfin]
        exact fwrGo_ok_guard env net (MAX_REDIRECTS + 1) url [url] [] f chain hg hok

theorem fetchAttemptM_unsupported (env : Option String) (net : String → NetResp)
    (maxLines maxBytes : Nat) (url : String) (mode : FetchMode) (maxChars : Nat)
    (f : String) (chain tr : List String)
    (hfwr : fetchWithRedirectsM env net url = (.ok (f, chain), tr))
    (hct : isTextContentType ((net f).contentType.getD "") = false) :
    fetchAttemptM env net maxLines maxBytes url mode maxChars =
      (.ok (.unsupportedContent
        { status := (net f).status
          statusText := (net f).statusText
          contentType := (net f).contentType.getD ""
          contentLength := parseContentLength (net f).contentLength
          finalUrl := f
          redirectChain := chain }), tr) := by
  unfold fetchAttemptM
  rw [hfwr]
  simp [hct]

theorem fetchAttemptM_success_eq (env : Option String) (net : String → NetResp)
    (maxLines maxBytes : Nat) (url : String) (mode : FetchMode) (maxChars : Nat)
    (f : String) (chain tr : List String)
    (hfwr : fetchWithRedirectsM env net url = (.ok (f, chain), tr))
    (hct : isTextContentType ((net f).contentType.getD "") = true) :
    fetchAttemptM env net maxLines maxBytes url mode maxChars =
      (.ok (.success
        { status := (net f).status
          statusText := (net f).statusText
          contentType := (net f).contentType.getD ""
          contentLength := parseContentLength (net f).contentLength
          linkHeader := (net f).link
          finalUrl := f
          redirectChain := chain
          streamed :=
            match mode with
            | .probe =>
              probeResponseTextM (net f).bodyChunks maxChars DEFAULT_PROBE_MAX_BYTES
            | .full => streamResponseTextM maxLines maxBytes (net f).bodyChunks maxChars
          jsShellDetection :=
            detectJsShell ((net f).contentType.getD "")
              (match mode with
               | .probe =>
                 (probeResponseTextM (net f).bodyChunks maxChars
                   DEFAULT_PROBE_MAX_BYTES).text
               | .full =>
                 (streamResponseTextM maxLines maxBytes (net f).bodyChunks
                   maxChars).text) }), tr) := by
  unfold fetchAttemptM
  rw [hfwr]
  simp [hct]

theorem fetchAttemptM_unsupported_only_nontextual (env : Option String)
    (net : String → NetResp) (maxLines maxBytes : Nat) (url : String)
    (mode : FetchMode) (maxChars : Nat) (f : String) (chain tr : List String)
    (v : FetchAttemptUnsupportedM) (tr2 : List String)
    (hfwr : fetchWithRedirectsM env net url = (.ok (f, chain), tr))
    (h : fetchAttemptM env net maxLines maxBytes url mode maxChars =
      (.ok (.unsupportedContent v), tr2)) :
    isTextContentType ((net f).contentType.getD "") = false := by
  cases hx : isTextContentType ((net f).contentType.getD "")
  · rfl
  · exfalso
    have hs := fetchAttemptM_success_eq env net maxLines maxBytes url mode maxChars
      f chain tr hfwr hx
    have hcon := hs.symm.trans h
    simp at hcon

theorem fetchAttemptM_unsupported_sameHead {net net2 : String → NetResp}
    (hsame : ∀ u, NetResp.sameHead (net u) (net2 u)) (env : Option String)
    (maxLines maxBytes : Nat) (url : String) (mode : FetchMode) (maxChars : Nat)
    (v : FetchAttemptUnsupportedM) (tr : List String)
    (h : fetchAttemptM env net maxLines maxBytes url mode maxChars =
      (.ok (.unsupportedContent v), tr)) :
    fetchAttemptM env net2 maxLines maxBytes url mode maxChars =
      (.ok (.unsupportedContent v), tr) := by
  unfold fetchAttemptM at h ⊢
  have hfw : fetchWithRedirectsM env net2 url = fetchWithRedirectsM env net url :=
    (fwrGo_sameHead hsame env (MAX_REDIRECTS + 1) url [url] []).symm
  rw [hfw]
  rcases hfwr : fetchWithRedirectsM env net url with ⟨r, tr2⟩
  rw [hfwr] at h
  cases r with
  | error e => exact absurd (congrArg Prod.fst h) (by simp)
  | ok fv =>
    rcases fv with ⟨f, chain⟩
    obtain ⟨hst, hstx, hct, hcl, _, _⟩ := hsame f
    have hctF : isTextContentType ((net f).contentType.getD "") = false := by
      refine fetchAttemptM_unsupported_only_nontextual env net maxLines maxBytes url
        mode maxChars f chain tr2 v tr hfwr ?_
      unfold fetchAttemptM
      rw [hfwr]
      exact h
    have hctF2 : isTextContentType ((net2 f).contentType.getD "") = false := by
      rw [← hct]
      exact hctF
    have hval := fetchAttemptM_unsupported env net maxLines maxBytes url mode maxChars
      f chain tr2 hfwr hctF
    unfold fetchAttemptM at hval
    rw [hfwr] at hval
    have hval2 := fetchAttemptM_unsupported env net2 maxLines maxBytes url mode maxChars
      f chain tr2 (by rw [hfw, hfwr]) hctF2
    unfold fetchAttemptM at hval2
    rw [hfw, hfwr] at hval2
    rw [hval2]
    rw [hval] at h
    rw [← hst, ← hstx, ← hct, ← hcl]
    exact h

theorem hasSub_append_right (pre : List Char) {pat l : List Char}
    (h : hasSub pat l = true) : hasSub pat (pre ++ l) = true := by
  induction pre with
  | nil => simpa using h
  | cons c t ih =>
    rw [List.cons_append, hasSub, Bool.or_eq_true]
    exact Or.inr ih

/-- C4: credentials never survive into the result record. For every URL
that parses to an authority form, parse-based redaction reserialises it
with username and password cleared, and the redacted string carries no
credentials; raw textual redaction replaces the userinfo of a
scheme-qualified URL with the redaction marker; and every tool result
built by createToolResult passes its requested, resolved, final, chain,
candidate and used-alternate URLs through exactly these two redaction
functions, including the URL cited in the output text. -/
theorem C4_credential_redaction :
    (∀ (s : String) (u : MUrl), parseUrlF s = some (.auth u) →
      redactUrlCredentials s =
        MUrl.toStr { u with username := "", password := "" } ∧
      hasCreds (redactUrlCredentials s) = false) ∧
    (∀ (s0 : Char) (srest ui rest : List Char),
      isRegexSchemeStart s0 = true →
      (∀ c ∈ srest, isRegexSchemeChar c = true) →
      ui ≠ [] → (∀ c ∈ ui, uiNoAt c = true) →
      '@' ∉ rest → (∀ c ∈ rest, isJsWs c = false) →
      redactRawUrlCredentials ⟨s0 :: srest ++ ':' :: '/' :: '/' :: (ui ++ '@' :: rest)⟩ =
        ⟨s0 :: srest ++ ':' :: '/' :: '/' :: (redactedCredentials.data ++ '@' :: rest)⟩) ∧
    (∀ a : CTRArgs,
      (createToolResult a).details.requestedUrl = redactRawUrlCredentials a.requestedUrl ∧
      (createToolResult a).details.resolvedUrl = redactUrlCredentials a.resolvedUrl ∧
      (createToolResult a).details.finalUrl =
        redactUrlCredentials (a.finalUrl.getD a.resolvedUrl) ∧
      (createToolResult a).details.redirectChain =
        (a.redirectChain.getD [a.resolvedUrl]).map redactUrlCredentials ∧
      (createToolResult a).details.alternateCandidates =
        (a.alternateCandidates.getD []).map redactUrlCredentials ∧
      (∀ t, (createToolResult a).details.alternateUrlUsed = some t →
        ∃ v, t = redactUrlCredentials v) ∧
      (createToolResult a).text = formatToolOutput a.isError
        (redactUrlCredentials (a.finalUrl.getD a.resolvedUrl)) a.status a.statusText
        a.contentType a.body) := by
  refine ⟨fun s u h => redactUrl_auth h, fun s0 srest ui rest h0 hsr hne hui hat hws =>
    redactRaw_shape h0 hsr hne hui hat hws, fun a => ?_⟩
  refine ⟨rfl, rfl, rfl, rfl, rfl, ?_, rfl⟩
  intro t ht
  simp only [createToolResult, buildDetails] at ht
  cases ha : a.alternateUrlUsed with
  | none =>
    rw [ha] at ht
    exact absurd ht (by simp)
  | some v =>
    rw [ha] at ht
    by_cases hv : v.data.isEmpty = true
    · simp [hv] at ht
    · simp only [hv] at ht
      simp at ht
      exact ⟨v, ht.symm⟩

/-- C4 witness: a concrete URL with userinfo credentials is reserialised
without them by parse-based redaction, and raw redaction rewrites the
userinfo to the marker. -/
theorem C4_witness :
    redactUrlCredentials "http://user:pass@h/p" = "http://h/p" ∧
    hasCreds (redactUrlCredentials "http://user:pass@h/p") = false ∧
    redactRawUrlCredentials "http://user:pass@h/p" = "http://[redacted]@h/p" := by
  have h1 := (C4_credential_redaction.1 "http://user:pass@h/p"
    { scheme := "http", username := "user", password := "pass", host := "h",
      port := "", path := "/p", query := "" } (by decide))
  have h2 := C4_credential_redaction.2.1 'h' ['t', 't', 'p'] "user:pass".data "h/p".data
    (by decide) (by decide) (by decide) (by decide) (by decide) (by decide)
  refine ⟨?_, h1.2, ?_⟩
  · rw [h1.1]
    decide
  · have h3 : ("http://user:pass@h/p" : String) =
        ⟨'h' :: ['t', 't', 'p'] ++ ':' :: '/' :: '/' :: ("user:pass".data ++ '@' :: "h/p".data)⟩ := by
      decide
    rw [h3, h2]
    decide

/-- A concrete header preparation used by witnesses. -/
def phW : RequestHeaderPreparation :=
  { requestHeaders := [("Accept", DEFAULT_ACCEPT_HEADER)]
    redactedHeaders := [("Accept", DEFAULT_ACCEPT_HEADER)]
    blockedHeaders := []
    acceptHeader := DEFAULT_ACCEPT_HEADER }

/-- A concrete streamed-capture record used by witnesses. -/
def streamedW : StreamedResponseText :=
  { text := "hello", truncated := false, charTruncated := false
    totalCharacters := 5, fullOutputPath := none, truncation := none
    probeBytesRead := none, probeByteLimit := none }

/-- A concrete successful attempt record used by witnesses. -/
def attW : FetchAttemptSuccessM :=
  { status := 200, statusText := "OK", contentType := "text/plain"
    contentLength := some 5, linkHeader := none, finalUrl := "https://e.com/"
    redirectChain := ["https://e.com/"], streamed := streamedW
    jsShellDetection := { detected := false, signals := [] } }

/-- C10: truncatedByLines and truncatedByBytes are never both true in a
details record: every result built from a successful attempt derives both
sub-flags from the single truncatedBy field of the stored truncation
record, which holds one cause, and every other result leaves an absent
truncatedByLines at its false default. -/
theorem C10_single_truncation_cause :
    (∀ ru ph mode strat att isErr bo cands used notes,
      ¬((buildResultFromAttempt ru ph mode strat att isErr bo cands
          used notes).details.truncatedByLines = true ∧
        (buildResultFromAttempt ru ph mode strat att isErr bo cands
          used notes).details.truncatedByBytes = true)) ∧
    (∀ a : CTRArgs, a.truncatedByLines = none →
      (createToolResult a).details.truncatedByLines = false) := by
  constructor
  · intro ru ph mode strat att isErr bo cands used notes
    rintro ⟨h1, h2⟩
    have h1' : (match att.streamed.truncation with
        | some t => t.truncatedBy == some TruncBy.lines
        | none => false) = true := h1
    have h2' : (match att.streamed.truncation with
        | some t => t.truncatedBy == some TruncBy.bytes
        | none => false) = true := h2
    cases ht : att.streamed.truncation with
    | none =>
      rw [ht] at h1'
      exact absurd h1' (by simp)
    | some t =>
      rw [ht] at h1' h2'
      simp at h1' h2'
      rw [h1'] at h2'
      exact absurd h2' (by simp)
  · intro a h
    show a.truncatedByLines.getD false = false
    rw [h]
    rfl

/-- A concrete createToolResult argument record used by witnesses. -/
def ctrW : CTRArgs :=
  { isError := false, requestedUrl := "u", resolvedUrl := "u"
    status := 200, statusText := "OK", contentType := "text/plain"
    body := "b" }

/-- C10 witness: concrete instances of both conjuncts. -/
theorem C10_witness :
    ¬((buildResultFromAttempt "u" phW FetchMode.full FetchStrategy.direct attW
        false none [] none []).details.truncatedByLines = true ∧
      (buildResultFromAttempt "u" phW FetchMode.full FetchStrategy.direct attW
        false none [] none []).details.truncatedByBytes = true) ∧
    (createToolResult ctrW).details.truncatedByLines = false :=
  ⟨C10_single_truncation_cause.1 "u" phW FetchMode.full FetchStrategy.direct attW
      false none [] none [],
   C10_single_truncation_cause.2 ctrW rfl⟩

/-- C6: a response whose content-type fails the textual allowlist ends the
attempt as an unsupported-content outcome carrying the response head; only
such responses produce that outcome; the outcome depends only on the
response heads, never on any body bytes; and the surfaced result is
isError=true with the underlying status and a message suggesting an
explicit Accept header. -/
theorem C6_unsupported_content_type :
    (∀ (env : Option String) (net : String → NetResp) (maxLines maxBytes : Nat)
        (url : String) (mode : FetchMode) (maxChars : Nat) (f : String)
        (chain tr : List String),
      fetchWithRedirectsM env net url = (.ok (f, chain), tr) →
      isTextContentType ((net f).contentType.getD "") = false →
      fetchAttemptM env net maxLines maxBytes url mode maxChars =
        (.ok (.unsupportedContent
          { status := (net f).status
            statusText := (net f).statusText
            contentType := (net f).contentType.getD ""
            contentLength := parseContentLength (net f).contentLength
            finalUrl := f
            redirectChain := chain }), tr)) ∧
    (∀ (env : Option String) (net : String → NetResp) (maxLines maxBytes : Nat)
        (url : String) (mode : FetchMode) (maxChars : Nat) (f : String)
        (chain tr : List String) (v : FetchAttemptUnsupportedM) (tr2 : List String),
      fetchWithRedirectsM env net url = (.ok (f, chain), tr) →
      fetchAttemptM env net maxLines maxBytes url mode maxChars =
        (.ok (.unsupportedContent v), tr2) →
      isTextContentType ((net f).contentType.getD "") = false) ∧
    (∀ (net net2 : String → NetResp),
      (∀ u, NetResp.sameHead (net u) (net2 u)) →
      ∀ (env : Option String) (maxLines maxBytes : Nat) (url : String)
        (mode : FetchMode) (maxChars : Nat) (v : FetchAttemptUnsupportedM)
        (tr : List String),
      fetchAttemptM env net maxLines maxBytes url mode maxChars =
        (.ok (.unsupportedContent v), tr) →
      fetchAttemptM env net2 maxLines maxBytes url mode maxChars =
        (.ok (.unsupportedContent v), tr)) ∧
    (∀ (ru : String) (ph : RequestHeaderPreparation) (mode : FetchMode)
        (strat : FetchStrategy) (v : FetchAttemptUnsupportedM)
        (notes : List String) (cands : List SmartCandidate),
      (buildUnsupportedContentResult ru ph mode strat v notes cands).isError = true ∧
      (buildUnsupportedContentResult ru ph mode strat v notes cands).details.status =
        v.status ∧
      (buildUnsupportedContentResult ru ph mode strat v notes cands).details.statusText =
        v.statusText ∧
      strIncludes (buildUnsupportedContentMessage v.contentType)
        "try an explicit Accept header" = true) := by
  refine ⟨fun env net ml mb url mode mc f chain tr hfwr hct =>
      fetchAttemptM_unsupported env net ml mb url mode mc f chain tr hfwr hct,
    fun env net ml mb url mode mc f chain tr v tr2 hfwr h =>
      fetchAttemptM_unsupported_only_nontextual env net ml mb url mode mc f chain tr
        v tr2 hfwr h,
    fun net net2 hsame env ml mb url mode mc v tr h =>
      fetchAttemptM_unsupported_sameHead hsame env ml mb url mode mc v tr h,
    fun ru ph mode strat v notes cands => ⟨rfl, rfl, rfl, ?_⟩⟩
  unfold strIncludes buildUnsupportedContentMessage
  simp only [String.data_append, List.append_assoc]
  apply hasSub_append_right
  apply hasSub_append_right
  apply hasSub_append_right
  decide

/-- A network whose every response is a PDF head. -/
def netPdf : String → NetResp := fun _ =>
  { status := 200, statusText := "OK", contentType := some "application/pdf"
    contentLength := none, link := none, location := none, bodyChunks := [[37]] }

/-- The unsupported record netPdf produces. -/
def uPdf : FetchAttemptUnsupportedM :=
  { status := 200, statusText := "OK", contentType := "application/pdf"
    contentLength := none, finalUrl := "https://e.com/"
    redirectChain := ["https://e.com/"] }

/-- C6 witness: a concrete PDF response ends as unsupported content with
the guidance text in the message. -/
theorem C6_witness :
    fetchAttemptM none netPdf 1000 50000 "https://e.com/" FetchMode.full 12000 =
      (.ok (.unsupportedContent uPdf), ["https://e.com/"]) ∧
    (buildUnsupportedContentResult "https://e.com/" phW FetchMode.full
      FetchStrategy.direct uPdf [] []).isError = true ∧
    strIncludes (buildUnsupportedContentMessage "application/pdf")
      "try an explicit Accept header" = true := by
  have h1 := C6_unsupported_content_type.1 none netPdf 1000 50000 "https://e.com/"
    FetchMode.full 12000 "https://e.com/" ["https://e.com/"] ["https://e.com/"]
    rfl (by decide)
  have h4 := C6_unsupported_content_type.2.2.2 "https://e.com/" phW FetchMode.full
    FetchStrategy.direct uPdf [] []
  exact ⟨h1, h4.1, h4.2.2.2⟩

/-- C5: the redirecting fetcher issues at most MAX_REDIRECTS + 1 requests;
when the budget is exhausted it fails with tooManyRedirects carrying the
full chain, which starts at the requested URL, is linked hop by hop, and
has exactly MAX_REDIRECTS + 2 entries; the handler surfaces that error as
isError=true with status 508 and the chain in details.redirectChain; and
executeModel routes a failing direct attempt through that handler. -/
theorem C5_redirect_cap :
    (∀ (env : Option String) (net : String → NetResp) (url : String),
      (fetchWithRedirectsM env net url).2.length ≤ MAX_REDIRECTS + 1) ∧
    (∀ (env : Option String) (net : String → NetResp) (url : String)
        (c : List String),
      (fetchWithRedirectsM env net url).1 = .error (.tooManyRedirects c) →
      c.length = MAX_REDIRECTS + 2 ∧
        ∃ ext, c = url :: ext ∧ linkedChain env net url ext) ∧
    (∀ (ru : String) (ph : RequestHeaderPreparation) (mode : FetchMode)
        (strat : FetchStrategy) (ts : String) (c : List String),
      (errorResult ru ph mode strat ts (.tooManyRedirects c)).isError = true ∧
      (errorResult ru ph mode strat ts (.tooManyRedirects c)).details.status = 508 ∧
      (errorResult ru ph mode strat ts (.tooManyRedirects c)).details.redirectChain =
        c.map redactUrlCredentials) ∧
    (∀ (env : Option String) (net : String → NetResp) collectCands
        (maxLines maxBytes : Nat) (ph : RequestHeaderPreparation) (p : ExecParams)
        (targetUrl : ParsedUrl) (e : FetchErr) (tr : List String),
      normalizeUrl p.url = .ok targetUrl →
      getPrivateHostBlockReason none targetUrl.hostnameOf = none →
      env = none →
      p.strategy.getD FetchStrategy.direct = .direct →
      fetchAttemptM env net maxLines maxBytes targetUrl.toStr
        (p.mode.getD FetchMode.full) (p.maxChars.getD DEFAULT_MAX_CHARS) =
        (.error e, tr) →
      executeModel env net collectCands maxLines maxBytes ph false p =
        (errorResult p.url ph (p.mode.getD FetchMode.full) FetchStrategy.direct
          targetUrl.toStr e, tr)) := by
  refine ⟨?_, ?_, ?_, ?_⟩
  · intro env net url
    have h := fwrGo_trace_len env net (MAX_REDIRECTS + 1) url [url] []
    simpa using h
  · intro env net url c h
    obtain ⟨ext, hc, hlink, hlen⟩ := fwrGo_tooMany env net (MAX_REDIRECTS + 1)
      url [url] [] c h
    refine ⟨?_, ext, by simpa using hc, hlink⟩
    simp only [List.length_singleton] at hlen
    omega
  · intro ru ph mode strat ts c
    exact ⟨rfl, rfl, rfl⟩
  · intro env net collectCands ml mb ph p targetUrl e tr hnorm hguard henv hstrat hatt
    subst henv
    unfold executeModel
    rw [if_neg (by decide)]
    simp only [hnorm, hguard, hstrat, hatt]

/-- A network that always answers with a redirect back to the same URL. -/
def netLoop : String → NetResp := fun _ =>
  { status := 301, statusText := "Moved Permanently", contentType := none
    contentLength := none, link := none, location := some "https://e.com/"
    bodyChunks := [] }

/-- The chain the looping network produces. -/
def cLoop : List String := List.replicate 12 "https://e.com/"

/-- C5 witness: a self-redirecting response fails with tooManyRedirects
carrying a 12-entry chain is surfaced as a 508. -/
theorem C5_witness :
    (fetchWithRedirectsM none netLoop "https://e.com/").1 =
      .error (.tooManyRedirects cLoop) ∧
    cLoop.length = MAX_REDIRECTS + 2 ∧
    (∃ ext, cLoop = "https://e.com/" :: ext ∧
      linkedChain none netLoop "https://e.com/" ext) ∧
    (fetchWithRedirectsM none netLoop "https://e.com/").2.length ≤ MAX_REDIRECTS + 1 ∧
    (errorResult "https://e.com/" phW FetchMode.full FetchStrategy.direct
      "https://e.com/" (.tooManyRedirects cLoop)).details.status = 508 := by
  have h1 : (fetchWithRedirectsM none netLoop "https://e.com/").1 =
      .error (.tooManyRedirects cLoop) := rfl
  have h2 := C5_redirect_cap.2.1 none netLoop "https://e.com/" cLoop h1
  exact ⟨h1, h2.1, h2.2, C5_redirect_cap.1 none netLoop "https://e.com/",
    (C5_redirect_cap.2.2.1 "https://e.com/" phW FetchMode.full FetchStrategy.direct
      "https://e.com/" cLoop).2.1⟩

/-- C2: the Private-Network Guard runs before every request. A blocked
initial target returns isError=true with status 403 and an empty fetch
trace; every URL in the fetch trace of an attempt whose initial target
passed the Guard also passes the Guard; a redirect hop the Guard blocks
ends the fetch with redirectBlocked carrying the blocked URL and reason,
and that URL is absent from the trace; a smart candidate the Guard blocks
is skipped with a note and nothing is fetched for it; and the
redirectBlocked handler surfaces a 403 naming the blocked URL. -/
theorem C2_guard_before_every_fetch :
    (∀ (env : Option String) (net : String → NetResp) collectCands
        (maxLines maxBytes : Nat) (ph : RequestHeaderPreparation) (p : ExecParams)
        (targetUrl : ParsedUrl) (reason : String),
      normalizeUrl p.url = .ok targetUrl →
      getPrivateHostBlockReason env targetUrl.hostnameOf = some reason →
      (executeModel env net collectCands maxLines maxBytes ph false p).2 = [] ∧
      (executeModel env net collectCands maxLines maxBytes ph false p).1.isError
        = true ∧
      (executeModel env net collectCands maxLines maxBytes ph false p).1.details.status
        = 403) ∧
    (∀ (env : Option String) (net : String → NetResp) (maxLines maxBytes : Nat)
        (url : String) (mode : FetchMode) (maxChars : Nat),
      getPrivateHostBlockReason env (urlHostname url) = none →
      ∀ u ∈ (fetchAttemptM env net maxLines maxBytes url mode maxChars).2,
        getPrivateHostBlockReason env (urlHostname u) = none) ∧
    (∀ (env : Option String) (net : String → NetResp) (url u r : String),
      getPrivateHostBlockReason env (urlHostname url) = none →
      (fetchWithRedirectsM env net url).1 = .error (.redirectBlocked u r) →
      getPrivateHostBlockReason env (urlHostname u) = some r ∧
      u ∉ (fetchWithRedirectsM env net url).2) ∧
    (∀ (env : Option String) (net : String → NetResp) (maxLines maxBytes : Nat)
        (ru : String) (ph : RequestHeaderPreparation) (mode : FetchMode)
        (maxChars : Nat) (ts : String) (pa : FetchAttemptSuccessM)
        (allC : List SmartCandidate) (c : SmartCandidate)
        (rest : List SmartCandidate) (tr notes : List String) (cu : ParsedUrl)
        (reason : String),
      parseUrlF c.url = some cu →
      getPrivateHostBlockReason env cu.hostnameOf = some reason →
      smartLoop env net maxLines maxBytes ru ph mode maxChars ts pa allC
        (c :: rest) tr notes =
      smartLoop env net maxLines maxBytes ru ph mode maxChars ts pa allC
        rest tr
        (notes ++ ["Skipped alternate " ++ c.url ++ ": " ++ lower reason ++ "."])) ∧
    (∀ (ru : String) (ph : RequestHeaderPreparation) (mode : FetchMode)
        (strat : FetchStrategy) (ts u r : String),
      (errorResult ru ph mode strat ts (.redirectBlocked u r)).isError = true ∧
      (errorResult ru ph mode strat ts (.redirectBlocked u r)).details.status = 403 ∧
      (errorResult ru ph mode strat ts (.redirectBlocked u r)).details.finalUrl =
        redactUrlCredentials u) := by
  refine ⟨?_, ?_, ?_, ?_, ?_⟩
  · intro env net collectCands ml mb ph p targetUrl reason hnorm hguard
    unfold executeModel
    rw [if_neg (by decide)]
    simp only [hnorm, hguard]
    exact ⟨trivial, rfl, rfl⟩
  · intro env net ml mb url mode mc hg
    exact fetchAttemptM_trace_guard env net ml mb url mode mc hg
  · intro env net url u r hg h
    refine ⟨fwrGo_blocked env net (MAX_REDIRECTS + 1) url [url] [] u r h, ?_⟩
    intro hu
    have h2 := fwrGo_trace_guard env net (MAX_REDIRECTS + 1) url [url] [] hg
      (by simp) u hu
    have h1 := fwrGo_blocked env net (MAX_REDIRECTS + 1) url [url] [] u r h
    exact Option.noConfusion (h2.symm.trans h1)
  · intro env net ml mb ru ph mode mc ts pa allC c rest tr notes cu reason hcu hreason
    rw [smartLoop]
    simp only [hcu, hreason]
  · intro ru ph mode strat ts u r
    exact ⟨rfl, rfl, rfl⟩

/-- The authority form of the private target used in the C2 witness. -/
def tgtW : ParsedUrl :=
  .auth { scheme := "http", username := "", password := "", host := "10.0.0.5"
          port := "", path := "/x", query := "" }

/-- C2 witness: a concrete private target is rejected with 403 and no
fetch, and a concrete blocked smart candidate is skipped with a note. -/
theorem C2_witness :
    (executeModel none netPdf (fun _ _ _ _ => []) 1000 50000 phW false
      { url := "http://10.0.0.5/x" }).2 = [] ∧
    (executeModel none netPdf (fun _ _ _ _ => []) 1000 50000 phW false
      { url := "http://10.0.0.5/x" }).1.isError = true ∧
    (executeModel none netPdf (fun _ _ _ _ => []) 1000 50000 phW false
      { url := "http://10.0.0.5/x" }).1.details.status = 403 ∧
    smartLoop none netPdf 1000 50000 "u" phW FetchMode.full 12000 "t" attW []
      [{ url := "http://10.0.0.5/x", source := CandSource.githubRaw }] [] [] =
    smartLoop none netPdf 1000 50000 "u" phW FetchMode.full 12000 "t" attW []
      [] []
      ["Skipped alternate http://10.0.0.5/x: " ++
        lower "Blocked private IP host: 10.0.0.5" ++ "."] := by
  have h1 := C2_guard_before_every_fetch.1 none netPdf (fun _ _ _ _ => [])
    1000 50000 phW { url := "http://10.0.0.5/x" } tgtW
    "Blocked private IP host: 10.0.0.5" rfl rfl
  have h4 := C2_guard_before_every_fetch.2.2.2.1 none netPdf 1000 50000 "u" phW
    FetchMode.full 12000 "t" attW []
    { url := "http://10.0.0.5/x", source := CandSource.githubRaw } [] [] [] tgtW
    "Blocked private IP host: 10.0.0.5" rfl rfl
  exact ⟨h1.1, h1.2.1, h1.2.2, h4⟩

theorem contains_mem {l : List String} {u : String} :
    l.contains u = true ↔ u ∈ l := by simp

theorem dedupeAux_nodup : ∀ (cands : List SmartCandidate) (seen : List String),
    ((dedupeAux cands seen).map (fun c => c.url)).Nodup ∧
    ∀ u ∈ (dedupeAux cands seen).map (fun c => c.url), u ∉ seen := by
  intro cands
  induction cands with
  | nil =>
    intro seen
    simp [dedupeAux]
  | cons c rest ih =>
    intro seen
    by_cases hc : ((jsTrim c.url).data.isEmpty || seen.contains (jsTrim c.url)) = true
    · rw [dedupeAux, if_pos hc]
      exact ih seen
    · rw [dedupeAux, if_neg hc]
      simp only [Bool.or_eq_true, not_or] at hc
      obtain ⟨-, hseen⟩ := hc
      have hnot : jsTrim c.url ∉ seen := fun hm => hseen (contains_mem.mpr hm)
      obtain ⟨ihn, ihm⟩ := ih (jsTrim c.url :: seen)
      rw [List.map_cons]
      refine ⟨List.nodup_cons.mpr ⟨fun hm => ihm _ hm (List.mem_cons_self _ _), ihn⟩, ?_⟩
      intro u hu
      rcases List.mem_cons.mp hu with h | h
      · subst h
        exact hnot
      · exact fun hm => ihm u h (List.mem_cons_of_mem _ hm)

theorem isUsefulSmartAlternate_iff (av : FetchAttemptSuccessM) :
    isUsefulSmartAlternate av = true ↔
      (200 ≤ av.status ∧ av.status < 300 ∧ av.jsShellDetection.detected = false ∧
        (jsTrim ⟨collapseWsAux av.streamed.text.data.length
          av.streamed.text.data⟩).data.isEmpty = false) := by
  unfold isUsefulSmartAlternate
  by_cases h1 : (av.status < 200 || 300 ≤ av.status) = true
  · rw [if_pos h1]
    simp only [Bool.or_eq_true, decide_eq_true_eq] at h1
    simp only [Bool.false_eq_true, false_iff]
    rintro ⟨ha, hb, -⟩
    rcases h1 with h | h <;> omega
  · rw [if_neg h1]
    simp only [Bool.or_eq_true, decide_eq_true_eq, not_or, not_lt, not_le] at h1
    obtain ⟨ha, hb⟩ := h1
    by_cases h2 : av.jsShellDetection.detected = true
    · rw [if_pos h2]
      simp [h2]
    · rw [if_neg h2]
      simp only [Bool.not_eq_true] at h2
      simp [ha, hb, h2, Bool.not_eq_true']

/-- C7: dedupe leaves pairwise-distinct candidate URLs; usefulness means a
2xx status, no JS-shell verdict, and non-whitespace text; the first useful
candidate ends the loop at once with its attempt as the overall result,
alternateUrlUsed set to that candidate URL, and a trace extended only by
that candidate's fetches — independent of any later candidate and with no
fallback fetch of the original URL; and the surfaced alternateUrlUsed is
the redacted candidate URL. -/
theorem C7_smart_first_useful :
    (∀ raw : List SmartCandidate,
      ((dedupeSmartCandidates raw).map (fun c => c.url)).Nodup) ∧
    (∀ av : FetchAttemptSuccessM,
      isUsefulSmartAlternate av = true ↔
        (200 ≤ av.status ∧ av.status < 300 ∧ av.jsShellDetection.detected = false ∧
          (jsTrim ⟨collapseWsAux av.streamed.text.data.length
            av.streamed.text.data⟩).data.isEmpty = false)) ∧
    (∀ (env : Option String) (net : String → NetResp) (maxLines maxBytes : Nat)
        (ru : String) (ph : RequestHeaderPreparation) (mode : FetchMode)
        (maxChars : Nat) (ts : String) (pa : FetchAttemptSuccessM)
        (allC : List SmartCandidate) (c : SmartCandidate)
        (rest : List SmartCandidate) (tr notes : List String) (cu : ParsedUrl)
        (av : FetchAttemptSuccessM) (tr2 : List String),
      parseUrlF c.url = some cu →
      getPrivateHostBlockReason env cu.hostnameOf = none →
      fetchAttemptM env net maxLines maxBytes cu.toStr mode maxChars =
        (.ok (.success av), tr2) →
      isUsefulSmartAlternate av = true →
      smartLoop env net maxLines maxBytes ru ph mode maxChars ts pa allC
        (c :: rest) tr notes =
        (buildResultFromAttempt ru ph mode FetchStrategy.smart av false none
          allC (some c.url)
          (notes ++ ["Using alternate source from " ++ CandSource.toStr c.source ++
            ": " ++ c.url]),
         tr ++ tr2)) ∧
    (∀ (ru : String) (ph : RequestHeaderPreparation) (mode : FetchMode)
        (strat : FetchStrategy) (av : FetchAttemptSuccessM) (isErr : Bool)
        (bo : Option String) (allC : List SmartCandidate) (u : String)
        (notes : List String),
      (buildResultFromAttempt ru ph mode strat av isErr bo allC (some u)
        notes).details.alternateUrlUsed =
        if u.data.isEmpty then none else some (redactUrlCredentials u)) := by
  refine ⟨fun raw => (dedupeAux_nodup raw []).1, isUsefulSmartAlternate_iff,
    ?_, fun ru ph mode strat av isErr bo allC u notes => rfl⟩
  intro env net ml mb ru ph mode mc ts pa allC c rest tr notes cu av tr2
    hcu hguard hatt huse
  rw [smartLoop]
  simp [hcu, hguard, hatt, huse]

/-- The network of the C7 witness: markdown everywhere. -/
def netMd : String → NetResp := fun _ =>
  { status := 200, statusText := "OK", contentType := some "text/markdown"
    contentLength := none, link := none, location := none
    bodyChunks := [[104, 105]] }

/-- The parsed form of the C7 witness candidate URL. -/
def cuMd : ParsedUrl :=
  .auth { scheme := "https", username := "", password := "", host := "e.com"
          port := "", path := "/page.md", query := "" }

/-- The successful attempt netMd yields for the witness candidate. -/
def avMd : FetchAttemptSuccessM :=
  { status := 200, statusText := "OK", contentType := "text/markdown"
    contentLength := none, linkHeader := none, finalUrl := "https://e.com/page.md"
    redirectChain := ["https://e.com/page.md"]
    streamed := streamResponseTextM 1000 50000 [[104, 105]] 12000
    jsShellDetection := detectJsShell "text/markdown"
      (streamResponseTextM 1000 50000 [[104, 105]] 12000).text }

/-- C7 witness: with a second candidate still pending, the loop returns
the first useful candidate's attempt and fetches only it; a raw list with
a duplicate and an empty entry dedupes to distinct URLs. -/
theorem C7_witness :
    smartLoop none netMd 1000 50000 "u" phW FetchMode.full 12000 "t" attW []
      [{ url := "https://e.com/page.md", source := CandSource.httpLinkHeader },
       { url := "https://x.com/", source := CandSource.githubRaw }] [] [] =
      (buildResultFromAttempt "u" phW FetchMode.full FetchStrategy.smart avMd
        false none [] (some "https://e.com/page.md")
        ["Using alternate source from " ++ CandSource.toStr CandSource.httpLinkHeader ++
          ": " ++ "https://e.com/page.md"],
       ["https://e.com/page.md"]) ∧
    ((dedupeSmartCandidates
        [{ url := " a ", source := CandSource.githubRaw },
         { url := "a", source := CandSource.wordpressApi },
         { url := "", source := CandSource.githubRaw }]).map (fun c => c.url)).Nodup := by
  refine ⟨?_, C7_smart_first_useful.1 _⟩
  have h := C7_smart_first_useful.2.2.1 none netMd 1000 50000 "u" phW FetchMode.full
    12000 "t" attW []
    { url := "https://e.com/page.md", source := CandSource.httpLinkHeader }
    [{ url := "https://x.com/", source := CandSource.githubRaw }] [] [] cuMd avMd
    ["https://e.com/page.md"] rfl rfl rfl rfl
  exact h

theorem truncateHead_truncatedBy {ml mb : Nat} {s : String}
    (h : (truncateHead ml mb s).truncated = true) :
    (truncateHead ml mb s).truncatedBy ≠ none := by
  unfold truncateHead at h ⊢
  split at h
  · split <;> simp
  · simp at h

theorem appendChunkToHead_inv (ml mb : Nat) (head : String)
    (ht : Option TruncationResult) (ct : String)
    (hht : ht = none ∨ ∃ t, ht = some t ∧ t.truncatedBy ≠ none) :
    (appendChunkToHead ml mb head ht ct).2 = none ∨
      ∃ t, (appendChunkToHead ml mb head ht ct).2 = some t ∧ t.truncatedBy ≠ none := by
  unfold appendChunkToHead
  by_cases hc : (ht.isSome || ct.data.isEmpty) = true
  · rw [if_pos hc]
    exact hht
  · rw [if_neg hc]
    by_cases htr : (truncateHead ml mb (head ++ ct)).truncated = true
    · rw [if_pos htr]
      exact Or.inr ⟨_, rfl, truncateHead_truncatedBy htr⟩
    · rw [if_neg htr]
      exact Or.inl rfl

theorem streamChunks_inv (ml mb : Nat) :
    ∀ (chunks : List (List Nat)) (head : String) (ht : Option TruncationResult)
      (total : Nat),
    (ht = none ∨ ∃ t, ht = some t ∧ t.truncatedBy ≠ none) →
    ((streamChunks ml mb chunks head ht total).2.1 = none ∨
      ∃ t, (streamChunks ml mb chunks head ht total).2.1 = some t ∧
        t.truncatedBy ≠ none) := by
  intro chunks
  induction chunks with
  | nil =>
    intro head ht total hht
    exact hht
  | cons chunk rest ih =>
    intro head ht total hht
    rw [streamChunks]
    exact ih _ _ _ (appendChunkToHead_inv ml mb head ht (decodeChunk chunk) hht)

theorem buildStreamedText_flags (head : String) (total mc : Nat) (path : String)
    (ht : Option TruncationResult)
    (hht : ht = none ∨ ∃ t, ht = some t ∧ t.truncatedBy ≠ none) :
    ((buildStreamedText head total mc path ht).truncated =
      ((match (buildStreamedText head total mc path ht).truncation with
        | some t => t.truncatedBy == some TruncBy.lines
        | none => false) ||
       (match (buildStreamedText head total mc path ht).truncation with
        | some t => t.truncatedBy == some TruncBy.bytes
        | none => false) ||
       (buildStreamedText head total mc path ht).charTruncated)) ∧
    ((buildStreamedText head total mc path ht).truncated = true ↔
      (buildStreamedText head total mc path ht).fullOutputPath ≠ none) := by
  unfold buildStreamedText
  by_cases hc : (ht.isSome || decide (mc < head.length)) = true
  · rw [if_pos hc]
    refine ⟨?_, by simp⟩
    rcases Bool.or_eq_true _ _ |>.mp hc with hsome | hchar
    · rcases hht with hn | ⟨t, hts, htb⟩
      · rw [hn] at hsome
        exact absurd hsome (by simp)
      · rw [hts]
        cases htb2 : t.truncatedBy with
        | none => exact absurd htb2 htb
        | some b =>
          cases b <;> simp [htb2]
    · simp [hchar]
  · rw [if_neg hc]
    simp

/-- The probe-mode counterexample body: one chunk of exactly the probe
byte budget. -/
def probeChunk : List Nat := List.replicate 8192 97

/-- The attempt record of the C3 counterexample: a probe capture that
read its whole byte budget but needed no character cut. -/
def attProbe : FetchAttemptSuccessM :=
  { status := 200, statusText := "OK", contentType := "text/plain"
    contentLength := none, linkHeader := none, finalUrl := "https://e.com/"
    redirectChain := ["https://e.com/"]
    streamed := probeResponseTextM [probeChunk] 12000 DEFAULT_PROBE_MAX_BYTES
    jsShellDetection := { detected := false, signals := [] } }

theorem probeAssemble_truncated (br : Nat) (s : String) (lr : Bool) (mc pbl : Nat) :
    (probeAssemble br s lr mc pbl).truncated = (lr || decide (mc < s.length)) := rfl

theorem probeAssemble_charTruncated (br : Nat) (s : String) (lr : Bool) (mc pbl : Nat) :
    (probeAssemble br s lr mc pbl).charTruncated = decide (mc < s.length) := rfl

theorem probeAssemble_truncation (br : Nat) (s : String) (lr : Bool) (mc pbl : Nat) :
    (probeAssemble br s lr mc pbl).truncation = none := rfl

theorem probeAssemble_path (br : Nat) (s : String) (lr : Bool) (mc pbl : Nat) :
    (probeAssemble br s lr mc pbl).fullOutputPath = none := rfl

theorem brfa_truncated (ru : String) (ph : RequestHeaderPreparation) (mode : FetchMode)
    (strat : FetchStrategy) (att : FetchAttemptSuccessM) (isErr : Bool)
    (bo : Option String) (cands : List SmartCandidate) (used : Option String)
    (notes : List String) :
    (buildResultFromAttempt ru ph mode strat att isErr bo cands used
      notes).details.truncated = att.streamed.truncated := rfl

theorem brfa_byLines (ru : String) (ph : RequestHeaderPreparation) (mode : FetchMode)
    (strat : FetchStrategy) (att : FetchAttemptSuccessM) (isErr : Bool)
    (bo : Option String) (cands : List SmartCandidate) (used : Option String)
    (notes : List String) :
    (buildResultFromAttempt ru ph mode strat att isErr bo cands used
      notes).details.truncatedByLines =
      (match att.streamed.truncation with
       | some t => t.truncatedBy == some TruncBy.lines
       | none => false) := rfl

theorem brfa_byBytes (ru : String) (ph : RequestHeaderPreparation) (mode : FetchMode)
    (strat : FetchStrategy) (att : FetchAttemptSuccessM) (isErr : Bool)
    (bo : Option String) (cands : List SmartCandidate) (used : Option String)
    (notes : List String) :
    (buildResultFromAttempt ru ph mode strat att isErr bo cands used
      notes).details.truncatedByBytes =
      (match att.streamed.truncation with
       | some t => t.truncatedBy == some TruncBy.bytes
       | none => false) := rfl

theorem brfa_byMaxChars (ru : String) (ph : RequestHeaderPreparation) (mode : FetchMode)
    (strat : FetchStrategy) (att : FetchAttemptSuccessM) (isErr : Bool)
    (bo : Option String) (cands : List SmartCandidate) (used : Option String)
    (notes : List String) :
    (buildResultFromAttempt ru ph mode strat att isErr bo cands used
      notes).details.truncatedByMaxChars = att.streamed.charTruncated := rfl

theorem brfa_path (ru : String) (ph : RequestHeaderPreparation) (mode : FetchMode)
    (strat : FetchStrategy) (att : FetchAttemptSuccessM) (isErr : Bool)
    (bo : Option String) (cands : List SmartCandidate) (used : Option String)
    (notes : List String) :
    (buildResultFromAttempt ru ph mode strat att isErr bo cands used
      notes).details.fullOutputPath = att.streamed.fullOutputPath := rfl

/-- C3 counterexample: a probe capture that exhausts the probe byte budget
yields a details record with truncated = true while all three sub-flags
are false and no fullOutputPath is present, refuting both directions of
the claimed equivalences. -/
theorem C3_counterexample :
    (buildResultFromAttempt "u" phW FetchMode.probe FetchStrategy.direct attProbe
      false none [] none []).details.truncated = true ∧
    (buildResultFromAttempt "u" phW FetchMode.probe FetchStrategy.direct attProbe
      false none [] none []).details.truncatedByLines = false ∧
    (buildResultFromAttempt "u" phW FetchMode.probe FetchStrategy.direct attProbe
      false none [] none []).details.truncatedByBytes = false ∧
    (buildResultFromAttempt "u" phW FetchMode.probe FetchStrategy.direct attProbe
      false none [] none []).details.truncatedByMaxChars = false ∧
    (buildResultFromAttempt "u" phW FetchMode.probe FetchStrategy.direct attProbe
      false none [] none []).details.fullOutputPath = none := by
  have hplen : probeChunk.length = 8192 := by
    unfold probeChunk
    exact List.length_replicate 8192 97
  have hloop : probeLoop DEFAULT_PROBE_MAX_BYTES [probeChunk] 0 "" false =
      (0 + probeChunk.length, "" ++ decodeChunk probeChunk, false) := by
    rw [probeLoop, if_neg (by decide), if_pos ?_, probeLoop]
    rw [hplen]
    decide
  have hn : ((0 + probeChunk.length, "" ++ decodeChunk probeChunk, false) :
      Nat × String × Bool) = (8192, decodeChunk probeChunk, false) := by
    rw [hplen]
    exact rfl
  have hloop2 := hloop.trans hn
  have hstream : probeResponseTextM [probeChunk] 12000 DEFAULT_PROBE_MAX_BYTES =
      probeAssemble 8192 (decodeChunk probeChunk) true 12000 DEFAULT_PROBE_MAX_BYTES := by
    unfold probeResponseTextM
    rw [hloop2]
    exact rfl
  have hsa : attProbe.streamed = probeResponseTextM [probeChunk] 12000
      DEFAULT_PROBE_MAX_BYTES := rfl
  have hlen2 : (decodeChunk probeChunk).length = 8192 := by
    show (List.map Char.ofNat probeChunk).length = 8192
    rw [List.length_map]
    exact hplen
  have e1 := brfa_truncated "u" phW FetchMode.probe FetchStrategy.direct attProbe
    false none [] none []
  have eL := brfa_byLines "u" phW FetchMode.probe FetchStrategy.direct attProbe
    false none [] none []
  have eB := brfa_byBytes "u" phW FetchMode.probe FetchStrategy.direct attProbe
    false none [] none []
  have eM := brfa_byMaxChars "u" phW FetchMode.probe FetchStrategy.direct attProbe
    false none [] none []
  have eP := brfa_path "u" phW FetchMode.probe FetchStrategy.direct attProbe
    false none [] none []
  rw [hsa, hstream] at e1 eL eB eM eP
  rw [probeAssemble_truncated] at e1
  rw [probeAssemble_truncation] at eL eB
  rw [probeAssemble_charTruncated] at eM
  rw [probeAssemble_path] at eP
  rw [hlen2] at e1 eM
  refine ⟨e1.trans (by decide), eL.trans rfl, eB.trans rfl, eM.trans (by decide), eP⟩

/-- C3 amended: for every full-mode capture the equivalence holds — the
details record built from an attempt whose streamed text came from
streamResponseText has truncated equal to the disjunction of the three
sub-flags, and truncated = true exactly when fullOutputPath is present.
Probe-mode captures do not satisfy it. -/
theorem C3_truncation_flags_full_mode (ru : String) (ph : RequestHeaderPreparation)
    (mode : FetchMode) (strat : FetchStrategy) (st : Nat) (stx ct : String)
    (cl : Option Nat) (lh : Option String) (fu : String) (chain : List String)
    (ml mb : Nat) (chunks : List (List Nat)) (mc : Nat) (jd : JsShellDetection)
    (isErr : Bool) (bo : Option String) (cands : List SmartCandidate)
    (used : Option String) (notes : List String) :
    ((buildResultFromAttempt ru ph mode strat
        { status := st, statusText := stx, contentType := ct, contentLength := cl
          linkHeader := lh, finalUrl := fu, redirectChain := chain
          streamed := streamResponseTextM ml mb chunks mc, jsShellDetection := jd }
        isErr bo cands used notes).details.truncated =
      ((buildResultFromAttempt ru ph mode strat
        { status := st, statusText := stx, contentType := ct, contentLength := cl
          linkHeader := lh, finalUrl := fu, redirectChain := chain
          streamed := streamResponseTextM ml mb chunks mc, jsShellDetection := jd }
        isErr bo cands used notes).details.truncatedByLines ||
       (buildResultFromAttempt ru ph mode strat
        { status := st, statusText := stx, contentType := ct, contentLength := cl
          linkHeader := lh, finalUrl := fu, redirectChain := chain
          streamed := streamResponseTextM ml mb chunks mc, jsShellDetection := jd }
        isErr bo cands used notes).details.truncatedByBytes ||
       (buildResultFromAttempt ru ph mode strat
        { status := st, statusText := stx, contentType := ct, contentLength := cl
          linkHeader := lh, finalUrl := fu, redirectChain := chain
          streamed := streamResponseTextM ml mb chunks mc, jsShellDetection := jd }
        isErr bo cands used notes).details.truncatedByMaxChars)) ∧
    ((buildResultFromAttempt ru ph mode strat
        { status := st, statusText := stx, contentType := ct, contentLength := cl
          linkHeader := lh, finalUrl := fu, redirectChain := chain
          streamed := streamResponseTextM ml mb chunks mc, jsShellDetection := jd }
        isErr bo cands used notes).details.truncated = true ↔
      (buildResultFromAttempt ru ph mode strat
        { status := st, statusText := stx, contentType := ct, contentLength := cl
          linkHeader := lh, finalUrl := fu, redirectChain := chain
          streamed := streamResponseTextM ml mb chunks mc, jsShellDetection := jd }
        isErr bo cands used notes).details.fullOutputPath ≠ none) := by
  have h := buildStreamedText_flags (streamChunks ml mb chunks "" none 0).1
    (streamChunks ml mb chunks "" none 0).2.2 mc tempOutputPath
    (streamChunks ml mb chunks "" none 0).2.1
    (streamChunks_inv ml mb chunks "" none 0 (Or.inl rfl))
  exact ⟨h.1, h.2⟩

end Webfetch
